import Mathlib

/-!
# radsecproxy `gconfig.c`: the configuration reader

A shallow embedding of `strtokenquote`, the file stack (`pushgconffile`,
`pushgconffiles`, `popgconffile`), `getconfigline` and `getgenericconfig`, and
of the packet dump `print_hex` of `lib/debug.c`.

Conventions of the embedding.

* A C `char` is a `Char`; byte 0 is `NUL`.  A C string is the list of its
  characters before the terminating NUL (`CString`).
* The line buffer `char line[1024]` is a list of characters holding every byte
  of the buffer, terminators included; a `char *` into it is an index.  A read
  outside the list is reported as `fault`.
* A `FILE *` opened for reading is the list of characters not yet read; `NULL`
  is `none`.
* `struct gconffile *` is `none` for `NULL`, otherwise the list of entries in
  front of the terminating entry (the one whose `path` is `NULL`).
* `malloc`, `realloc` and `stringcopy` are taken to succeed, and the argument
  `cf` itself is taken to be the address of a variable (never `NULL`).
* Messages sent to `debug` at level `DBG_ERR` are collected in a log; the
  informational levels are left out.
-/

namespace Gconfig

/-! ## Characters and C strings -/

abbrev CString := List Char

def NUL : Char := Char.ofNat 0
def TAB : Char := Char.ofNat 9
def LF : Char := Char.ofNat 10
def CR : Char := Char.ofNat 13
def SP : Char := Char.ofNat 32
def DQUOTE : Char := Char.ofNat 34
def HASH : Char := Char.ofNat 35
def SQUOTE : Char := Char.ofNat 39
def SLASH : Char := Char.ofNat 47
def EQUALS : Char := Char.ofNat 61
def LBRACE : Char := Char.ofNat 123
def RBRACE : Char := Char.ofNat 125

/-- The delimiter set `" \t\r\n"` that `getconfigline` passes to the tokenizer. -/
def DELIMS : CString := [SP, TAB, CR, LF]

/-- The quote set `"\"'"` that `getconfigline` passes to the tokenizer. -/
def QUOTES : CString := [DQUOTE, SQUOTE]

/-- The comment set `"#"`, passed for the first token of a line only. -/
def COMMENTS : CString := [HASH]

/-- The libc `strchr(s, c)`: the index of the first `c` in `s`, where the
terminating NUL counts as part of the string. -/
def strchr : CString → Char → Option Nat
  | [], c => if c = NUL then some 0 else none
  | x :: xs, c => if x = c then some 0 else (strchr xs c).map (· + 1)

/-- The character a pointer returned by `strchr` points at. -/
def derefStr (s : CString) (i : Nat) : Char := s.getD i NUL

/-- The libc `tolower` in the C locale. -/
def tolower (c : Char) : Char :=
  if 65 ≤ c.toNat ∧ c.toNat ≤ 90 then Char.ofNat (c.toNat + 32) else c

/-- The libc `strcasecmp`: zero exactly when the strings agree up to ASCII case. -/
def strcasecmp : CString → CString → Int
  | [], [] => 0
  | [], b :: _ => 0 - ((tolower b).toNat : Int)
  | a :: _, [] => ((tolower a).toNat : Int)
  | a :: as, b :: bs =>
    if tolower a = tolower b then strcasecmp as bs
    else ((tolower a).toNat : Int) - ((tolower b).toNat : Int)

/-- The C string that starts at the head of `mem` (what `strlen`/`stringcopy`
read); `none` when no terminator is found inside the buffer. -/
def cstr : List Char → Option CString
  | [] => none
  | c :: rest => if c = NUL then some [] else (cstr rest).map (c :: ·)

/-- Modelled from the spec: `stringcopy` of util.c is not among the sources; it
returns an owned copy of the C string at `p` (allocation taken to succeed). -/
def stringcopy (mem : List Char) (p : Nat) : Option CString := cstr (mem.drop p)

/-! ## The tokenizer -/

/-- One scanning loop `while (*t && p(*t)) t++` started at cursor `t`, whose
unread bytes are the first argument.  It yields the cursor where it stops, the
character there and the bytes after it; `none` when it runs off the buffer. -/
def scan (p : Char → Bool) : List Char → Nat → Option (Nat × Char × List Char)
  | [], _ => none
  | c :: rest, t => if c ≠ NUL ∧ p c = true then scan p rest (t + 1) else some (t, c, rest)

/-- Result of `strtokenquote`. -/
inductive TokRes where
  /-- The `return NULL` exits. -/
  | null
  /-- A non-NULL return: the buffer as left by the call, `*token` (`none` for
  `NULL`) and the returned cursor. -/
  | ok (mem : List Char) (token : Option Nat) (next : Nat)
  /-- A read outside the buffer. -/
  | fault
  deriving DecidableEq, Repr

/-- The tokenizer `strtokenquote(s, token, del, quote, comment)` on the buffer
`mem`.  `s`, `del`, `quote` and `comment` are `none` for `NULL`; `token` tells
whether the token slot is non-NULL. -/
def strtokenquote (mem : List Char) (s : Option Nat) (token : Bool)
    (del quote comment : Option CString) : TokRes :=
  match s, token, del with
  | some s, true, some del =>
    match scan (fun c => (strchr del c).isSome) (mem.drop s) s with
    | none => .fault
    | some (t, c, rest) =>
      if c = NUL ∨ (comment.bind (fun cm => strchr cm c)).isSome then
        .ok mem none (t + 1)
      else
        match quote, quote.bind (fun qs => strchr qs c) with
        | some qs, some q =>
          match scan (fun x => decide (x ≠ derefStr qs q)) rest (t + 1) with
          | none => .fault
          | some (t2, c2, rest2) =>
            if c2 = NUL then .null
            else
              match rest2 with
              | [] => .fault
              | c3 :: _ =>
                if c3 ≠ NUL ∧ (strchr del c3).isNone then .null
                else .ok (mem.set t2 NUL) (some (t + 1)) (t2 + 1)
        | _, _ =>
          match scan (fun x => (strchr del x).isNone) rest (t + 1) with
          | none => .fault
          | some (t3, _, _) => .ok (mem.set t3 NUL) (some t) (t3 + 1)
  | _, _, _ => .null

/-! ## The file stack -/

/-- One `struct gconffile`: the stream (`none` for a NULL `file`) and the path. -/
structure GConfFile where
  file : Option (List Char)
  path : CString
  deriving DecidableEq, Repr

/-- The value of `*cf`: `none` is `NULL`, `some l` an array whose entries before
the terminating one are `l`. -/
abbrev CfStack := Option (List GConfFile)

/-- The services of the C library and the file system that the reader calls. -/
structure Env where
  /-- The call `fopen(path, "r")`: the contents of the file, `none` on failure. -/
  fopen : CString → Option (List Char)
  /-- The call `glob(path, 0, NULL, &globbuf)`: `gl_pathv` when it returns 0,
  `none` when it returns an error (no match included). -/
  glob : CString → Option (List CString)
  /-- The libc `dirname`. -/
  dirname : CString → CString

/-- The function `pushgconffile(cf, path)`: the new `*cf` and the returned handle. -/
def pushgconffile (env : Env) (cf : CfStack) (path : CString) :
    CfStack × Option (List Char) :=
  match env.fopen path with
  | none => (cf, none)
  | some f =>
    match cf with
    | none => (some [⟨some f, path⟩], some f)
    | some l => (some (⟨some f, path⟩ :: l), some f)

/-- Lines 100-119 of `pushgconffiles`: the pattern handed to `glob`.  `none`
stands for the dereference of a NULL `*cf` or of a NULL path. -/
def resolvePath (env : Env) (cf : CfStack) (cfgpath : CString) : Option CString :=
  if cfgpath.head? = some SLASH then some cfgpath
  else
    match cf with
    | some (top :: _) => some (env.dirname top.path ++ [SLASH] ++ cfgpath)
    | _ => none

/-- The loop `for (i = gl_pathc - 1; i >= 0; i--)` of `pushgconffiles`, run over
the paths still to push (last match first), with the current value of `f`. -/
def pushLoop (env : Env) : List CString → CfStack → Option (List Char) →
    CfStack × Option (List Char)
  | [], cf, f => (cf, f)
  | p :: ps, cf, _ =>
    match pushgconffile env cf p with
    | (cf1, none) => (cf1, none)
    | (cf1, some f) => pushLoop env ps cf1 (some f)

/-- The function `pushgconffiles(cf, cfgpath)`: `none` when it dereferences a
NULL pointer, otherwise the new `*cf` and the returned handle. -/
def pushgconffiles (env : Env) (cf : CfStack) (cfgpath : CString) :
    Option (CfStack × Option (List Char)) :=
  match resolvePath env cf cfgpath with
  | none => none
  | some path =>
    match env.glob path with
    | none => some (cf, none)
    | some pathv => some (pushLoop env pathv.reverse cf none)

/-- The function `popgconffile(cf)`: the new `*cf` and the returned handle. -/
def popgconffile (cf : CfStack) : CfStack × Option (List Char) :=
  match cf with
  | none => (none, none)
  | some [] => (none, none)
  | some [_] => (none, none)
  | some (_ :: next :: rest) => (some (next :: rest), next.file)

/-- Modelled from the spec: the kind tags of gconfig.h, which is not among the
sources; four distinct non-zero values. -/
def CONF_STR : Nat := 1

/-- Modelled from the spec: tag of a block-callback binding (gconfig.h). -/
def CONF_CBK : Nat := 2

/-- Modelled from the spec: tag of a multi-string binding (gconfig.h). -/
def CONF_MSTR : Nat := 3

/-- Modelled from the spec: tag of a boolean binding (gconfig.h). -/
def CONF_BLN : Nat := 4

/-! ## The line classifier -/

/-- The messages `getconfigline` and `getgenericconfig` send to `debug` at level
`DBG_ERR`, one constructor for each format string, with its arguments. -/
inductive Diag where
  /-- Syntax error in line starting with: (the line buffer). -/
  | lineStart (line : Option CString)
  /-- Found a closing brace with no matching opening brace. -/
  | strayClose
  /-- Configuration error in block, line starting with (first token). -/
  | badLineInBlock (block : CString) (tok : Option CString)
  /-- Syntax error in line starting with (first token). -/
  | badLine (tok : Option CString)
  /-- Option needs a non-empty value. -/
  | emptyValue (opt : Option CString)
  /-- Failed to include config file. -/
  | includeFailed (val : CString)
  /-- Configuration error in block, unknown option. -/
  | unknownInBlock (block opt : CString)
  /-- Unknown option. -/
  | unknownOption (opt : CString)
  /-- Configuration error in block, wrong syntax for option. -/
  | wrongKindInBlock (block opt : CString)
  /-- Wrong syntax for option. -/
  | wrongKind (opt : CString)
  /-- Option already set to (current value). -/
  | alreadySet (opt cur : CString)
  /-- Configuration error in block, value for option must be on or off. -/
  | badBoolInBlock (block opt val : CString)
  /-- Value for option must be on or off. -/
  | badBool (opt val : CString)
  /-- Internal parameter error. -/
  | paramError
  deriving DecidableEq, Repr

/-- What one `fgets` call with room for `n` characters takes from a stream:
the characters read and the rest of the stream. -/
def fgetsChunk : Nat → List Char → List Char × List Char
  | 0, s => ([], s)
  | _ + 1, [] => ([], [])
  | n + 1, c :: s =>
    if c = LF then ([c], s) else (c :: (fgetsChunk n s).1, (fgetsChunk n s).2)

/-- The call `fgets(line, size, f)`: `none` for NULL (end of file, buffer left
alone), otherwise the buffer with the characters read and a NUL written over
its first bytes, and the rest of the stream. -/
def fgets (line : List Char) (size : Nat) (f : List Char) :
    Option (List Char × List Char) :=
  match f with
  | [] => none
  | _ :: _ =>
    some ((fgetsChunk (size - 1) f).1 ++ NUL :: line.drop ((fgetsChunk (size - 1) f).1.length + 1),
      (fgetsChunk (size - 1) f).2)

/-- Outcome of the token loop of `getconfigline`. -/
inductive TokLoop where
  /-- The tokenizer returned NULL. -/
  | error (mem : List Char)
  /-- A read outside the buffer. -/
  | fault
  /-- The loop ended: the buffer and `tokens[0 .. tcount-1]`. -/
  | done (mem : List Char) (tokens : List Nat)
  deriving DecidableEq, Repr

/-- The loop `for (tcount = 0; tcount < 3; tcount++)` of `getconfigline`: the
first argument counts the rounds left, `toks` are the tokens found so far
(`tcount` is their number) and `s` is the cursor. -/
def tokenLoop : Nat → List Char → Nat → List Nat → TokLoop
  | 0, mem, _, toks => .done mem toks
  | k + 1, mem, s, toks =>
    match strtokenquote mem (some s) true (some DELIMS) (some QUOTES)
        (if toks.length = 0 then some COMMENTS else none) with
    | .null => .error mem
    | .fault => .fault
    | .ok mem1 none _ => .done mem1 toks
    | .ok mem1 (some tok) s1 => tokenLoop k mem1 s1 (toks ++ [tok])

/-- The test `tok[0] == c && tok[1] == '\0'`; `none` for a read outside the buffer. -/
def tokenIs (mem : List Char) (tok : Nat) (c : Char) : Option Bool :=
  match mem.get? tok with
  | none => none
  | some x =>
    if x = c then
      match mem.get? (tok + 1) with
      | none => none
      | some y => some (decide (y = NUL))
    else some false

/-- Result of `getconfigline`. -/
inductive LineRes where
  /-- The call returned `r`, leaving `*cf`, `*opt`, `*val` and `*conftype` as
  given and having logged `log`. -/
  | ret (r : Nat) (cf : CfStack) (opt val : Option CString) (conftype : Nat)
      (log : List Diag)
  /-- A read outside the line buffer or through a NULL pointer. -/
  | fault
  /-- The loop bound of the embedding was reached. -/
  | nofuel
  deriving DecidableEq, Repr

/-- The end of `getconfigline` after the copies: lines 263-277. -/
def finishLine (mem : List Char) (cf : CfStack) (topt tval : Nat) (conftype : Nat) :
    LineRes :=
  match stringcopy mem topt, stringcopy mem tval with
  | some opt, some val =>
    if val ≠ [] then .ret 1 cf (some opt) (some val) conftype []
    else .ret 0 cf none none conftype [.emptyValue (some opt)]
  | _, _ => .fault

/-- The `default:` exit of the switch of `getconfigline`. -/
def badShape (block : Option CString) (mem : List Char) (cf : CfStack) (t0 : Nat) :
    LineRes :=
  match block with
  | some b => .ret 0 cf none none 0 [.badLineInBlock b (stringcopy mem t0)]
  | none => .ret 0 cf none none 0 [.badLine (stringcopy mem t0)]

/-- The `switch (tcount)` of `getconfigline`, lines 223-261. -/
def classify (block : Option CString) (mem : List Char) (cf : CfStack) :
    List Nat → LineRes
  | [t0, t1] => finishLine mem cf t0 t1 CONF_STR
  | [t0, t1, t2] =>
    match tokenIs mem t1 EQUALS with
    | none => .fault
    | some true => finishLine mem cf t0 t2 CONF_STR
    | some false =>
      match tokenIs mem t2 LBRACE with
      | none => .fault
      | some true => finishLine mem cf t0 t1 CONF_CBK
      | some false => badShape block mem cf t0
  | t0 :: _ => badShape block mem cf t0
  | [] => .fault

/-- The `for (;;)` loop of `getconfigline`, lines 195-221, followed by the
switch.  `line` is the current content of the line buffer and the first
argument bounds the number of rounds. -/
def lineLoop (block : Option CString) : Nat → List Char → CfStack → LineRes
  | 0, _, _ => .nofuel
  | fuel + 1, line, cf =>
    match cf with
    | some (⟨some f, path⟩ :: rest) =>
      match fgets line 1024 f with
      | none =>
        match popgconffile cf with
        | (cf1, some _) => lineLoop block fuel line cf1
        | (cf1, none) => .ret 1 cf1 none none 0 []
      | some (line1, f1) =>
        match tokenLoop 3 line1 0 [] with
        | .fault => .fault
        | .error mem =>
          .ret 0 (some (⟨some f1, path⟩ :: rest)) none none 0 [.lineStart (cstr mem)]
        | .done mem [] => lineLoop block fuel mem (some (⟨some f1, path⟩ :: rest))
        | .done mem (t0 :: ts) =>
          match mem.get? t0 with
          | none => .fault
          | some c0 =>
            if c0 = HASH then lineLoop block fuel mem (some (⟨some f1, path⟩ :: rest))
            else if c0 = RBRACE then
              match block with
              | some _ => .ret 1 (some (⟨some f1, path⟩ :: rest)) none none 0 []
              | none => .ret 0 (some (⟨some f1, path⟩ :: rest)) none none 0 [.strayClose]
            else classify block mem (some (⟨some f1, path⟩ :: rest)) (t0 :: ts)
    | _ => .fault

/-- The number of rounds the loop of `getconfigline` can make on a stack: every
round reads at least one character or pops one entry. -/
def cfRounds : CfStack → Nat
  | none => 0
  | some l => (l.map (fun e => (e.file.getD []).length + 1)).sum

/-- The function `getconfigline(cf, block, opt, val, conftype)`.  `line0` is the
indeterminate initial content of the local buffer `char line[1024]`. -/
def getconfigline (line0 : List Char) (cf : CfStack) (block : Option CString) : LineRes :=
  match cf with
  | some (⟨some _, _⟩ :: _) => lineLoop block (cfRounds cf + 1) line0 cf
  | _ => .ret 1 cf none none 0 []

/-! ## The option binder -/

/-- The caller's variables that the binding table points at, by address:
`char *` variables (`none` is NULL), `char **` variables (`none` is NULL,
otherwise the allocated array with its NULL entries) and `uint8_t` variables. -/
structure Store where
  str : Nat → Option CString
  mstr : Nat → Option (List (Option CString))
  bln : Nat → Nat

/-- A block callback `cbk(cf, cbkarg, optval, opt, val)`: it may change `*cf`
and the caller's variables. -/
abbrev Callback := Nat → CString → CString → CString → CfStack → Store → CfStack × Store

/-- What follows a name in the argument list of `getgenericconfig`: the kind
tag and the destination (`none` for a NULL pointer). -/
inductive Binding where
  /-- Tag `CONF_STR` and a `char **`. -/
  | str (dest : Option Nat)
  /-- Tag `CONF_MSTR` and a `char ***`. -/
  | mstr (dest : Option Nat)
  /-- Tag `CONF_BLN` and a `uint8_t *`. -/
  | bln (dest : Option Nat)
  /-- Tag `CONF_CBK`, the callback and its argument. -/
  | cbk (f : Option Callback) (arg : Nat)
  /-- Any other tag. -/
  | other

/-- One entry of the argument list: the option name and its binding. -/
structure Entry where
  word : CString
  bind : Binding

/-- The value of `type` after an entry has been read. -/
def Binding.type : Binding → Nat
  | .str _ => CONF_STR
  | .mstr _ => CONF_MSTR
  | .bln _ => CONF_BLN
  | .cbk _ _ => CONF_CBK
  | .other => 0

/-- Outcome of the scan of the argument list, lines 305-343. -/
inductive Lookup where
  /-- The scan stopped at an entry whose name matches. -/
  | found (b : Binding)
  /-- The scan reached the terminating NULL name. -/
  | unknown
  /-- The scan jumped to `errparam`. -/
  | errparam

/-- The `while ((word = va_arg(ap, char *)))` loop of `getgenericconfig`. -/
def lookup (opt : CString) : List Entry → Lookup
  | [] => .unknown
  | e :: rest =>
    match e.bind with
    | .str none => .errparam
    | .mstr none => .errparam
    | .bln none => .errparam
    | .cbk none _ => .errparam
    | .other => .errparam
    | b => if strcasecmp opt e.word = 0 then .found b else lookup opt rest

/-- The loop `for (n = 0; (*mstr)[n]; n++)`: the index of the first NULL entry,
`none` when the array holds none. -/
def countMstr : List (Option CString) → Option Nat
  | [] => none
  | none :: _ => some 0
  | some _ :: rest => (countMstr rest).map (· + 1)

/-- What one round of the loop of `getgenericconfig` does with a classified line. -/
inductive Step where
  /-- The round ends and the loop goes on. -/
  | cont (cf : CfStack) (st : Store)
  /-- The function returns `r`. -/
  | stop (r : Nat) (cf : CfStack) (st : Store) (log : List Diag)
  /-- A read through a NULL pointer or outside an array. -/
  | fault

/-- The `switch (type)` of `getgenericconfig`, lines 353-407. -/
def dispatch (block : Option CString) (cf : CfStack) (st : Store)
    (opt val : CString) : Binding → Step
  | .str (some a) =>
    match st.str a with
    | some cur => .stop 0 cf st [.alreadySet opt cur]
    | none => .cont cf { st with str := Function.update st.str a (some val) }
  | .mstr (some a) =>
    match st.mstr a with
    | none => .cont cf { st with mstr := Function.update st.mstr a (some [some val, none]) }
    | some arr =>
      match countMstr arr with
      | none => .fault
      | some n =>
        .cont cf { st with mstr := Function.update st.mstr a (some (arr.take n ++ [some val, none])) }
  | .bln (some a) =>
    if strcasecmp val "on".toList = 0 then
      .cont cf { st with bln := Function.update st.bln a 1 }
    else if strcasecmp val "off".toList = 0 then
      .cont cf { st with bln := Function.update st.bln a 0 }
    else
      match block with
      | some b => .stop 0 cf st [.badBoolInBlock b opt val]
      | none => .stop 0 cf st [.badBool opt val]
  | .cbk (some f) arg =>
    .cont (f arg (opt ++ SP :: val) opt val cf st).1 (f arg (opt ++ SP :: val) opt val cf st).2
  | _ => .stop 0 cf st [.paramError]

/-- The test of lines 345-346: the kind of the binding against the syntax of
the line. -/
def kindMismatch (type conftype : Nat) : Bool :=
  ((type = CONF_STR ∨ type = CONF_MSTR ∨ type = CONF_BLN) ∧ conftype ≠ CONF_STR) ∨
    (type = CONF_CBK ∧ conftype ≠ CONF_CBK)

/-- Lines 296-407 of `getgenericconfig`: one classified line `opt`, `val`,
`conftype` is included, or looked up and bound. -/
def bindLine (env : Env) (table : List Entry) (block : Option CString)
    (cf : CfStack) (st : Store) (opt val : CString) (conftype : Nat) : Step :=
  if conftype = CONF_STR ∧ strcasecmp opt "include".toList = 0 then
    match pushgconffiles env cf val with
    | none => .fault
    | some (cf1, none) => .stop 0 cf1 st [.includeFailed val]
    | some (cf1, some _) => .cont cf1 st
  else
    match lookup opt table with
    | .errparam => .stop 0 cf st [.paramError]
    | .unknown =>
      match block with
      | some b => .stop 0 cf st [.unknownInBlock b opt, .unknownOption opt]
      | none => .stop 0 cf st [.unknownOption opt]
    | .found b =>
      if kindMismatch b.type conftype then
        match block with
        | some bl => .stop 0 cf st [.wrongKindInBlock bl opt, .wrongKind opt]
        | none => .stop 0 cf st [.wrongKind opt]
      else dispatch block cf st opt val b

/-- Result of `getgenericconfig`. -/
inductive GenRes where
  /-- The call returned `r`, leaving `*cf` and the caller's variables as given
  and having logged `log`. -/
  | ret (r : Nat) (cf : CfStack) (st : Store) (log : List Diag)
  /-- A read through a NULL pointer or outside a buffer. -/
  | fault
  /-- The bound on the number of rounds was reached. -/
  | nofuel

/-- The function `getgenericconfig(cf, block, ...)` with the argument list
`table`.  The first numeric argument bounds the number of lines handled (an
`include` can make the input grow without end); `junk k` is the indeterminate
content of the line buffer at the call of `getconfigline` made when `k` rounds
are left. -/
def getgenericconfig (env : Env) (junk : Nat → List Char) (table : List Entry)
    (block : Option CString) : Nat → CfStack → Store → GenRes
  | 0, _, _ => .nofuel
  | fuel + 1, cf, st =>
    match getconfigline (junk fuel) cf block with
    | .fault => .fault
    | .nofuel => .nofuel
    | .ret r cf1 opt val conftype log =>
      if r = 0 then .ret 0 cf1 st log
      else
        match opt, val with
        | none, _ => .ret 1 cf1 st log
        | some _, none => .fault
        | some o, some v =>
          match bindLine env table block cf1 st o v conftype with
          | .cont cf2 st2 => getgenericconfig env junk table block fuel cf2 st2
          | .stop r2 cf2 st2 log2 => .ret r2 cf2 st2 log2
          | .fault => .fault

/-- The return value of a finished call. -/
def GenRes.code : GenRes → Option Nat
  | .ret r _ _ _ => some r
  | _ => none

/-- The caller's variables after a finished call. -/
def GenRes.store : GenRes → Option Store
  | .ret _ _ st _ => some st
  | _ => none

/-- The value of `*cf` after a finished call. -/
def GenRes.stack : GenRes → Option CfStack
  | .ret _ cf _ _ => some cf
  | _ => none

/-- The messages logged by a finished call. -/
def GenRes.log : GenRes → Option (List Diag)
  | .ret _ _ _ log => some log
  | _ => none

/-! ## The packet dump `print_hex` of lib/debug.c -/

/-- One call of `printf`: the format and the values of its conversions. -/
structure Printf where
  fmt : String
  args : List Nat
  deriving DecidableEq, Repr

/-- The fields of `RADIUS_PACKET` that `print_hex` reads: `data` (`none` for
NULL, otherwise the bytes of the buffer) and `data_len`. -/
structure RadiusPacket where
  data : Option (List Nat)
  data_len : Nat

/-- Result of `print_hex`. -/
inductive HexRes where
  /-- The function returned after the given calls of `printf`. -/
  | done (out : List Printf)
  /-- A read outside the data buffer. -/
  | fault
  /-- The bound on the number of rounds of the attribute loop was reached. -/
  | nofuel
  deriving DecidableEq, Repr

/-- The read `base[i]` of a byte; `none` outside the buffer. -/
def rd (data : List Nat) (i : Int) : Option Nat :=
  if 0 ≤ i then data.get? i.toNat else none

/-- The loop `for (i = 0; i < total; i++) printf("%02x ", ptr[i])` of the
too-long case. -/
def dumpRun (data : List Nat) (ptr : Int) : Nat → Nat → Option (List Printf)
  | 0, _ => some []
  | n + 1, i =>
    match rd data (ptr + i), dumpRun data ptr n (i + 1) with
    | some b, some rest => some (⟨"%02x ", [b]⟩ :: rest)
    | _, _ => none

/-- The inner loop `for (i = 0; i < attrlen; i++)` that prints the value of an
attribute, sixteen bytes to a row; the first number counts the rounds left. -/
def dumpAttr (data : List Nat) (ptr : Int) : Nat → Nat → Option (List Printf)
  | 0, _ => some []
  | n + 1, i =>
    match rd data (ptr + i), dumpAttr data ptr n (i + 1) with
    | some b, some rest =>
      some ((if i > 0 ∧ i % 16 = 0 then [⟨"\t\t\t", []⟩] else [])
        ++ [⟨"%02x ", [b]⟩]
        ++ (if i % 16 = 15 then [⟨"\n", []⟩] else [])
        ++ rest)
    | _, _ => none

/-- The loop `while (total > 0)` of `print_hex`: `ptr` is the offset of the
cursor in the data buffer, `out` what has been printed, and the first argument
bounds the number of rounds. -/
def hexLoop (data : List Nat) : Nat → Int → Int → List Printf → HexRes
  | 0, _, _, _ => .nofuel
  | fuel + 1, ptr, total, out =>
    if total > 0 then
      if total < 2 then
        match rd data ptr with
        | some b => .done (out ++ [⟨"\t\t", []⟩, ⟨"%02x\n", [b]⟩])
        | none => .fault
      else
        match rd data (ptr + 1) with
        | none => .fault
        | some len =>
          if (len : Int) > total then
            match dumpRun data ptr total.toNat 0 with
            | some items => .done (out ++ ⟨"\t\t", []⟩ :: items)
            | none => .fault
          else
            match rd data ptr, dumpAttr data (ptr + 2) ((len : Int) - 2).toNat 0 with
            | some b0, some items =>
              hexLoop data fuel (ptr + 2 + ((len : Int) - 2)) (total - 2 - ((len : Int) - 2))
                (out ++ ⟨"\t\t", []⟩ :: ⟨"%02x  %02x  ", [b0, len]⟩ :: items
                  ++ (if ((len : Int) - 2) % 16 ≠ 0 then [⟨"\n", []⟩] else []))
            | _, _ => .fault
    else .done out

/-- The sixteen reads `data[4]` to `data[19]` of the vector. -/
def readVector (data : List Nat) : Nat → Nat → Option (List Printf)
  | 0, _ => some []
  | n + 1, i =>
    match data.get? i, readVector data n (i + 1) with
    | some b, some rest => some (⟨"%02x", [b]⟩ :: rest)
    | _, _ => none

/-- The function `print_hex(packet)`; the first argument bounds the number of
rounds of the attribute loop. -/
def print_hex (fuel : Nat) (packet : RadiusPacket) : HexRes :=
  match packet.data with
  | none => .done []
  | some data =>
    match data.get? 0, data.get? 1, data.get? 2, data.get? 3, readVector data 16 4 with
    | some d0, some d1, some d2, some d3, some vec =>
      if packet.data_len > 20 then
        hexLoop data fuel 20 ((packet.data_len : Int) - 20)
          ([⟨"  Code:\t\t%u\n", [d0]⟩, ⟨"  Id:\t\t%u\n", [d1]⟩,
            ⟨"  Length:\t%u\n", [(d2 <<< 8) ||| d3]⟩, ⟨"  Vector:\t", []⟩]
            ++ vec ++ [⟨"\n", []⟩, ⟨"  Data:", []⟩])
      else
        .done ([⟨"  Code:\t\t%u\n", [d0]⟩, ⟨"  Id:\t\t%u\n", [d1]⟩,
          ⟨"  Length:\t%u\n", [(d2 <<< 8) ||| d3]⟩, ⟨"  Vector:\t", []⟩]
          ++ vec ++ [⟨"\n", []⟩])
    | _, _, _, _, _ => .fault

/-- A packet of 22 bytes: a header of zero bytes and one attribute with type 1
and length byte 0. -/
def zeroLenPacket : RadiusPacket := ⟨some (List.replicate 20 0 ++ [1, 0]), 22⟩

/-- A packet of 22 bytes: a header of zero bytes and one attribute with type 1
and length byte 1. -/
def oneLenPacket : RadiusPacket := ⟨some (List.replicate 20 0 ++ [1, 1]), 22⟩

/-! ## Vocabulary of the statements -/

/-- Membership in an optional character set (`NULL` holds nothing). -/
def InSet (s : Option CString) (c : Char) : Prop := ∃ l, s = some l ∧ c ∈ l

/-- A word that is not empty and free of NUL and of the delimiters of
`getconfigline`. -/
def BareWord (w : CString) : Prop := w ≠ [] ∧ ∀ c ∈ w, c ≠ NUL ∧ c ∉ DELIMS

/-- A word that the tokenizer of `getconfigline` hands back as it stands: a bare
word that does not open with a quote character. -/
def PlainWord (w : CString) : Prop :=
  BareWord w ∧ w.head? ≠ some DQUOTE ∧ w.head? ≠ some SQUOTE

/-- The quoting of a line is malformed: after leading delimiters comes a quote
character `q` (no comment start), and either no further `q` follows or the
character right after the next `q` is no delimiter. -/
def Malformed (del : CString) (quote comment : Option CString) (line : List Char) : Prop :=
  ∃ ds q body, line = ds ++ q :: body ∧ (∀ c ∈ ds, c ∈ del) ∧ q ∉ del ∧
    ¬ InSet comment q ∧ InSet quote q ∧
    (q ∉ body ∨ ∃ c x after, body = c ++ q :: x :: after ∧ q ∉ c ∧ x ∉ del)

/-- The entries of a stack, top first (none for `NULL`). -/
def entries (cf : CfStack) : List GConfFile := cf.getD []

/-- The strings a multi-string destination holds: those in front of the first
NULL entry (none for a NULL destination). -/
def mstrList : Option (List (Option CString)) → List CString
  | none => []
  | some [] => []
  | some (none :: _) => []
  | some (some v :: rest) => v :: mstrList (some rest)

/-- Successive calls of `getconfigline`, as `getgenericconfig` makes them while
`fuel + ls.length` down to `fuel + 1` rounds are left, return the scalar lines
`ls` (name and value) one after the other and take the stack from `cf` to `cf1`. -/
def ReadsScalars (junk : Nat → List Char) (block : Option CString) (fuel : Nat) :
    CfStack → List (CString × CString) → CfStack → Prop
  | cf, [], cf1 => cf1 = cf
  | cf, l :: rest, cf1 =>
    ∃ cf2, getconfigline (junk (fuel + rest.length)) cf block
        = .ret 1 cf2 (some l.1) (some l.2) CONF_STR [] ∧
      ReadsScalars junk block fuel cf2 rest cf1

/-- A binding as the callers build it: one of the four kinds with a non-NULL
destination or callback. -/
def ValidBinding : Binding → Prop
  | .str (some _) => True
  | .mstr (some _) => True
  | .bln (some _) => True
  | .cbk (some _) _ => True
  | _ => False

/-- The messages that `getconfigline` itself logs. -/
def Diag.fromLine : Diag → Bool
  | .lineStart _ => true
  | .strayClose => true
  | .badLineInBlock _ _ => true
  | .badLine _ => true
  | .emptyValue _ => true
  | _ => false

/-! ## Sample inputs -/

/-- A line buffer filled with zero bytes. -/
def zeroLine : List Char := List.replicate 1024 NUL

/-- Line buffers filled with zero bytes at every call. -/
def zeroJunk : Nat → List Char := fun _ => zeroLine

/-- A stack holding one open file with the given path and contents. -/
def oneFile (path contents : String) : CfStack := some [⟨some contents.toList, path.toList⟩]

/-- A file system without files. -/
def emptyEnv : Env := ⟨fun _ => none, fun _ => none, fun p => p⟩

/-- Caller variables that are all unset (booleans hold 7 to tell them from a
written 0 or 1). -/
def unsetStore : Store := ⟨fun _ => none, fun _ => none, fun _ => 7⟩

/-- A table with one binding of each data kind: `name` to the string variable
0, `member` to the multi-string variable 0 and `flag` to the boolean variable 0. -/
def sampleTable : List Entry :=
  [⟨"name".toList, .str (some 0)⟩, ⟨"member".toList, .mstr (some 0)⟩,
    ⟨"flag".toList, .bln (some 0)⟩]

/-- The directory part of a path: what stands in front of its last slash. -/
def dirOf (p : CString) : CString :=
  (p.reverse.dropWhile (fun c => c != SLASH)).reverse.dropLast

/-- A file system with the directory `/etc/sub` holding `a.conf`, `b.conf` and
`c.conf`, each with one `member` line. -/
def subEnv : Env where
  fopen := fun p =>
    if p = "/etc/sub/a.conf".toList then some "member a\n".toList
    else if p = "/etc/sub/b.conf".toList then some "member b\n".toList
    else if p = "/etc/sub/c.conf".toList then some "member c\n".toList
    else none
  glob := fun p =>
    if p = "/etc/sub/*.conf".toList then
      some ["/etc/sub/a.conf".toList, "/etc/sub/b.conf".toList, "/etc/sub/c.conf".toList]
    else none
  dirname := dirOf


/-- A blank or comment line with its newline: blanks, tabs and carriage returns
only, or these followed by `#` and anything but a newline, the comment line
being short enough for one `fgets` call. -/
def SkipLine (l : List Char) : Prop :=
  ∃ ds body, l = ds ++ body ++ [LF] ∧ (∀ c ∈ ds, c ∈ DELIMS ∧ c ≠ LF) ∧
    (body = [] ∨ ∃ tl, body = HASH :: tl ∧ LF ∉ tl ∧ l.length ≤ 1023)

/-- The characters of the lines `ls` followed by `rest`. -/
def linesThen (ls : List (List Char)) (rest : List Char) : List Char :=
  ls.foldr (fun l acc => l ++ acc) rest

/-- In `n` rounds in a row, made while `fuel + n` down to `fuel + 1` rounds are
left, `getgenericconfig` classifies a line and includes or binds it without
error, which takes the stack and the caller's variables from `cf`, `st` to
`cf1`, `st1`. -/
def Binds (env : Env) (junk : Nat → List Char) (table : List Entry) (block : Option CString)
    (fuel : Nat) : Nat → CfStack → Store → CfStack → Store → Prop
  | 0, cf, st, cf1, st1 => cf1 = cf ∧ st1 = st
  | n + 1, cf, st, cf1, st1 =>
    ∃ cf2 o v t lg cf3 st3,
      getconfigline (junk (fuel + n)) cf block = .ret 1 cf2 (some o) (some v) t lg ∧
      bindLine env table block cf2 st o v t = .cont cf3 st3 ∧
      Binds env junk table block fuel n cf3 st3 cf1 st1

/-- Every file of the stack has been read to its end. -/
def Exhausted (cf : CfStack) : Prop := ∀ e ∈ entries cf, e.file = some []

/-- The stack a call of `getconfigline` leaves when it started on an exhausted
stack: every entry is popped and the array freed. -/
def drained (cf : CfStack) : CfStack :=
  match cf with
  | some (_ :: _) => none
  | other => other

/-- A callback that records its call by writing 1 to the boolean variable 9. -/
def markCallback : Callback :=
  fun _ _ _ _ cf st => (cf, { st with bln := (Function.update st.bln 9 1) })

/-- A table with the block option `server` bound to `markCallback`. -/
def blockTable : List Entry := [⟨"server".toList, .cbk (some markCallback) 0⟩]

/-- What one call of `getconfigline` does to a stack with the entries `es`: it
reads the characters `c` and leaves the stack `cf1`.  Either it stops inside the
file on top, which keeps its place with the unread rest `g` while the entries
under it stay as they are; or it reads the file on top to its end, pops it and
goes on in the same way with the entries under it; the stack is NULL once the
last entry is popped. -/
def FallsTo : List GConfFile → CfStack → List Char → Prop
  | [], cf1, c => cf1 = none ∧ c = []
  | e :: rest, cf1, c =>
    (∃ c1 g, e.file = some (c1 ++ g) ∧ c = c1 ∧ cf1 = some (⟨some g, e.path⟩ :: rest)) ∨
    (∃ f c2, e.file = some f ∧ c = f ++ c2 ∧ FallsTo rest cf1 c2)

/-- The characters not yet read of a stack: those of the file on top, then
those of the file under it, and so on. -/
def pending : List GConfFile → List Char
  | [] => []
  | e :: rest => e.file.getD [] ++ pending rest

/-! ## Facts about the library functions -/

theorem strchr_isSome_iff (s : CString) (c : Char) (hc : c ≠ NUL) :
    (strchr s c).isSome = true ↔ c ∈ s := by
  induction s with
  | nil => simp [strchr, hc]
  | cons x xs ih =>
    by_cases hx : x = c
    · simp [strchr, hx]
    · have hx2 : ¬ c = x := fun h => hx h.symm
      simp [strchr, hx, hx2, ← ih]

theorem strchr_isNone_iff (s : CString) (c : Char) (hc : c ≠ NUL) :
    (strchr s c).isNone = true ↔ c ∉ s := by
  rw [← strchr_isSome_iff s c hc]
  cases strchr s c <;> simp

theorem strchr_deref (s : CString) (c : Char) (i : Nat) (hc : c ≠ NUL)
    (h : strchr s c = some i) : derefStr s i = c := by
  induction s generalizing i with
  | nil => simp [strchr, hc] at h
  | cons x xs ih =>
    by_cases hx : x = c
    · simp [strchr, hx] at h
      subst h
      simp [derefStr, hx]
    · simp only [strchr, hx, if_false] at h
      cases hj : strchr xs c with
      | none => simp [hj] at h
      | some j =>
        simp only [hj, Option.map_some', Option.some.injEq] at h
        subst h
        have := ih j hj
        simpa [derefStr] using this

theorem scan_run (p : Char → Bool) (ds : List Char) (x : Char) (rest : List Char) (t : Nat)
    (hds : ∀ c ∈ ds, c ≠ NUL ∧ p c = true) (hx : ¬ (x ≠ NUL ∧ p x = true)) :
    scan p (ds ++ x :: rest) t = some (t + ds.length, x, rest) := by
  induction ds generalizing t with
  | nil => simp [scan, hx]
  | cons d ds ih =>
    have hd := hds d (List.mem_cons_self _ _)
    have := ih (t + 1) (fun c hc => hds c (List.mem_cons_of_mem _ hc))
    have e : t + 1 + ds.length = t + (ds.length + 1) := by omega
    rw [e] at this
    simp only [List.cons_append, scan, hd, ne_eq, not_false_eq_true, and_self, if_true,
      List.length_cons]
    exact this

theorem cstr_append_nul (w rest : List Char) (hw : NUL ∉ w) :
    cstr (w ++ NUL :: rest) = some w := by
  induction w with
  | nil => simp [cstr]
  | cons c w ih =>
    have hc : c ≠ NUL := fun h => hw (by simp [h])
    have hw2 : NUL ∉ w := fun h => hw (List.mem_cons_of_mem _ h)
    simp [cstr, hc, ih hw2]

theorem stringcopy_at (pre w rest : List Char) (hw : NUL ∉ w) :
    stringcopy (pre ++ w ++ NUL :: rest) pre.length = some w := by
  simp [stringcopy, cstr_append_nul w rest hw]

theorem set_at (pre : List Char) (x : Char) (rest : List Char) (y : Char) :
    (pre ++ x :: rest).set pre.length y = pre ++ y :: rest := by
  induction pre with
  | nil => simp
  | cons a pre ih => simp [ih]


/-! ## The tokenizer on the three kinds of input -/

theorem bind_strchr_isSome (s : Option CString) (c : Char) (hc : c ≠ NUL) :
    (s.bind (fun l => strchr l c)).isSome = true ↔ InSet s c := by
  cases s with
  | none => simp [InSet]
  | some l => simp [InSet, strchr_isSome_iff l c hc]

theorem scan_del (del : CString) (ds : List Char) (x : Char) (rest : List Char) (t : Nat)
    (hds : ∀ c ∈ ds, c ≠ NUL ∧ c ∈ del) (hx : x = NUL ∨ x ∉ del) :
    scan (fun c => (strchr del c).isSome) (ds ++ x :: rest) t = some (t + ds.length, x, rest) := by
  apply scan_run
  · intro c hc
    exact ⟨(hds c hc).1, (strchr_isSome_iff del c (hds c hc).1).2 (hds c hc).2⟩
  · rintro ⟨h1, h2⟩
    rcases hx with h | h
    · exact h1 h
    · exact h ((strchr_isSome_iff del x h1).1 h2)

theorem scan_word (del : CString) (w : List Char) (d : Char) (rest : List Char) (t : Nat)
    (hw : ∀ c ∈ w, c ≠ NUL ∧ c ∉ del) (hd : d = NUL ∨ d ∈ del) :
    scan (fun c => (strchr del c).isNone) (w ++ d :: rest) t = some (t + w.length, d, rest) := by
  apply scan_run
  · intro c hc
    exact ⟨(hw c hc).1, (strchr_isNone_iff del c (hw c hc).1).2 (hw c hc).2⟩
  · rintro ⟨h1, h2⟩
    rcases hd with h | h
    · exact h1 h
    · exact ((strchr_isNone_iff del d h1).1 h2) h

theorem scan_quote (q : Char) (body : List Char) (x : Char) (rest : List Char) (t : Nat)
    (hb : ∀ c ∈ body, c ≠ NUL ∧ c ≠ q) (hx : x = NUL ∨ x = q) :
    scan (fun c => decide (c ≠ q)) (body ++ x :: rest) t = some (t + body.length, x, rest) := by
  apply scan_run
  · intro c hc
    exact ⟨(hb c hc).1, by simpa using (hb c hc).2⟩
  · rintro ⟨h1, h2⟩
    rcases hx with h | h
    · exact h1 h
    · simp [h] at h2

/-- No token: after the delimiters the line ends or, for a first token, a
comment starts. -/
theorem strtokenquote_end (del : CString) (quote comment : Option CString)
    (pre ds : List Char) (x : Char) (rest : List Char)
    (hds : ∀ c ∈ ds, c ≠ NUL ∧ c ∈ del) (hx : x = NUL ∨ (x ∉ del ∧ InSet comment x)) :
    strtokenquote (pre ++ ds ++ x :: rest) (some pre.length) true (some del) quote comment
      = .ok (pre ++ ds ++ x :: rest) none (pre.length + ds.length + 1) := by
  have hscan := scan_del del ds x rest pre.length hds (hx.imp id (fun h => h.1))
  have hc : x = NUL ∨ (comment.bind (fun cm => strchr cm x)).isSome = true := by
    rcases hx with h | h
    · exact Or.inl h
    · by_cases h0 : x = NUL
      · exact Or.inl h0
      · exact Or.inr ((bind_strchr_isSome comment x h0).2 h.2)
  simp only [strtokenquote, List.append_assoc, List.drop_left, hscan, hc, if_true]

/-- An unquoted token: it runs up to the next delimiter or the end of the line,
where a NUL is written. -/
theorem strtokenquote_plain (del : CString) (quote comment : Option CString)
    (pre ds : List Char) (c : Char) (w : List Char) (d : Char) (post : List Char)
    (hds : ∀ x ∈ ds, x ≠ NUL ∧ x ∈ del)
    (hc : c ≠ NUL ∧ c ∉ del) (hcq : ¬ InSet quote c) (hcc : ¬ InSet comment c)
    (hw : ∀ x ∈ w, x ≠ NUL ∧ x ∉ del) (hd : d = NUL ∨ d ∈ del) :
    strtokenquote (pre ++ ds ++ c :: w ++ d :: post) (some pre.length) true (some del)
        quote comment
      = .ok (pre ++ ds ++ c :: w ++ NUL :: post) (some (pre.length + ds.length))
          (pre.length + ds.length + w.length + 2) := by
  have hscan := scan_del del ds c (w ++ d :: post) pre.length hds (Or.inr hc.2)
  have hscan2 := scan_word del w d post (pre.length + ds.length + 1) hw hd
  have h1 : ¬ (c = NUL ∨ (comment.bind (fun cm => strchr cm c)).isSome = true) := by
    rintro (h | h)
    · exact hc.1 h
    · exact hcc ((bind_strchr_isSome comment c hc.1).1 h)
  have h2 : quote.bind (fun qs => strchr qs c) = none := by
    cases hq : quote.bind (fun qs => strchr qs c) with
    | none => rfl
    | some i => exact absurd ((bind_strchr_isSome quote c hc.1).1 (by simp [hq])) hcq
  have hset : (pre ++ ds ++ c :: w ++ d :: post).set (pre.length + ds.length + 1 + w.length) NUL
      = pre ++ ds ++ c :: w ++ NUL :: post := by
    have := set_at (pre ++ ds ++ c :: w) d post NUL
    simp only [List.length_append, List.length_cons, List.append_assoc, List.cons_append] at this ⊢
    have e : pre.length + ds.length + 1 + w.length = pre.length + (ds.length + (w.length + 1)) := by
      omega
    rw [e]
    exact this
  have e2 : pre.length + ds.length + 1 + w.length + 1 = pre.length + ds.length + w.length + 2 := by
    omega
  have hdrop : (pre ++ ds ++ c :: w ++ d :: post).drop pre.length = ds ++ c :: (w ++ d :: post) := by
    simp
  unfold strtokenquote
  simp only [hdrop, hscan, h1, if_false, h2]
  cases quote <;> simp only [hscan2, hset, e2]


theorem quote_found (quote : Option CString) (q : Char) (hq0 : q ≠ NUL) (hq : InSet quote q) :
    ∃ qs i, quote = some qs ∧ quote.bind (fun l => strchr l q) = some i ∧ derefStr qs i = q := by
  obtain ⟨qs, rfl, hmem⟩ := hq
  have h := (strchr_isSome_iff qs q hq0).2 hmem
  cases hi : strchr qs q with
  | none => simp [hi] at h
  | some i => exact ⟨qs, i, rfl, by simpa using hi, strchr_deref qs q i hq0 hi⟩

/-- A quoted token closed by its quote character and followed by a delimiter or
the end of the line: the token is what stands between the quotes. -/
theorem strtokenquote_quoted (del : CString) (quote comment : Option CString)
    (pre ds : List Char) (q : Char) (body : List Char) (d : Char) (post : List Char)
    (hds : ∀ x ∈ ds, x ≠ NUL ∧ x ∈ del)
    (hq : q ≠ NUL ∧ q ∉ del) (hqq : InSet quote q) (hqc : ¬ InSet comment q)
    (hb : ∀ x ∈ body, x ≠ NUL ∧ x ≠ q) (hd : d = NUL ∨ d ∈ del) :
    strtokenquote (pre ++ ds ++ q :: body ++ q :: d :: post) (some pre.length) true (some del)
        quote comment
      = .ok (pre ++ ds ++ q :: body ++ NUL :: d :: post) (some (pre.length + ds.length + 1))
          (pre.length + ds.length + body.length + 2) := by
  have hscan := scan_del del ds q (body ++ q :: d :: post) pre.length hds (Or.inr hq.2)
  have hscan2 := scan_quote q body q (d :: post) (pre.length + ds.length + 1) hb (Or.inr rfl)
  have hcm : (comment.bind (fun cm => strchr cm q)).isSome = false := by
    cases h : (comment.bind (fun cm => strchr cm q)).isSome with
    | false => rfl
    | true => exact absurd ((bind_strchr_isSome comment q hq.1).1 h) hqc
  obtain ⟨qs, i, rfl, hi, hderef⟩ := quote_found quote q hq.1 hqq
  have hset : (pre ++ ds ++ q :: body ++ q :: d :: post).set
      (pre.length + ds.length + 1 + body.length) NUL
      = pre ++ ds ++ q :: body ++ NUL :: d :: post := by
    have := set_at (pre ++ ds ++ q :: body) q (d :: post) NUL
    simp only [List.length_append, List.length_cons, List.append_assoc, List.cons_append] at this ⊢
    have e : pre.length + ds.length + 1 + body.length
        = pre.length + (ds.length + (body.length + 1)) := by omega
    rw [e]
    exact this
  have e2 : pre.length + ds.length + 1 + body.length + 1
      = pre.length + ds.length + body.length + 2 := by omega
  have hdrop : (pre ++ ds ++ q :: body ++ q :: d :: post).drop pre.length
      = ds ++ q :: (body ++ q :: d :: post) := by simp
  have h3 : ¬ (d ≠ NUL ∧ (strchr del d).isNone = true) := by
    rintro ⟨h, h'⟩
    rcases hd with hd | hd
    · exact h hd
    · exact ((strchr_isNone_iff del d h).1 h') hd
  unfold strtokenquote
  simp only [hdrop, hscan, hq.1, hcm, false_or, Bool.false_eq_true, if_false, hi, hderef, hscan2, h3, hset, e2]

/-- A quote that is never closed: the tokenizer returns NULL. -/
theorem strtokenquote_unclosed (del : CString) (quote comment : Option CString)
    (pre ds : List Char) (q : Char) (body post : List Char)
    (hds : ∀ x ∈ ds, x ≠ NUL ∧ x ∈ del)
    (hq : q ≠ NUL ∧ q ∉ del) (hqq : InSet quote q) (hqc : ¬ InSet comment q)
    (hb : ∀ x ∈ body, x ≠ NUL ∧ x ≠ q) :
    strtokenquote (pre ++ ds ++ q :: body ++ NUL :: post) (some pre.length) true (some del)
        quote comment = .null := by
  have hscan := scan_del del ds q (body ++ NUL :: post) pre.length hds (Or.inr hq.2)
  have hscan2 := scan_quote q body NUL post (pre.length + ds.length + 1) hb (Or.inl rfl)
  have hcm : (comment.bind (fun cm => strchr cm q)).isSome = false := by
    cases h : (comment.bind (fun cm => strchr cm q)).isSome with
    | false => rfl
    | true => exact absurd ((bind_strchr_isSome comment q hq.1).1 h) hqc
  obtain ⟨qs, i, rfl, hi, hderef⟩ := quote_found quote q hq.1 hqq
  have hdrop : (pre ++ ds ++ q :: body ++ NUL :: post).drop pre.length
      = ds ++ q :: (body ++ NUL :: post) := by simp
  unfold strtokenquote
  simp only [hdrop, hscan, hq.1, hcm, false_or, Bool.false_eq_true, if_false, hi, hderef, hscan2, if_true]

/-- A closing quote followed at once by a character that is no delimiter: the
tokenizer returns NULL. -/
theorem strtokenquote_trailing (del : CString) (quote comment : Option CString)
    (pre ds : List Char) (q : Char) (body : List Char) (x : Char) (post : List Char)
    (hds : ∀ x ∈ ds, x ≠ NUL ∧ x ∈ del)
    (hq : q ≠ NUL ∧ q ∉ del) (hqq : InSet quote q) (hqc : ¬ InSet comment q)
    (hb : ∀ x ∈ body, x ≠ NUL ∧ x ≠ q) (hx : x ≠ NUL ∧ x ∉ del) :
    strtokenquote (pre ++ ds ++ q :: body ++ q :: x :: post) (some pre.length) true (some del)
        quote comment = .null := by
  have hscan := scan_del del ds q (body ++ q :: x :: post) pre.length hds (Or.inr hq.2)
  have hscan2 := scan_quote q body q (x :: post) (pre.length + ds.length + 1) hb (Or.inr rfl)
  have hcm : (comment.bind (fun cm => strchr cm q)).isSome = false := by
    cases h : (comment.bind (fun cm => strchr cm q)).isSome with
    | false => rfl
    | true => exact absurd ((bind_strchr_isSome comment q hq.1).1 h) hqc
  obtain ⟨qs, i, rfl, hi, hderef⟩ := quote_found quote q hq.1 hqq
  have hdrop : (pre ++ ds ++ q :: body ++ q :: x :: post).drop pre.length
      = ds ++ q :: (body ++ q :: x :: post) := by simp
  have h3 : x ≠ NUL ∧ (strchr del x).isNone = true := ⟨hx.1, (strchr_isNone_iff del x hx.1).2 hx.2⟩
  unfold strtokenquote
  simp only [hdrop, hscan, hq.1, hcm, false_or, Bool.false_eq_true, if_false, hi, hderef, hscan2, h3.2, hx.1, ne_eq, not_false_eq_true, and_self, if_true]


/-! ## One line through `getconfigline` -/

theorem fgetsChunk_line (n : Nat) (body rest : List Char) (hb : LF ∉ body)
    (hn : body.length < n) :
    fgetsChunk n (body ++ LF :: rest) = (body ++ [LF], rest) := by
  induction body generalizing n with
  | nil =>
    cases n with
    | zero => omega
    | succ n => simp [fgetsChunk]
  | cons c body ih =>
    cases n with
    | zero => omega
    | succ n =>
      have hc : c ≠ LF := fun h => hb (by simp [h])
      have hb2 : LF ∉ body := fun h => hb (List.mem_cons_of_mem _ h)
      have := ih n hb2 (by simpa using hn)
      simp [fgetsChunk, hc, this]

theorem fgets_line (line0 body rest : List Char) (hb : LF ∉ body) (hn : body.length < 1023) :
    fgets line0 1024 (body ++ LF :: rest)
      = some (body ++ LF :: NUL :: line0.drop (body.length + 2), rest) := by
  have h := fgetsChunk_line 1023 body rest hb hn
  have hgen : ∀ f : List Char, f ≠ [] → fgets line0 1024 f
      = some ((fgetsChunk 1023 f).1 ++ NUL :: line0.drop ((fgetsChunk 1023 f).1.length + 1),
          (fgetsChunk 1023 f).2) := by
    intro f hf
    cases f with
    | nil => exact absurd rfl hf
    | cons a l => rfl
  rw [hgen _ (by simp), h]
  simp

/-- One round of the loop of `getconfigline` that reads a line with at least one
token, neither a comment nor a closing brace: the line is classified. -/
theorem getconfigline_round (line0 f line1 f1 : List Char) (path : CString)
    (more : List GConfFile) (block : Option CString) (mem : List Char) (t0 : Nat)
    (ts : List Nat) (c0 : Char)
    (hf : fgets line0 1024 f = some (line1, f1))
    (ht : tokenLoop 3 line1 0 [] = .done mem (t0 :: ts))
    (hc : mem.get? t0 = some c0) (h1 : c0 ≠ HASH) (h2 : c0 ≠ RBRACE) :
    getconfigline line0 (some (⟨some f, path⟩ :: more)) block
      = classify block mem (some (⟨some f1, path⟩ :: more)) (t0 :: ts) := by
  simp only [getconfigline, lineLoop, hf, ht, hc, h1, h2, if_false]

theorem strtokenquote_word (pre w : List Char) (d : Char) (post : List Char)
    (comment : Option CString) (hw : PlainWord w) (hcm : ∀ c ∈ w.head?, ¬ InSet comment c)
    (hd : d = NUL ∨ d ∈ DELIMS) :
    strtokenquote (pre ++ w ++ d :: post) (some pre.length) true (some DELIMS) (some QUOTES)
        comment
      = .ok (pre ++ w ++ NUL :: post) (some pre.length) (pre.length + w.length + 1) := by
  obtain ⟨⟨hne, hch⟩, hq1, hq2⟩ := hw
  have hq : ∀ c ∈ w.head?, c ∉ QUOTES := by
    intro c hc hm
    simp only [QUOTES, List.mem_cons, List.mem_singleton, List.not_mem_nil, or_false] at hm
    simp only [Option.mem_def] at hc
    rcases hm with h | h
    · exact hq1 (h ▸ hc)
    · exact hq2 (h ▸ hc)
  cases w with
  | nil => exact absurd rfl hne
  | cons c w =>
    have h := strtokenquote_plain DELIMS (some QUOTES) comment pre [] c w d post
      (by simp) (hch c (List.mem_cons_self _ _))
      (by
        rintro ⟨l, hl, hm⟩
        simp only [Option.some.injEq] at hl
        subst hl
        exact hq c (by simp) hm)
      (hcm c (by simp)) (fun x hx => hch x (List.mem_cons_of_mem _ hx)) hd
    simp only [List.append_nil, List.length_nil, Nat.add_zero, List.length_cons] at h ⊢
    have e : pre.length + w.length + 2 = pre.length + (w.length + 1) + 1 := by omega
    rw [e] at h
    simpa using h

theorem strtokenquote_nul (pre post : List Char) (quote comment : Option CString) :
    strtokenquote (pre ++ NUL :: post) (some pre.length) true (some DELIMS) quote comment
      = .ok (pre ++ NUL :: post) none (pre.length + 1) := by
  have h := strtokenquote_end DELIMS quote comment pre [] NUL post (by simp) (Or.inl rfl)
  simpa using h


theorem word_step (pre w : List Char) (d : Char) (post : List Char) (comment : Option CString)
    (s : Nat) (hs : s = pre.length)
    (hw : PlainWord w) (hcm : ∀ c ∈ w.head?, ¬ InSet comment c) (hd : d = NUL ∨ d ∈ DELIMS) :
    strtokenquote (pre ++ (w ++ d :: post)) (some s) true (some DELIMS) (some QUOTES) comment
      = .ok (pre ++ (w ++ NUL :: post)) (some s) (s + w.length + 1) := by
  subst hs
  have h := strtokenquote_word pre w d post comment hw hcm hd
  simpa only [List.append_assoc] using h

theorem nul_step (pre post : List Char) (quote comment : Option CString) (s : Nat)
    (hs : s = pre.length) :
    strtokenquote (pre ++ NUL :: post) (some s) true (some DELIMS) quote comment
      = .ok (pre ++ NUL :: post) none (s + 1) := by
  subst hs
  exact strtokenquote_nul pre post quote comment

theorem not_inSet_none (c : Char) : ¬ InSet none c := by
  rintro ⟨l, hl, _⟩
  cases hl

theorem not_inSet_comments (c : Char) (h : c ≠ HASH) : ¬ InSet (some COMMENTS) c := by
  rintro ⟨l, hl, hm⟩
  cases hl
  simp [COMMENTS] at hm
  exact h hm

/-- The token loop on a line of two plain words. -/
theorem tokenLoop_two (N V : CString) (d1 d2 : Char) (tail : List Char)
    (hN : PlainWord N) (hV : PlainWord V) (hN0 : ∀ c ∈ N.head?, c ≠ HASH)
    (hd1 : d1 ∈ DELIMS) (hd2 : d2 ∈ DELIMS) :
    tokenLoop 3 (N ++ d1 :: (V ++ d2 :: NUL :: tail)) 0 []
      = .done (N ++ NUL :: (V ++ NUL :: NUL :: tail)) [0, N.length + 1] := by
  have r1 := word_step [] N d1 (V ++ d2 :: NUL :: tail) (some COMMENTS) 0 rfl hN
    (fun c hc => not_inSet_comments c (hN0 c hc)) (Or.inr hd1)
  have r2 := word_step (N ++ [NUL]) V d2 (NUL :: tail) none (0 + N.length + 1) (by simp) hV
    (fun c _ => not_inSet_none c) (Or.inr hd2)
  have r3 := nul_step (N ++ NUL :: (V ++ [NUL])) tail (some QUOTES) none
    (0 + N.length + 1 + V.length + 1) (by simp; omega)
  simp only [List.nil_append, List.append_assoc, List.singleton_append, List.cons_append] at r1 r2 r3
  simp only [tokenLoop, List.length_nil, if_true, r1, List.nil_append, List.length_singleton,
    Nat.succ_ne_zero, if_false, r2, List.singleton_append, List.length_cons, r3]
  simp

/-- The token loop on a line of three plain words. -/
theorem tokenLoop_three (N M V : CString) (d1 d2 d3 : Char) (tail : List Char)
    (hN : PlainWord N) (hM : PlainWord M) (hV : PlainWord V) (hN0 : ∀ c ∈ N.head?, c ≠ HASH)
    (hd1 : d1 ∈ DELIMS) (hd2 : d2 ∈ DELIMS) (hd3 : d3 = NUL ∨ d3 ∈ DELIMS) :
    tokenLoop 3 (N ++ d1 :: (M ++ d2 :: (V ++ d3 :: tail))) 0 []
      = .done (N ++ NUL :: (M ++ NUL :: (V ++ NUL :: tail)))
          [0, N.length + 1, N.length + M.length + 2] := by
  have r1 := word_step [] N d1 (M ++ d2 :: (V ++ d3 :: tail)) (some COMMENTS) 0 rfl hN
    (fun c hc => not_inSet_comments c (hN0 c hc)) (Or.inr hd1)
  have r2 := word_step (N ++ [NUL]) M d2 (V ++ d3 :: tail) none (0 + N.length + 1) (by simp) hM
    (fun c _ => not_inSet_none c) (Or.inr hd2)
  have r3 := word_step (N ++ NUL :: (M ++ [NUL])) V d3 tail none
    (0 + N.length + 1 + M.length + 1) (by simp; omega) hV (fun c _ => not_inSet_none c) hd3
  simp only [List.nil_append, List.append_assoc, List.singleton_append, List.cons_append] at r1 r2 r3
  simp only [tokenLoop, List.length_nil, if_true, r1, List.nil_append, List.length_singleton,
    Nat.succ_ne_zero, if_false, r2, List.singleton_append, List.length_cons, r3]
  simp
  omega


theorem plainWord_nul (w : CString) (hw : PlainWord w) : NUL ∉ w :=
  fun h => (hw.1.2 NUL h).1 rfl

theorem plainWord_lf (w : CString) (hw : PlainWord w) : LF ∉ w :=
  fun h => (hw.1.2 LF h).2 (by simp [DELIMS])

theorem stringcopy_word (pre w rest : List Char) (p : Nat) (hp : p = pre.length)
    (hw : NUL ∉ w) : stringcopy (pre ++ (w ++ NUL :: rest)) p = some w := by
  subst hp
  have := stringcopy_at pre w rest hw
  simpa only [List.append_assoc] using this

theorem get_word_head (w rest : List Char) (hw : w ≠ []) :
    ∃ c, (w ++ rest).get? 0 = some c ∧ w.head? = some c := by
  cases w with
  | nil => exact absurd rfl hw
  | cons c w => exact ⟨c, by simp, by simp⟩

theorem get_at (pre : List Char) (x : Char) (rest : List Char) :
    (pre ++ x :: rest).get? pre.length = some x := by
  induction pre with
  | nil => rfl
  | cons a pre ih => simpa using ih

theorem get_at_succ (pre : List Char) (x y : Char) (rest : List Char) :
    (pre ++ x :: y :: rest).get? (pre.length + 1) = some y := by
  have := get_at (pre ++ [x]) y rest
  simpa using this

theorem tokenIs_word (pre w rest : List Char) (p : Nat) (c : Char) (hp : p = pre.length)
    (hw : NUL ∉ w) (hne : w ≠ []) :
    tokenIs (pre ++ (w ++ NUL :: rest)) p c = some (decide (w = [c])) := by
  subst hp
  cases w with
  | nil => exact absurd rfl hne
  | cons x w =>
    have hx : x ≠ NUL := fun h => hw (by simp [h])
    unfold tokenIs
    rw [List.cons_append, get_at]
    by_cases hxc : x = c
    · subst hxc
      cases w with
      | nil =>
        rw [List.nil_append, get_at_succ]
        simp
      | cons y w =>
        have hy : y ≠ NUL := fun h => hw (by simp [h])
        rw [List.cons_append, get_at_succ]
        simp [hy]
    · simp [hxc]

theorem fgetsChunk_eof (n : Nat) (body : List Char) (hb : LF ∉ body) (hn : body.length ≤ n) :
    fgetsChunk n body = (body, []) := by
  induction body generalizing n with
  | nil => cases n <;> simp [fgetsChunk]
  | cons c body ih =>
    cases n with
    | zero => simp at hn
    | succ n =>
      have hc : c ≠ LF := fun h => hb (by simp [h])
      have hb2 : LF ∉ body := fun h => hb (List.mem_cons_of_mem _ h)
      have := ih n hb2 (by simpa using hn)
      simp [fgetsChunk, hc, this]

theorem fgets_eof (line0 body : List Char) (hne : body ≠ []) (hb : LF ∉ body)
    (hn : body.length ≤ 1023) :
    fgets line0 1024 body = some (body ++ NUL :: line0.drop (body.length + 1), []) := by
  have h := fgetsChunk_eof 1023 body hb hn
  cases body with
  | nil => exact absurd rfl hne
  | cons a l =>
    have h2 : fgets line0 1024 (a :: l)
        = some ((fgetsChunk 1023 (a :: l)).1 ++ NUL ::
            line0.drop ((fgetsChunk 1023 (a :: l)).1.length + 1), (fgetsChunk 1023 (a :: l)).2) :=
      rfl
    rw [h2, h]

theorem quotes_not_delim (q : Char) (hq : q ∈ QUOTES) : q ≠ NUL ∧ q ∉ DELIMS := by
  simp only [QUOTES, List.mem_cons, List.mem_singleton, List.not_mem_nil, or_false] at hq
  rcases hq with h | h <;> subst h <;> decide

theorem quotes_not_comment (q : Char) (hq : q ∈ QUOTES) (comment : Option CString)
    (hcm : comment = none ∨ comment = some COMMENTS) : ¬ InSet comment q := by
  rintro ⟨l, hl, hm⟩
  rcases hcm with h | h
  · rw [h] at hl
    cases hl
  · rw [h] at hl
    cases hl
    simp only [QUOTES, List.mem_cons, List.mem_singleton, List.not_mem_nil, or_false] at hq
    simp only [COMMENTS, List.mem_singleton] at hm
    subst hm
    revert hq
    decide

theorem inSet_quotes (q : Char) (hq : q ∈ QUOTES) : InSet (some QUOTES) q := ⟨QUOTES, rfl, hq⟩

theorem quoted_step (pre : List Char) (q : Char) (body : List Char) (d : Char)
    (post : List Char) (comment : Option CString) (s : Nat) (hs : s = pre.length)
    (hq : q ∈ QUOTES) (hcm : comment = none ∨ comment = some COMMENTS)
    (hb : ∀ x ∈ body, x ≠ NUL ∧ x ≠ q) (hd : d = NUL ∨ d ∈ DELIMS) :
    strtokenquote (pre ++ q :: (body ++ q :: d :: post)) (some s) true (some DELIMS)
        (some QUOTES) comment
      = .ok (pre ++ q :: (body ++ NUL :: d :: post)) (some (s + 1)) (s + body.length + 2) := by
  subst hs
  have h := strtokenquote_quoted DELIMS (some QUOTES) comment pre [] q body d post (by simp)
    (quotes_not_delim q hq) (inSet_quotes q hq) (quotes_not_comment q hq comment hcm) hb hd
  simpa using h

theorem end_step (pre ds tail : List Char) (quote : Option CString) (s : Nat)
    (hs : s = pre.length) (hds : ∀ c ∈ ds, c ∈ DELIMS) :
    strtokenquote (pre ++ (ds ++ NUL :: tail)) (some s) true (some DELIMS) quote none
      = .ok (pre ++ (ds ++ NUL :: tail)) none (s + ds.length + 1) := by
  subst hs
  have hds2 : ∀ c ∈ ds, c ≠ NUL ∧ c ∈ DELIMS := by
    intro c hc
    refine ⟨?_, hds c hc⟩
    rintro rfl
    exact absurd (hds _ hc) (by decide)
  have h := strtokenquote_end DELIMS quote none pre ds NUL tail hds2 (Or.inl rfl)
  simpa only [List.append_assoc] using h

/-- The token loop on a plain word followed by a quoted token and the end of the
line. -/
theorem tokenLoop_word_quoted (N : CString) (d1 q : Char) (body ds tail : List Char)
    (hN : PlainWord N) (hN0 : ∀ c ∈ N.head?, c ≠ HASH) (hd1 : d1 ∈ DELIMS)
    (hq : q ∈ QUOTES) (hb : ∀ x ∈ body, x ≠ NUL ∧ x ≠ q) (hds : ∀ c ∈ ds, c ∈ DELIMS) :
    tokenLoop 3 (N ++ d1 :: (q :: (body ++ q :: (ds ++ NUL :: tail)))) 0 []
      = .done (N ++ NUL :: (q :: (body ++ NUL :: (ds ++ NUL :: tail)))) [0, N.length + 2] := by
  have r1 := word_step [] N d1 (q :: (body ++ q :: (ds ++ NUL :: tail))) (some COMMENTS) 0 rfl
    hN (fun c hc => not_inSet_comments c (hN0 c hc)) (Or.inr hd1)
  have r3 := end_step (N ++ NUL :: (q :: (body ++ [NUL]))) ds tail (some QUOTES)
    (0 + N.length + 1 + body.length + 2) (by simp; omega) hds
  have r2 : strtokenquote (N ++ NUL :: (q :: (body ++ q :: (ds ++ NUL :: tail))))
      (some (0 + N.length + 1)) true (some DELIMS) (some QUOTES) none
      = .ok (N ++ NUL :: (q :: (body ++ NUL :: (ds ++ NUL :: tail))))
          (some (0 + N.length + 1 + 1)) (0 + N.length + 1 + body.length + 2) := by
    cases ds with
    | nil =>
      have := quoted_step (N ++ [NUL]) q body NUL tail none (0 + N.length + 1) (by simp) hq
        (Or.inl rfl) hb (Or.inl rfl)
      simpa using this
    | cons d ds =>
      have := quoted_step (N ++ [NUL]) q body d (ds ++ NUL :: tail) none (0 + N.length + 1)
        (by simp) hq (Or.inl rfl) hb (Or.inr (hds d (List.mem_cons_self _ _)))
      simpa using this
  simp only [List.nil_append, List.append_assoc, List.singleton_append, List.cons_append] at r1 r2 r3
  simp only [tokenLoop, List.length_nil, if_true, r1, List.nil_append, List.length_singleton,
    Nat.succ_ne_zero, if_false, r2, List.singleton_append, List.length_cons, r3]
  simp

/-- A line made of a plain name and a quoted value classifies as a scalar line
whose value is what stands between the quotes. -/
theorem quoted_value_line (line0 f f1 : List Char) (path : CString) (more : List GConfFile)
    (block : Option CString) (N : CString) (q : Char) (body ds tail : List Char)
    (hN : PlainWord N) (hN0 : N.head? ≠ some HASH) (hN1 : N.head? ≠ some RBRACE)
    (hq : q ∈ QUOTES) (hb : ∀ x ∈ body, x ≠ NUL ∧ x ≠ q) (hbne : body ≠ [])
    (hds : ∀ c ∈ ds, c ∈ DELIMS)
    (hf : fgets line0 1024 f = some (N ++ SP :: (q :: (body ++ q :: (ds ++ NUL :: tail))), f1)) :
    getconfigline line0 (some (⟨some f, path⟩ :: more)) block
      = .ret 1 (some (⟨some f1, path⟩ :: more)) (some N) (some body) CONF_STR [] := by
  have hhash : ∀ c ∈ N.head?, c ≠ HASH := by
    intro c hc h
    subst h
    exact hN0 hc
  have ht := tokenLoop_word_quoted N SP q body ds tail hN hhash (by decide) hq hb hds
  obtain ⟨c0, hget, hhead⟩ := get_word_head N (NUL :: (q :: (body ++ NUL :: (ds ++ NUL :: tail))))
    hN.1.1
  have hc0 : c0 ≠ HASH ∧ c0 ≠ RBRACE :=
    ⟨fun h => hN0 (h ▸ hhead), fun h => hN1 (h ▸ hhead)⟩
  rw [getconfigline_round line0 f _ f1 path more block _ 0 [N.length + 2] c0 hf ht hget
    hc0.1 hc0.2]
  have s0 := stringcopy_word [] N (q :: (body ++ NUL :: (ds ++ NUL :: tail))) 0 rfl
    (plainWord_nul N hN)
  have s1 := stringcopy_word (N ++ [NUL, q]) body (ds ++ NUL :: tail) (N.length + 2) (by simp)
    (fun h => (hb NUL h).1 rfl)
  simp only [List.nil_append, List.append_assoc, List.singleton_append, List.cons_append] at s0 s1
  simp only [classify, finishLine, s0, s1, ne_eq, hbne, not_false_eq_true, if_true]


/-! ## The loop bound of `getconfigline` is never reached -/

theorem fgetsChunk_rest_le (n : Nat) (s : List Char) : (fgetsChunk n s).2.length ≤ s.length := by
  induction s generalizing n with
  | nil => cases n <;> simp [fgetsChunk]
  | cons c s ih =>
    cases n with
    | zero => simp [fgetsChunk]
    | succ n =>
      by_cases hc : c = LF
      · simp [fgetsChunk, hc]
      · have := ih n
        simp only [fgetsChunk, hc, if_false, List.length_cons]
        omega

theorem fgets_rest_lt (line f line1 f1 : List Char)
    (h : fgets line 1024 f = some (line1, f1)) : f1.length < f.length := by
  cases f with
  | nil => simp [fgets] at h
  | cons c s =>
    simp only [fgets, Option.some.injEq, Prod.mk.injEq] at h
    rw [← h.2]
    by_cases hc : c = LF
    · simp [fgetsChunk, hc]
    · have := fgetsChunk_rest_le 1022 s
      simp only [fgetsChunk, hc, if_false, List.length_cons]
      omega

theorem finishLine_ne_nofuel (mem : List Char) (cf : CfStack) (a b t : Nat) :
    finishLine mem cf a b t ≠ .nofuel := by
  unfold finishLine
  split
  · split <;> simp
  · simp

theorem badShape_ne_nofuel (block : Option CString) (mem : List Char) (cf : CfStack) (t0 : Nat) :
    badShape block mem cf t0 ≠ .nofuel := by
  unfold badShape
  split <;> simp

theorem classify_ne_nofuel (block : Option CString) (mem : List Char) (cf : CfStack)
    (toks : List Nat) : classify block mem cf toks ≠ .nofuel := by
  unfold classify
  split
  · exact finishLine_ne_nofuel _ _ _ _ _
  · split
    · simp
    · exact finishLine_ne_nofuel _ _ _ _ _
    · split
      · simp
      · exact finishLine_ne_nofuel _ _ _ _ _
      · exact badShape_ne_nofuel _ _ _ _
  · exact badShape_ne_nofuel _ _ _ _
  · simp

theorem lineLoop_ne_nofuel (block : Option CString) (fuel : Nat) (line : List Char)
    (cf : CfStack) (h : cfRounds cf < fuel) : lineLoop block fuel line cf ≠ .nofuel := by
  induction fuel generalizing line cf with
  | zero => omega
  | succ fuel ih =>
    unfold lineLoop
    split
    · rename_i f path rest
      split
      · rename_i hf
        split
        · rename_i cf1 hd hp
          apply ih
          cases rest with
          | nil => simp [popgconffile] at hp
          | cons next rest2 =>
            simp only [popgconffile, Prod.mk.injEq] at hp
            rw [← hp.1]
            simp only [cfRounds, List.map_cons, List.sum_cons] at h ⊢
            omega
        · simp
      · rename_i line1 f1 hf
        have hlt := fgets_rest_lt _ _ _ _ hf
        have hdec : cfRounds (some (⟨some f1, path⟩ :: rest)) < fuel := by
          simp only [cfRounds, List.map_cons, List.sum_cons, Option.getD_some] at h ⊢
          omega
        split
        · simp
        · simp
        · exact ih _ _ hdec
        · split
          · simp
          · split
            · exact ih _ _ hdec
            · split
              · split <;> simp
              · exact classify_ne_nofuel _ _ _ _
    · simp

/-- The function `getconfigline` always returns or faults: its loop bound is
never reached. -/
theorem getconfigline_ne_nofuel (line0 : List Char) (cf : CfStack) (block : Option CString) :
    getconfigline line0 cf block ≠ .nofuel := by
  unfold getconfigline
  split
  · exact lineLoop_ne_nofuel _ _ _ _ (Nat.lt_succ_self _)
  · simp

/-! ## Claims about the tokenizer and the line classifier -/

/-- Claim C1, amended: for every name `N` and value `V` that are non-empty, free
of NUL and of delimiters, do not open with a quote character, with `N` not
opening with `#` or a closing brace, and whose line fits the 1024-byte buffer,
`getconfigline` succeeds on the line `N V` and on the line `N = V` (each ended by
a newline) with the same name `N`, value `V` and kind `CONF_STR`. -/
theorem getconfigline_scalar_forms (line0 rest : List Char) (path : CString)
    (more : List GConfFile) (block : Option CString) (N V : CString)
    (hN : PlainWord N) (hV : PlainWord V)
    (hN0 : N.head? ≠ some HASH) (hN1 : N.head? ≠ some RBRACE)
    (hlen : N.length + V.length + 4 ≤ 1023) :
    getconfigline line0 (some (⟨some (N ++ SP :: V ++ LF :: rest), path⟩ :: more)) block
      = .ret 1 (some (⟨some rest, path⟩ :: more)) (some N) (some V) CONF_STR [] ∧
    getconfigline line0
        (some (⟨some (N ++ SP :: EQUALS :: SP :: V ++ LF :: rest), path⟩ :: more)) block
      = .ret 1 (some (⟨some rest, path⟩ :: more)) (some N) (some V) CONF_STR [] := by
  have hNn := plainWord_nul N hN
  have hVn := plainWord_nul V hV
  have hNl := plainWord_lf N hN
  have hVl := plainWord_lf V hV
  have hsp : SP ∈ DELIMS := by simp [DELIMS]
  have hlf : LF ∈ DELIMS := by simp [DELIMS]
  have hEq : PlainWord [EQUALS] := by
    unfold PlainWord BareWord
    decide
  have hhash : ∀ c ∈ N.head?, c ≠ HASH := by
    intro c hc h
    subst h
    exact hN0 hc
  obtain ⟨c0, hget, hhead⟩ := get_word_head N (NUL :: (V ++ NUL :: NUL :: List.drop
    (N.length + V.length + 3) line0)) hN.1.1
  obtain ⟨c0', hget', hhead'⟩ := get_word_head N (NUL :: ([EQUALS] ++ NUL :: (V ++ NUL ::
    NUL :: List.drop (N.length + V.length + 5) line0))) hN.1.1
  have hc0 : c0 ≠ HASH ∧ c0 ≠ RBRACE :=
    ⟨fun h => hN0 (h ▸ hhead), fun h => hN1 (h ▸ hhead)⟩
  have hc0' : c0' ≠ HASH ∧ c0' ≠ RBRACE :=
    ⟨fun h => hN0 (h ▸ hhead'), fun h => hN1 (h ▸ hhead')⟩
  constructor
  · have hf := fgets_line line0 (N ++ SP :: V) rest
      (by simp only [List.mem_append, List.mem_cons]; rintro (h | h | h)
          · exact hNl h
          · exact absurd h (by decide)
          · exact hVl h)
      (by simp only [List.length_append, List.length_cons]; omega)
    have ht := tokenLoop_two N V SP LF (List.drop (N.length + V.length + 3) line0) hN hV hhash
      hsp hlf
    have hf2 : fgets line0 1024 (N ++ SP :: V ++ LF :: rest)
        = some (N ++ SP :: (V ++ LF :: NUL :: List.drop (N.length + V.length + 3) line0),
            rest) := by
      have e : (N ++ SP :: V).length + 2 = N.length + V.length + 3 := by
        simp only [List.length_append, List.length_cons]; omega
      rw [e] at hf
      simpa only [List.append_assoc, List.cons_append] using hf
    rw [getconfigline_round line0 _ _ rest path more block _ 0 [N.length + 1] c0 hf2 ht hget
      hc0.1 hc0.2]
    have s0 := stringcopy_word [] N (V ++ NUL :: NUL :: List.drop (N.length + V.length + 3) line0)
      0 rfl hNn
    have s1 := stringcopy_word (N ++ [NUL]) V (NUL :: List.drop (N.length + V.length + 3) line0)
      (N.length + 1) (by simp) hVn
    simp only [List.nil_append, List.append_assoc, List.singleton_append] at s0 s1
    simp only [classify, finishLine, s0, s1, ne_eq, hV.1.1, not_false_eq_true, if_true]
  · have hf := fgets_line line0 (N ++ SP :: EQUALS :: SP :: V) rest
      (by simp only [List.mem_append, List.mem_cons]; rintro (h | h | h | h | h)
          · exact hNl h
          · exact absurd h (by decide)
          · exact absurd h (by decide)
          · exact absurd h (by decide)
          · exact hVl h)
      (by simp only [List.length_append, List.length_cons]; omega)
    have ht := tokenLoop_three N [EQUALS] V SP SP LF
      (NUL :: List.drop (N.length + V.length + 5) line0) hN hEq hV hhash hsp hsp (Or.inr hlf)
    have hf2 : fgets line0 1024 (N ++ SP :: EQUALS :: SP :: V ++ LF :: rest)
        = some (N ++ SP :: ([EQUALS] ++ SP :: (V ++ LF :: NUL ::
            List.drop (N.length + V.length + 5) line0)), rest) := by
      have e : (N ++ SP :: EQUALS :: SP :: V).length + 2 = N.length + V.length + 5 := by
        simp only [List.length_append, List.length_cons]; omega
      rw [e] at hf
      simpa only [List.append_assoc, List.cons_append, List.nil_append] using hf
    rw [getconfigline_round line0 _ _ rest path more block _ 0 _ c0' hf2 ht hget'
      hc0'.1 hc0'.2]
    have s0 := stringcopy_word [] N ([EQUALS] ++ NUL :: (V ++ NUL :: NUL ::
      List.drop (N.length + V.length + 5) line0)) 0 rfl hNn
    have s2 := stringcopy_word (N ++ NUL :: ([EQUALS] ++ [NUL])) V
      (NUL :: List.drop (N.length + V.length + 5) line0)
      (N.length + [EQUALS].length + 2) (by simp) hVn
    have t1 := tokenIs_word (N ++ [NUL]) [EQUALS] (V ++ NUL :: NUL ::
      List.drop (N.length + V.length + 5) line0) (N.length + 1) EQUALS (by simp)
      (by decide) (by simp)
    simp only [List.nil_append, List.append_assoc, List.singleton_append, List.cons_append,
      decide_True] at s0 s2 t1
    simp only [classify, t1, finishLine, s0, s2, ne_eq, hV.1.1, not_false_eq_true, if_true,
      List.singleton_append]


/-- Witness for C1: the lines `name value` and `name = value`. -/
theorem getconfigline_scalar_forms_witness :
    (PlainWord "name".toList ∧ PlainWord "value".toList) ∧
    (getconfigline zeroLine
        (some (⟨some ("name".toList ++ SP :: "value".toList ++ LF :: "x y\n".toList),
          "/etc/r.conf".toList⟩ :: [])) none
      = .ret 1 (some (⟨some "x y\n".toList, "/etc/r.conf".toList⟩ :: []))
          (some "name".toList) (some "value".toList) CONF_STR [] ∧
    getconfigline zeroLine
        (some (⟨some ("name".toList ++ SP :: EQUALS :: SP :: "value".toList ++ LF ::
          "x y\n".toList), "/etc/r.conf".toList⟩ :: [])) none
      = .ret 1 (some (⟨some "x y\n".toList, "/etc/r.conf".toList⟩ :: []))
          (some "name".toList) (some "value".toList) CONF_STR []) :=
  ⟨⟨by unfold PlainWord BareWord; decide, by unfold PlainWord BareWord; decide⟩,
    getconfigline_scalar_forms zeroLine "x y\n".toList "/etc/r.conf".toList [] none
      "name".toList "value".toList (by unfold PlainWord BareWord; decide)
      (by unfold PlainWord BareWord; decide) (by decide) (by decide) (by decide)⟩

/-- Counterexample to C1 as stated: the name `"a` (a quote, then a letter) and
the value `b` are non-empty, free of delimiters and the name opens with neither
`#` nor a closing brace, yet `getconfigline` fails on the line `"a b`: the quote
is never closed. -/
theorem getconfigline_scalar_forms_counterexample :
    (BareWord [DQUOTE, 'a'] ∧ BareWord ['b'] ∧ [DQUOTE, 'a'].head? ≠ some HASH ∧
      [DQUOTE, 'a'].head? ≠ some RBRACE) ∧
    getconfigline zeroLine
        (some [⟨some ([DQUOTE, 'a'] ++ SP :: ['b'] ++ LF :: []), "/etc/r.conf".toList⟩]) none
      = .ret 0 (some [⟨some [], "/etc/r.conf".toList⟩]) none none 0
          [.lineStart (some ([DQUOTE, 'a'] ++ SP :: ['b'] ++ LF :: []))] := by
  unfold BareWord
  decide


/-- Claim C2: for every quote character `q` of the quote set and every content
`c` holding neither `q` nor NUL, the tokenizer applied to `q c q` followed by a
delimiter or the end of the line returns a token that reads exactly `c`,
whatever delimiters, `#` or other quote `c` holds; and `getconfigline` on the
line `opt "a b c"` (with or without a newline after it) yields the value
`a b c`. -/
theorem strtokenquote_quoted_roundtrip (pre : List Char) (q : Char) (c : CString) (d : Char)
    (post : List Char) (comment : Option CString) (line0 rest : List Char)
    (hq : q ∈ QUOTES) (hc : q ∉ c) (hnul : NUL ∉ c) (hd : d = NUL ∨ d ∈ DELIMS)
    (hcm : comment = none ∨ comment = some COMMENTS) :
    (strtokenquote (pre ++ q :: (c ++ q :: d :: post)) (some pre.length) true (some DELIMS)
        (some QUOTES) comment
      = .ok (pre ++ q :: (c ++ NUL :: d :: post)) (some (pre.length + 1))
          (pre.length + c.length + 2) ∧
      stringcopy (pre ++ q :: (c ++ NUL :: d :: post)) (pre.length + 1) = some c) ∧
    getconfigline line0
        (some [⟨some ("opt".toList ++ SP :: DQUOTE :: ("a b c".toList ++ [DQUOTE])),
          "/etc/r.conf".toList⟩]) none
      = .ret 1 (some [⟨some [], "/etc/r.conf".toList⟩]) (some "opt".toList)
          (some "a b c".toList) CONF_STR [] ∧
    getconfigline line0
        (some [⟨some ("opt".toList ++ SP :: DQUOTE :: ("a b c".toList ++ DQUOTE :: LF :: rest)),
          "/etc/r.conf".toList⟩]) none
      = .ret 1 (some [⟨some rest, "/etc/r.conf".toList⟩]) (some "opt".toList)
          (some "a b c".toList) CONF_STR [] := by
  have hb : ∀ x ∈ c, x ≠ NUL ∧ x ≠ q := fun x hx =>
    ⟨fun h => hnul (h ▸ hx), fun h => hc (h ▸ hx)⟩
  have hopt : PlainWord "opt".toList := by unfold PlainWord BareWord; decide
  have habc : ∀ x ∈ "a b c".toList, x ≠ NUL ∧ x ≠ DQUOTE := by decide
  refine ⟨⟨quoted_step pre q c d post comment pre.length rfl hq hcm hb hd, ?_⟩, ?_, ?_⟩
  · have := stringcopy_word (pre ++ [q]) c (d :: post) (pre.length + 1) (by simp) hnul
    simpa using this
  · have hf := fgets_eof line0 ("opt".toList ++ SP :: DQUOTE :: ("a b c".toList ++ [DQUOTE]))
      (by decide) (by decide) (by decide)
    exact quoted_value_line line0 _ [] _ [] none "opt".toList DQUOTE "a b c".toList []
      (List.drop 12 line0) hopt (by decide) (by decide) (by decide) habc (by decide)
      (by simp) (by simpa using hf)
  · have hf := fgets_line line0 ("opt".toList ++ SP :: DQUOTE :: ("a b c".toList ++ [DQUOTE]))
      rest (by decide) (by decide)
    exact quoted_value_line line0 _ rest _ [] none "opt".toList DQUOTE "a b c".toList [LF]
      (List.drop 13 line0) hopt (by decide) (by decide) (by decide) habc (by decide)
      (by decide) (by simpa using hf)

/-- Witness for C2: the double-quoted content `a b # ' c`, which holds blanks, a
`#` and the other quote character, after the word `opt` and before the end of
the line. -/
theorem strtokenquote_quoted_roundtrip_witness :
    (strtokenquote ("opt ".toList ++ DQUOTE :: ("a b # ".toList ++ SQUOTE :: " c".toList
          ++ DQUOTE :: NUL :: [])) (some "opt ".toList.length) true (some DELIMS)
        (some QUOTES) none
      = .ok ("opt ".toList ++ DQUOTE :: ("a b # ".toList ++ SQUOTE :: " c".toList
          ++ NUL :: NUL :: [])) (some ("opt ".toList.length + 1))
          ("opt ".toList.length + ("a b # ".toList ++ SQUOTE :: " c".toList).length + 2) ∧
      stringcopy ("opt ".toList ++ DQUOTE :: ("a b # ".toList ++ SQUOTE :: " c".toList
          ++ NUL :: NUL :: [])) ("opt ".toList.length + 1)
        = some ("a b # ".toList ++ SQUOTE :: " c".toList)) ∧
    getconfigline zeroLine
        (some [⟨some ("opt".toList ++ SP :: DQUOTE :: ("a b c".toList ++ [DQUOTE])),
          "/etc/r.conf".toList⟩]) none
      = .ret 1 (some [⟨some [], "/etc/r.conf".toList⟩]) (some "opt".toList)
          (some "a b c".toList) CONF_STR [] ∧
    getconfigline zeroLine
        (some [⟨some ("opt".toList ++ SP :: DQUOTE :: ("a b c".toList ++ DQUOTE :: LF :: [])),
          "/etc/r.conf".toList⟩]) none
      = .ret 1 (some [⟨some [], "/etc/r.conf".toList⟩]) (some "opt".toList)
          (some "a b c".toList) CONF_STR [] :=
  strtokenquote_quoted_roundtrip "opt ".toList DQUOTE ("a b # ".toList ++ SQUOTE :: " c".toList)
    NUL [] none zeroLine [] (by decide) (by decide) (by decide) (Or.inl rfl) (Or.inl rfl)


theorem split_run (P : Char → Prop) (l : List Char) :
    ∃ a b, l = a ++ b ∧ (∀ x ∈ a, P x) ∧ (b = [] ∨ ∃ y b1, b = y :: b1 ∧ ¬ P y) := by
  induction l with
  | nil => exact ⟨[], [], rfl, by simp, Or.inl rfl⟩
  | cons x l ih =>
    by_cases hx : P x
    · obtain ⟨a, b, hl, ha, hb⟩ := ih
      refine ⟨x :: a, b, by simp [hl], ?_, hb⟩
      intro y hy
      rcases List.mem_cons.1 hy with h | h
      · exact h ▸ hx
      · exact ha y h
    · exact ⟨[], x :: l, rfl, by simp, Or.inr ⟨x, l, rfl, hx⟩⟩

theorem malformed_null (del : CString) (quote comment : Option CString)
    (pre line post : List Char) (hline : NUL ∉ line) (hm : Malformed del quote comment line) :
    strtokenquote (pre ++ line ++ NUL :: post) (some pre.length) true (some del) quote comment
      = .null := by
  obtain ⟨ds, q, body, rfl, hds, hq, hqc, hqq, hcase⟩ := hm
  have hds2 : ∀ x ∈ ds, x ≠ NUL ∧ x ∈ del := fun x hx =>
    ⟨fun h => hline (by simp [← h, hx]), hds x hx⟩
  have hq2 : q ≠ NUL ∧ q ∉ del := ⟨fun h => hline (by simp [← h]), hq⟩
  rcases hcase with hnb | ⟨c, x, after, rfl, hc, hx⟩
  · have hb : ∀ x ∈ body, x ≠ NUL ∧ x ≠ q := fun x hx =>
      ⟨fun h => hline (by simp [← h, hx]), fun h => hnb (h ▸ hx)⟩
    have := strtokenquote_unclosed del quote comment pre ds q body post hds2 hq2 hqq hqc hb
    simpa using this
  · have hb : ∀ y ∈ c, y ≠ NUL ∧ y ≠ q := fun y hy =>
      ⟨fun h => hline (by simp [← h, hy]), fun h => hc (h ▸ hy)⟩
    have hx2 : x ≠ NUL ∧ x ∉ del := ⟨fun h => hline (by simp [← h]), hx⟩
    have := strtokenquote_trailing del quote comment pre ds q c x (after ++ NUL :: post)
      hds2 hq2 hqq hqc hb hx2
    simpa using this

theorem wellformed_ok (del : CString) (quote comment : Option CString)
    (pre line post : List Char) (hline : NUL ∉ line) (hm : ¬ Malformed del quote comment line) :
    ∃ mem tok next, strtokenquote (pre ++ line ++ NUL :: post) (some pre.length) true
      (some del) quote comment = .ok mem tok next := by
  obtain ⟨ds, r, rfl, hds, hr⟩ := split_run (fun c => c ∈ del) line
  have hds2 : ∀ x ∈ ds, x ≠ NUL ∧ x ∈ del := fun x hx =>
    ⟨fun h => hline (by simp [← h, hx]), hds x hx⟩
  rcases hr with rfl | ⟨x, r1, rfl, hx⟩
  · have := strtokenquote_end del quote comment pre ds NUL post hds2 (Or.inl rfl)
    exact ⟨_, _, _, by simpa using this⟩
  · have hx2 : x ≠ NUL ∧ x ∉ del := ⟨fun h => hline (by simp [← h]), hx⟩
    by_cases hcm : InSet comment x
    · have := strtokenquote_end del quote comment pre ds x (r1 ++ NUL :: post) hds2
        (Or.inr ⟨hx, hcm⟩)
      exact ⟨_, _, _, by simpa using this⟩
    · by_cases hqu : InSet quote x
      · obtain ⟨c, r2, rfl, hc, hr2⟩ := split_run (fun y => y ≠ x) r1
        have hb : ∀ y ∈ c, y ≠ NUL ∧ y ≠ x := fun y hy =>
          ⟨fun h => hline (by simp [← h, hy]), hc y hy⟩
        rcases hr2 with rfl | ⟨y, r3, rfl, hy⟩
        · exfalso
          apply hm
          refine ⟨ds, x, c, by simp, hds, hx, hcm, hqu, Or.inl ?_⟩
          intro h
          exact hc x h rfl
        · have hyx : y = x := by
            by_contra h
            exact hy h
          subst hyx
          cases r3 with
          | nil =>
            have := strtokenquote_quoted del quote comment pre ds y c NUL post hds2 hx2 hqu
              hcm hb (Or.inl rfl)
            exact ⟨_, _, _, by simpa using this⟩
          | cons z after =>
            by_cases hz : z ∈ del
            · have := strtokenquote_quoted del quote comment pre ds y c z
                (after ++ NUL :: post) hds2 hx2 hqu hcm hb (Or.inr hz)
              exact ⟨_, _, _, by simpa using this⟩
            · exfalso
              apply hm
              refine ⟨ds, y, c ++ y :: z :: after, rfl, hds, hx, hcm, hqu,
                Or.inr ⟨c, z, after, rfl, ?_, hz⟩⟩
              intro h
              exact hc y h rfl
      · obtain ⟨w, r2, rfl, hw, hr2⟩ := split_run (fun y => y ∉ del) r1
        have hw2 : ∀ y ∈ w, y ≠ NUL ∧ y ∉ del := fun y hy =>
          ⟨fun h => hline (by simp [← h, hy]), hw y hy⟩
        rcases hr2 with rfl | ⟨y, r3, rfl, hy⟩
        · have := strtokenquote_plain del quote comment pre ds x w NUL post hds2 hx2 hqu hcm
            hw2 (Or.inl rfl)
          exact ⟨_, _, _, by simpa using this⟩
        · have hy2 : y ∈ del := by
            by_contra h
            exact hy h
          have := strtokenquote_plain del quote comment pre ds x w y (r3 ++ NUL :: post) hds2
            hx2 hqu hcm hw2 (Or.inr hy2)
          exact ⟨_, _, _, by simpa using this⟩

/-- Claim C3: called with a non-NULL line, token slot and delimiter set on a
NUL-terminated line, `strtokenquote` returns NULL if and only if the first
character after the leading delimiters (no comment start when a comment set is
given) is a quote character `q` and either no later `q` occurs in the line or
the character right after the closing `q` is neither the end of the line nor a
delimiter; in every other case it returns a non-NULL cursor with a token or
with the no-more-tokens signal. -/
theorem strtokenquote_null_iff (del : CString) (quote comment : Option CString)
    (pre line post : List Char) (hline : NUL ∉ line) :
    (strtokenquote (pre ++ line ++ NUL :: post) (some pre.length) true (some del) quote comment
        = .null ↔ Malformed del quote comment line) ∧
    (¬ Malformed del quote comment line →
      ∃ mem tok next, strtokenquote (pre ++ line ++ NUL :: post) (some pre.length) true
        (some del) quote comment = .ok mem tok next) := by
  refine ⟨⟨?_, malformed_null del quote comment pre line post hline⟩,
    wellformed_ok del quote comment pre line post hline⟩
  intro hnull
  by_contra hm
  obtain ⟨mem, tok, next, hok⟩ := wellformed_ok del quote comment pre line post hline hm
  rw [hok] at hnull
  cases hnull

/-- Witness for C3: the second token of the line `opt "a"b`, where a letter
follows the closing quote at once, is malformed and the tokenizer returns NULL. -/
theorem strtokenquote_null_iff_witness :
    NUL ∉ [DQUOTE, 'a', DQUOTE, 'b'] ∧
    ((strtokenquote ("opt ".toList ++ [DQUOTE, 'a', DQUOTE, 'b'] ++ NUL :: [])
          (some "opt ".toList.length) true (some DELIMS) (some QUOTES) none = .null
        ↔ Malformed DELIMS (some QUOTES) none [DQUOTE, 'a', DQUOTE, 'b']) ∧
      (¬ Malformed DELIMS (some QUOTES) none [DQUOTE, 'a', DQUOTE, 'b'] →
        ∃ mem tok next, strtokenquote ("opt ".toList ++ [DQUOTE, 'a', DQUOTE, 'b'] ++ NUL :: [])
          (some "opt ".toList.length) true (some DELIMS) (some QUOTES) none
            = .ok mem tok next)) ∧
    strtokenquote ("opt ".toList ++ [DQUOTE, 'a', DQUOTE, 'b'] ++ NUL :: [])
      (some "opt ".toList.length) true (some DELIMS) (some QUOTES) none = .null :=
  ⟨by decide,
    strtokenquote_null_iff DELIMS (some QUOTES) none "opt ".toList [DQUOTE, 'a', DQUOTE, 'b'] []
      (by decide),
    by decide⟩


/-! ## Claims about the file stack -/

theorem pushgconffile_open (env : Env) (cf : CfStack) (p : CString) (f : List Char)
    (hf : env.fopen p = some f) :
    pushgconffile env cf p = (some (⟨env.fopen p, p⟩ :: entries cf), some f) := by
  cases cf <;> simp [pushgconffile, hf, entries]

theorem pushLoop_all (env : Env) (qs : List CString) (m0 : CString) (cf : CfStack)
    (f0 : Option (List Char)) (hopen : ∀ m ∈ qs ++ [m0], (env.fopen m).isSome) :
    pushLoop env (qs ++ [m0]) cf f0
      = (some ((m0 :: qs.reverse).map (fun m => ⟨env.fopen m, m⟩) ++ entries cf),
          env.fopen m0) := by
  induction qs generalizing cf f0 with
  | nil =>
    have h := hopen m0 (by simp)
    cases hf : env.fopen m0 with
    | none => simp [hf] at h
    | some f =>
      have hp := pushgconffile_open env cf m0 f hf
      simp only [List.nil_append, pushLoop, hp]
      simp [hf]
  | cons q qs ih =>
    have h := hopen q (by simp)
    cases hf : env.fopen q with
    | none => simp [hf] at h
    | some f =>
      have hp := pushgconffile_open env cf q f hf
      have := ih (some (⟨env.fopen q, q⟩ :: entries cf)) (some f)
        (fun m hm => hopen m (by simp at hm ⊢; tauto))
      simp only [List.cons_append, pushLoop, hp]
      refine Eq.trans this ?_
      simp [entries]

/-- Claim C4: when `glob` returns the matches `m0, m1, ..., mk` and each of them
opens, `pushgconffiles` leaves the stack equal to the entries of
`m0, m1, ..., mk` in this order followed by the prior stack unchanged, and
returns the handle of `m0`, the file on top; with the matches `a.conf`,
`b.conf`, `c.conf` the lines are read from `a.conf`, then `b.conf`, then
`c.conf`, then from the rest of the including file. -/
theorem pushgconffiles_glob_order (env : Env) (cf : CfStack) (cfgpath path m0 : CString)
    (ms : List CString)
    (hpath : resolvePath env cf cfgpath = some path)
    (hglob : env.glob path = some (m0 :: ms))
    (hopen : ∀ m ∈ m0 :: ms, (env.fopen m).isSome) :
    pushgconffiles env cf cfgpath
        = some (some ((m0 :: ms).map (fun m => ⟨env.fopen m, m⟩) ++ entries cf),
            env.fopen m0) ∧
    (getgenericconfig subEnv zeroJunk sampleTable none 10
        (oneFile "/etc/root.conf" "include sub/*.conf\nmember last\n") unsetStore).code
      = some 1 ∧
    (getgenericconfig subEnv zeroJunk sampleTable none 10
        (oneFile "/etc/root.conf" "include sub/*.conf\nmember last\n") unsetStore).store.map
          (fun st => st.mstr 0)
      = some (some [some "a".toList, some "b".toList, some "c".toList, some "last".toList,
          none]) := by
  refine ⟨?_, by decide, by decide⟩
  have h := pushLoop_all env ms.reverse m0 cf none
    (fun m hm => hopen m (by simp at hm ⊢; tauto))
  simp only [pushgconffiles, hpath, hglob, List.reverse_cons, h, List.reverse_reverse]

/-- Witness for C4: the include of `sub/*.conf` from `/etc/root.conf` in a
directory holding `a.conf`, `b.conf` and `c.conf`. -/
theorem pushgconffiles_glob_order_witness :
    pushgconffiles subEnv (oneFile "/etc/root.conf" "member last\n") "sub/*.conf".toList
        = some (some (("/etc/sub/a.conf".toList ::
              ["/etc/sub/b.conf".toList, "/etc/sub/c.conf".toList]).map
                (fun m => ⟨subEnv.fopen m, m⟩)
            ++ entries (oneFile "/etc/root.conf" "member last\n")),
            subEnv.fopen "/etc/sub/a.conf".toList) ∧
    (getgenericconfig subEnv zeroJunk sampleTable none 10
        (oneFile "/etc/root.conf" "include sub/*.conf\nmember last\n") unsetStore).code
      = some 1 ∧
    (getgenericconfig subEnv zeroJunk sampleTable none 10
        (oneFile "/etc/root.conf" "include sub/*.conf\nmember last\n") unsetStore).store.map
          (fun st => st.mstr 0)
      = some (some [some "a".toList, some "b".toList, some "c".toList, some "last".toList,
          none]) :=
  pushgconffiles_glob_order subEnv (oneFile "/etc/root.conf" "member last\n")
    "sub/*.conf".toList "/etc/sub/*.conf".toList "/etc/sub/a.conf".toList
    ["/etc/sub/b.conf".toList, "/etc/sub/c.conf".toList] (by decide) (by decide) (by decide)


/-! ## Facts about the option binder -/

theorem strcasecmp_congr (a b w : CString) (h : a.map tolower = b.map tolower) :
    strcasecmp a w = strcasecmp b w := by
  induction a generalizing b w with
  | nil =>
    cases b with
    | nil => rfl
    | cons y b => simp at h
  | cons x a ih =>
    cases b with
    | nil => simp at h
    | cons y b =>
      simp only [List.map_cons, List.cons.injEq] at h
      cases w with
      | nil => simp [strcasecmp, h.1]
      | cons z w => simp only [strcasecmp, h.1, ih b w h.2]

theorem lookup_congr (a b : CString) (table : List Entry)
    (h : a.map tolower = b.map tolower) : lookup a table = lookup b table := by
  induction table with
  | nil => rfl
  | cons e table ih => simp only [lookup, strcasecmp_congr a b e.word h, ih]

/-- One round of `getgenericconfig` on a line that `getconfigline` classifies. -/
theorem getgenericconfig_round (env : Env) (junk : Nat → List Char) (table : List Entry)
    (block : Option CString) (fuel : Nat) (cf cf1 : CfStack) (st : Store) (o v : CString)
    (t : Nat) (log : List Diag)
    (h : getconfigline (junk fuel) cf block = .ret 1 cf1 (some o) (some v) t log) :
    getgenericconfig env junk table block (fuel + 1) cf st
      = match bindLine env table block cf1 st o v t with
        | .cont cf2 st2 => getgenericconfig env junk table block fuel cf2 st2
        | .stop r2 cf2 st2 log2 => .ret r2 cf2 st2 log2
        | .fault => .fault := by
  simp only [getgenericconfig, h, Nat.succ_ne_zero, if_false]

theorem bindLine_found (env : Env) (table : List Entry) (block : Option CString)
    (cf : CfStack) (st : Store) (o v : CString) (t : Nat) (b : Binding)
    (hinc : ¬ (t = CONF_STR ∧ strcasecmp o "include".toList = 0))
    (hl : lookup o table = .found b) (hk : kindMismatch b.type t = false) :
    bindLine env table block cf st o v t = dispatch block cf st o v b := by
  simp only [bindLine, hinc, if_false, hl, hk, Bool.false_eq_true]

theorem kind_str : kindMismatch (Binding.str a).type CONF_STR = false := by
  simp [kindMismatch, Binding.type]

theorem kind_mstr : kindMismatch (Binding.mstr a).type CONF_STR = false := by
  simp [kindMismatch, Binding.type, CONF_STR, CONF_MSTR, CONF_CBK]

theorem kind_bln : kindMismatch (Binding.bln a).type CONF_STR = false := by
  simp [kindMismatch, Binding.type, CONF_STR, CONF_BLN, CONF_CBK]


/-! ## Claims about the option binder -/

/-- Claim C5: when two scalar lines name, up to letter case, the same string
option bound to a destination that starts unset, `getgenericconfig` returns 0
at the second line, logging that the option is already set, and the destination
still holds the value of the first line; more generally the second line fails,
with the destination untouched, whenever the destination is set when it is
read. -/
theorem string_option_twice (env : Env) (junk : Nat → List Char) (table : List Entry)
    (block : Option CString) (fuel : Nat) (cf cf1 cf2 : CfStack) (st : Store) (a : Nat)
    (o1 v1 o2 v2 : CString) (log1 log2 : List Diag)
    (h1 : getconfigline (junk (fuel + 1)) cf block
      = .ret 1 cf1 (some o1) (some v1) CONF_STR log1)
    (h2 : getconfigline (junk fuel) cf1 block = .ret 1 cf2 (some o2) (some v2) CONF_STR log2)
    (hsame : o2.map tolower = o1.map tolower)
    (hinc : strcasecmp o1 "include".toList ≠ 0)
    (hl : lookup o1 table = .found (.str (some a)))
    (hunset : st.str a = none) :
    getgenericconfig env junk table block (fuel + 2) cf st
      = .ret 0 cf2 { st with str := Function.update st.str a (some v1) }
          [.alreadySet o2 v1] ∧
    ∀ (st1 : Store) (cur : CString), st1.str a = some cur →
      getgenericconfig env junk table block (fuel + 1) cf1 st1
        = .ret 0 cf2 st1 [.alreadySet o2 cur] := by
  have hinc1 : ¬ (CONF_STR = CONF_STR ∧ strcasecmp o1 "include".toList = 0) := fun h => hinc h.2
  have hinc2 : ¬ (CONF_STR = CONF_STR ∧ strcasecmp o2 "include".toList = 0) := by
    rw [strcasecmp_congr o2 o1 _ hsame]
    exact hinc1
  have hl2 : lookup o2 table = .found (.str (some a)) := by
    rw [lookup_congr o2 o1 table hsame]
    exact hl
  have second : ∀ (st1 : Store) (cur : CString), st1.str a = some cur →
      getgenericconfig env junk table block (fuel + 1) cf1 st1
        = .ret 0 cf2 st1 [.alreadySet o2 cur] := by
    intro st1 cur hcur
    rw [getgenericconfig_round env junk table block fuel cf1 cf2 st1 o2 v2 CONF_STR log2 h2,
      bindLine_found env table block cf2 st1 o2 v2 CONF_STR _ hinc2 hl2 kind_str]
    simp only [dispatch, hcur]
  refine ⟨?_, second⟩
  rw [getgenericconfig_round env junk table block (fuel + 1) cf cf1 st o1 v1 CONF_STR log1 h1,
    bindLine_found env table block cf1 st o1 v1 CONF_STR _ hinc1 hl kind_str]
  simp only [dispatch, hunset]
  exact second _ v1 (by simp)

/-- Witness for C5: the lines `name foo` and `NAME bar` with `name` bound to a
string variable. -/
theorem string_option_twice_witness :
    getgenericconfig emptyEnv zeroJunk sampleTable none (1 + 2)
        (oneFile "/etc/r.conf" "name foo\nNAME bar\n") unsetStore
      = .ret 0 (oneFile "/etc/r.conf" "")
          { unsetStore with str := Function.update unsetStore.str 0 (some "foo".toList) }
          [.alreadySet "NAME".toList "foo".toList] ∧
    ∀ (st1 : Store) (cur : CString), st1.str 0 = some cur →
      getgenericconfig emptyEnv zeroJunk sampleTable none (1 + 1)
          (oneFile "/etc/r.conf" "NAME bar\n") st1
        = .ret 0 (oneFile "/etc/r.conf" "") st1 [.alreadySet "NAME".toList cur] :=
  string_option_twice emptyEnv zeroJunk sampleTable none 1
    (oneFile "/etc/r.conf" "name foo\nNAME bar\n") (oneFile "/etc/r.conf" "NAME bar\n")
    (oneFile "/etc/r.conf" "") unsetStore 0 "name".toList "foo".toList "NAME".toList
    "bar".toList [] [] (by decide) (by decide) (by decide) (by decide) (by rfl) (by rfl)


theorem dispatch_bln (block : Option CString) (cf : CfStack) (st : Store) (o v : CString)
    (a : Nat) (hv : strcasecmp v "on".toList = 0 ∨ strcasecmp v "off".toList = 0) :
    dispatch block cf st o v (.bln (some a))
      = .cont cf { st with bln := (Function.update st.bln a
          (if strcasecmp v "on".toList = 0 then 1 else 0)) } := by
  by_cases hon : strcasecmp v "on".toList = 0
  · simp only [dispatch, hon, if_true]
  · have hoff : strcasecmp v "off".toList = 0 := hv.resolve_left hon
    simp only [dispatch, hon, hoff, if_true, if_false]

/-- Claim C6, amended: re-assignment of a boolean option is no error.  When two
scalar lines with valid on/off values name, up to letter case, the same boolean
option, the second line overwrites the destination with its own value (1 for
`on`, 0 for `off`) and `getgenericconfig` goes on to the next line. -/
theorem boolean_option_twice (env : Env) (junk : Nat → List Char) (table : List Entry)
    (block : Option CString) (fuel : Nat) (cf cf1 cf2 : CfStack) (st : Store) (a : Nat)
    (o1 v1 o2 v2 : CString) (log1 log2 : List Diag)
    (h1 : getconfigline (junk (fuel + 1)) cf block
      = .ret 1 cf1 (some o1) (some v1) CONF_STR log1)
    (h2 : getconfigline (junk fuel) cf1 block = .ret 1 cf2 (some o2) (some v2) CONF_STR log2)
    (hsame : o2.map tolower = o1.map tolower)
    (hinc : strcasecmp o1 "include".toList ≠ 0)
    (hl : lookup o1 table = .found (.bln (some a)))
    (hv1 : strcasecmp v1 "on".toList = 0 ∨ strcasecmp v1 "off".toList = 0)
    (hv2 : strcasecmp v2 "on".toList = 0 ∨ strcasecmp v2 "off".toList = 0) :
    getgenericconfig env junk table block (fuel + 2) cf st
      = getgenericconfig env junk table block fuel cf2
          { st with bln := (Function.update st.bln a
            (if strcasecmp v2 "on".toList = 0 then 1 else 0)) } := by
  have hinc1 : ¬ (CONF_STR = CONF_STR ∧ strcasecmp o1 "include".toList = 0) := fun h => hinc h.2
  have hinc2 : ¬ (CONF_STR = CONF_STR ∧ strcasecmp o2 "include".toList = 0) := by
    rw [strcasecmp_congr o2 o1 _ hsame]
    exact hinc1
  have hl2 : lookup o2 table = .found (.bln (some a)) := by
    rw [lookup_congr o2 o1 table hsame]
    exact hl
  rw [getgenericconfig_round env junk table block (fuel + 1) cf cf1 st o1 v1 CONF_STR log1 h1,
    bindLine_found env table block cf1 st o1 v1 CONF_STR _ hinc1 hl kind_bln,
    dispatch_bln block cf1 st o1 v1 a hv1]
  simp only []
  rw [getgenericconfig_round env junk table block fuel cf1 cf2 _ o2 v2 CONF_STR log2 h2,
    bindLine_found env table block cf2 _ o2 v2 CONF_STR _ hinc2 hl2 kind_bln,
    dispatch_bln block cf2 _ o2 v2 a hv2]
  simp only [Function.update_idem]

/-- Witness for C6: the lines `flag on` and `flag off` with `flag` bound to a
boolean variable. -/
theorem boolean_option_twice_witness :
    getgenericconfig emptyEnv zeroJunk sampleTable none (3 + 2)
        (oneFile "/etc/r.conf" "flag on\nflag off\n") unsetStore
      = getgenericconfig emptyEnv zeroJunk sampleTable none 3 (oneFile "/etc/r.conf" "")
          { unsetStore with bln := (Function.update unsetStore.bln 0
            (if strcasecmp "off".toList "on".toList = 0 then 1 else 0)) } :=
  boolean_option_twice emptyEnv zeroJunk sampleTable none 3
    (oneFile "/etc/r.conf" "flag on\nflag off\n") (oneFile "/etc/r.conf" "flag off\n")
    (oneFile "/etc/r.conf" "") unsetStore 0 "flag".toList "on".toList "flag".toList
    "off".toList [] [] (by decide) (by decide) (by decide) (by decide) (by rfl) (by decide)
    (by decide)

/-- Counterexample to C6 as stated: on the lines `flag on` and `flag off`, with
`flag` bound to a boolean variable, `getgenericconfig` returns 1 and the variable
holds 0, the value of the second line. -/
theorem boolean_option_twice_counterexample :
    (getgenericconfig emptyEnv zeroJunk sampleTable none 5
        (oneFile "/etc/r.conf" "flag on\nflag off\n") unsetStore).code = some 1 ∧
    (getgenericconfig emptyEnv zeroJunk sampleTable none 5
        (oneFile "/etc/r.conf" "flag on\nflag off\n") unsetStore).store.map
          (fun st => st.bln 0) = some 0 ∧
    (getgenericconfig emptyEnv zeroJunk sampleTable none 5
        (oneFile "/etc/r.conf" "flag on\nflag off\n") unsetStore).log = some [] := by
  decide


theorem countMstr_take (arr : List (Option CString)) (h : none ∈ arr) :
    ∃ n, countMstr arr = some n ∧ arr.take n = (mstrList (some arr)).map some := by
  induction arr with
  | nil => simp at h
  | cons x arr ih =>
    cases x with
    | none => exact ⟨0, rfl, by simp [mstrList]⟩
    | some v =>
      have h2 : none ∈ arr := by simpa using h
      obtain ⟨n, hn, ht⟩ := ih h2
      exact ⟨n + 1, by simp [countMstr, hn], by simp [mstrList, ht]⟩

theorem mstrList_canon (xs : List CString) :
    mstrList (some (xs.map some ++ [none])) = xs := by
  induction xs with
  | nil => simp [mstrList]
  | cons x xs ih => simp [mstrList, ih]

theorem dispatch_mstr (block : Option CString) (cf : CfStack) (st : Store) (o v : CString)
    (a : Nat) (hterm : ∀ arr, st.mstr a = some arr → none ∈ arr) :
    dispatch block cf st o v (.mstr (some a))
      = .cont cf { st with mstr := (Function.update st.mstr a
          (some ((mstrList (st.mstr a) ++ [v]).map some ++ [none]))) } := by
  cases hcur : st.mstr a with
  | none => simp [dispatch, hcur, mstrList]
  | some arr =>
    obtain ⟨n, hn, ht⟩ := countMstr_take arr (hterm arr hcur)
    simp [dispatch, hcur, hn, ht]

/-- Claim C7: `n` scalar lines in a row that name a multi-string option, with
the values `v1, ..., vn`, append these values in this order to the destination:
when it held the strings `L` (none when unset) in front of its terminator, the
run goes on with the destination holding `L ++ [v1, ..., vn]` followed by the
NULL terminator and every other variable unchanged; three lines on an unset
destination leave exactly their three values, in order. -/
theorem multi_string_accumulates (env : Env) (junk : Nat → List Char) (table : List Entry)
    (block : Option CString) (fuel : Nat) (a : Nat) (ls : List (CString × CString))
    (cf cf1 : CfStack) (st : Store)
    (hreads : ReadsScalars junk block fuel cf ls cf1)
    (hnames : ∀ l ∈ ls, strcasecmp l.1 "include".toList ≠ 0 ∧
      lookup l.1 table = .found (.mstr (some a)))
    (hterm : ∀ arr, st.mstr a = some arr → none ∈ arr) :
    (∃ st1 : Store,
      getgenericconfig env junk table block (fuel + ls.length) cf st
        = getgenericconfig env junk table block fuel cf1 st1 ∧
      mstrList (st1.mstr a) = mstrList (st.mstr a) ++ ls.map Prod.snd ∧
      (ls = [] → st1 = st) ∧
      (ls ≠ [] → st1.mstr a
        = some ((mstrList (st.mstr a) ++ ls.map Prod.snd).map some ++ [none])) ∧
      (∀ arr, st1.mstr a = some arr → none ∈ arr) ∧
      st1.str = st.str ∧ st1.bln = st.bln ∧ ∀ b, b ≠ a → st1.mstr b = st.mstr b) ∧
    (getgenericconfig emptyEnv zeroJunk sampleTable none 5
        (oneFile "/etc/r.conf" "member a\nmember b\nmember c\n") unsetStore).code = some 1 ∧
    (getgenericconfig emptyEnv zeroJunk sampleTable none 5
        (oneFile "/etc/r.conf" "member a\nmember b\nmember c\n") unsetStore).store.map
          (fun s => s.mstr 0)
      = some (some [some "a".toList, some "b".toList, some "c".toList, none]) := by
  refine ⟨?_, by decide, by decide⟩
  induction ls generalizing cf st with
  | nil =>
    have hcf : cf1 = cf := hreads
    subst hcf
    exact ⟨st, rfl, by simp, fun _ => rfl, by simp, hterm, rfl, rfl, fun _ _ => rfl⟩
  | cons l rest ih =>
    obtain ⟨cf2, hline, hrest⟩ := hreads
    have hl := hnames l (List.mem_cons_self _ _)
    have hinc : ¬ (CONF_STR = CONF_STR ∧ strcasecmp l.1 "include".toList = 0) :=
      fun h => hl.1 h.2
    have hstep : getgenericconfig env junk table block (fuel + (l :: rest).length) cf st
        = getgenericconfig env junk table block (fuel + rest.length) cf2
            { st with mstr := (Function.update st.mstr a
              (some ((mstrList (st.mstr a) ++ [l.2]).map some ++ [none]))) } := by
      have e : fuel + (l :: rest).length = fuel + rest.length + 1 := by simp; omega
      rw [e, getgenericconfig_round env junk table block (fuel + rest.length) cf cf2 st l.1 l.2
        CONF_STR [] hline,
        bindLine_found env table block cf2 st l.1 l.2 CONF_STR _ hinc hl.2 kind_mstr,
        dispatch_mstr block cf2 st l.1 l.2 a hterm]
    obtain ⟨st1, hrun, hlist, hsame, hfull, hterm1, hstr, hbln, hother⟩ :=
      ih cf2 { st with mstr := (Function.update st.mstr a
          (some ((mstrList (st.mstr a) ++ [l.2]).map some ++ [none]))) }
        hrest (fun x hx => hnames x (List.mem_cons_of_mem _ hx))
        (by
          intro arr harr
          simp only [Function.update_same, Option.some.injEq] at harr
          subst harr
          simp)
    simp only [Function.update_same, mstrList_canon] at hlist hfull
    refine ⟨st1, hstep.trans hrun, by simpa using hlist, fun h => absurd h (by simp), ?_,
      hterm1, hstr, hbln, ?_⟩
    · intro _
      cases rest with
      | nil =>
        rw [hsame rfl]
        simp
      | cons r rest2 => simpa using hfull (by simp)
    · intro b hb
      rw [hother b hb]
      simp [Function.update_noteq hb]


/-- Witness for C7: the three lines `member a`, `MEMBER b`, `member c` with
`member` bound to an unset multi-string variable. -/
theorem multi_string_accumulates_witness :
    (∃ st1 : Store,
      getgenericconfig emptyEnv zeroJunk sampleTable none
          (2 + [("member".toList, "a".toList), ("MEMBER".toList, "b".toList),
            ("member".toList, "c".toList)].length)
          (oneFile "/etc/r.conf" "member a\nMEMBER b\nmember c\n") unsetStore
        = getgenericconfig emptyEnv zeroJunk sampleTable none 2 (oneFile "/etc/r.conf" "") st1 ∧
      mstrList (st1.mstr 0) = mstrList (unsetStore.mstr 0)
        ++ [("member".toList, "a".toList), ("MEMBER".toList, "b".toList),
            ("member".toList, "c".toList)].map Prod.snd ∧
      ([("member".toList, "a".toList), ("MEMBER".toList, "b".toList),
            ("member".toList, "c".toList)] = [] → st1 = unsetStore) ∧
      ([("member".toList, "a".toList), ("MEMBER".toList, "b".toList),
            ("member".toList, "c".toList)] ≠ [] → st1.mstr 0
        = some ((mstrList (unsetStore.mstr 0)
            ++ [("member".toList, "a".toList), ("MEMBER".toList, "b".toList),
              ("member".toList, "c".toList)].map Prod.snd).map some ++ [none])) ∧
      (∀ arr, st1.mstr 0 = some arr → none ∈ arr) ∧
      st1.str = unsetStore.str ∧ st1.bln = unsetStore.bln ∧
      ∀ b, b ≠ 0 → st1.mstr b = unsetStore.mstr b) ∧
    (getgenericconfig emptyEnv zeroJunk sampleTable none 5
        (oneFile "/etc/r.conf" "member a\nmember b\nmember c\n") unsetStore).code = some 1 ∧
    (getgenericconfig emptyEnv zeroJunk sampleTable none 5
        (oneFile "/etc/r.conf" "member a\nmember b\nmember c\n") unsetStore).store.map
          (fun s => s.mstr 0)
      = some (some [some "a".toList, some "b".toList, some "c".toList, none]) :=
  multi_string_accumulates emptyEnv zeroJunk sampleTable none 2 0
    [("member".toList, "a".toList), ("MEMBER".toList, "b".toList),
      ("member".toList, "c".toList)]
    (oneFile "/etc/r.conf" "member a\nMEMBER b\nmember c\n") (oneFile "/etc/r.conf" "")
    unsetStore
    ⟨oneFile "/etc/r.conf" "MEMBER b\nmember c\n", by decide,
      oneFile "/etc/r.conf" "member c\n", by decide,
      oneFile "/etc/r.conf" "", by decide, rfl⟩
    (by
      intro l hl
      simp only [List.mem_cons, List.mem_singleton, List.not_mem_nil, or_false] at hl
      rcases hl with rfl | rfl | rfl <;> exact ⟨by decide, rfl⟩)
    (by
      intro arr h
      cases h)


theorem toNat_sub_ne (x y : Char) (h : x ≠ y) : (x.toNat : Int) - (y.toNat : Int) ≠ 0 := by
  intro h0
  apply h
  have e : x.toNat = y.toNat := by omega
  rw [← Char.ofNat_toNat x, ← Char.ofNat_toNat y, e]

theorem off_not_on (v : CString) (h : strcasecmp v "off".toList = 0) :
    strcasecmp v "on".toList ≠ 0 := by
  have ho : "off".toList = 'o' :: 'f' :: 'f' :: [] := rfl
  have hn : "on".toList = 'o' :: 'n' :: [] := rfl
  rw [ho] at h
  rw [hn]
  cases v with
  | nil => exact absurd h (by decide)
  | cons a as =>
    by_cases ha : tolower a = tolower 'o'
    · simp only [strcasecmp, ha, if_true] at h ⊢
      cases as with
      | nil => exact absurd h (by decide)
      | cons b bs =>
        by_cases hb : tolower b = tolower 'f'
        · have hbn : tolower b ≠ tolower 'n' := by
            rw [hb]
            decide
          simp only [strcasecmp, hbn, if_false]
          exact toNat_sub_ne _ _ hbn
        · simp only [strcasecmp, hb, if_false] at h
          exact absurd h (toNat_sub_ne _ _ hb)
    · simp only [strcasecmp, ha, if_false] at h
      exact absurd h (toNat_sub_ne _ _ ha)

/-- Claim C8: for a boolean binding, a scalar line whose value equals `on` up to
ASCII case sets the destination to 1 and the run goes on, a value equal to `off`
up to case sets it to 0, and any other value makes `getgenericconfig` return 0
with every destination unchanged. -/
theorem boolean_values (env : Env) (junk : Nat → List Char) (table : List Entry)
    (block : Option CString) (fuel : Nat) (cf cf1 : CfStack) (st : Store) (a : Nat)
    (o v : CString) (log : List Diag)
    (hline : getconfigline (junk fuel) cf block = .ret 1 cf1 (some o) (some v) CONF_STR log)
    (hinc : strcasecmp o "include".toList ≠ 0)
    (hl : lookup o table = .found (.bln (some a))) :
    (strcasecmp v "on".toList = 0 →
      getgenericconfig env junk table block (fuel + 1) cf st
        = getgenericconfig env junk table block fuel cf1
            { st with bln := (Function.update st.bln a 1) }) ∧
    (strcasecmp v "off".toList = 0 →
      getgenericconfig env junk table block (fuel + 1) cf st
        = getgenericconfig env junk table block fuel cf1
            { st with bln := (Function.update st.bln a 0) }) ∧
    (strcasecmp v "on".toList ≠ 0 → strcasecmp v "off".toList ≠ 0 →
      getgenericconfig env junk table block (fuel + 1) cf st
        = .ret 0 cf1 st
            (match block with
              | some b => [.badBoolInBlock b o v]
              | none => [.badBool o v])) := by
  have hinc1 : ¬ (CONF_STR = CONF_STR ∧ strcasecmp o "include".toList = 0) := fun h => hinc h.2
  have hrun := getgenericconfig_round env junk table block fuel cf cf1 st o v CONF_STR log hline
  rw [bindLine_found env table block cf1 st o v CONF_STR _ hinc1 hl kind_bln] at hrun
  refine ⟨?_, ?_, ?_⟩
  · intro hon
    rw [hrun]
    simp only [dispatch, hon, if_true]
  · intro hoff
    have hon := off_not_on v hoff
    rw [hrun]
    simp only [dispatch, hon, hoff, if_true, if_false]
  · intro hon hoff
    rw [hrun]
    cases block <;> simp only [dispatch, hon, hoff, if_false]

/-- Witness for C8: the lines `flag on`, `flag off` and `flag maybe`. -/
theorem boolean_values_witness :
    ((getgenericconfig emptyEnv zeroJunk sampleTable none 5
        (oneFile "/etc/r.conf" "flag on\n") unsetStore).code = some 1 ∧
      (getgenericconfig emptyEnv zeroJunk sampleTable none 5
        (oneFile "/etc/r.conf" "flag on\n") unsetStore).store.map (fun s => s.bln 0)
          = some 1) ∧
    ((getgenericconfig emptyEnv zeroJunk sampleTable none 5
        (oneFile "/etc/r.conf" "flag OFF\n") unsetStore).code = some 1 ∧
      (getgenericconfig emptyEnv zeroJunk sampleTable none 5
        (oneFile "/etc/r.conf" "flag OFF\n") unsetStore).store.map (fun s => s.bln 0)
          = some 0) ∧
    getgenericconfig emptyEnv zeroJunk sampleTable none (4 + 1)
        (oneFile "/etc/r.conf" "flag maybe\n") unsetStore
      = .ret 0 (oneFile "/etc/r.conf" "") unsetStore [.badBool "flag".toList "maybe".toList] :=
  ⟨by decide, by decide,
    (boolean_values emptyEnv zeroJunk sampleTable none 4 (oneFile "/etc/r.conf" "flag maybe\n")
      (oneFile "/etc/r.conf" "") unsetStore 0 "flag".toList "maybe".toList []
      (by decide) (by decide) rfl).2.2 (by decide) (by decide)⟩


theorem finishLine_log (mem : List Char) (cf : CfStack) (topt tval t : Nat)
    (r : Nat) (cf1 : CfStack) (o v : Option CString) (t1 : Nat) (lg : List Diag)
    (h : finishLine mem cf topt tval t = .ret r cf1 o v t1 lg) :
    ∀ d ∈ lg, d.fromLine = true := by
  unfold finishLine at h
  split at h
  · split at h <;> cases h <;> simp [Diag.fromLine]
  · cases h

theorem badShape_log (block : Option CString) (mem : List Char) (cf : CfStack) (t0 : Nat)
    (r : Nat) (cf1 : CfStack) (o v : Option CString) (t1 : Nat) (lg : List Diag)
    (h : badShape block mem cf t0 = .ret r cf1 o v t1 lg) :
    ∀ d ∈ lg, d.fromLine = true := by
  unfold badShape at h
  split at h <;> cases h <;> simp [Diag.fromLine]

theorem classify_log (block : Option CString) (mem : List Char) (cf : CfStack)
    (toks : List Nat)
    (r : Nat) (cf1 : CfStack) (o v : Option CString) (t1 : Nat) (lg : List Diag)
    (h : classify block mem cf toks = .ret r cf1 o v t1 lg) :
    ∀ d ∈ lg, d.fromLine = true := by
  unfold classify at h
  split at h
  · exact finishLine_log _ _ _ _ _ _ _ _ _ _ _ h
  · split at h
    · cases h
    · exact finishLine_log _ _ _ _ _ _ _ _ _ _ _ h
    · split at h
      · cases h
      · exact finishLine_log _ _ _ _ _ _ _ _ _ _ _ h
      · exact badShape_log _ _ _ _ _ _ _ _ _ _ h
  · exact badShape_log _ _ _ _ _ _ _ _ _ _ h
  · cases h

theorem lineLoop_log (block : Option CString) (fuel : Nat) (line : List Char) (cf : CfStack)
    (r : Nat) (cf1 : CfStack) (o v : Option CString) (t1 : Nat) (lg : List Diag)
    (h : lineLoop block fuel line cf = .ret r cf1 o v t1 lg) :
    ∀ d ∈ lg, d.fromLine = true := by
  induction fuel generalizing line cf with
  | zero => cases h
  | succ fuel ih =>
    unfold lineLoop at h
    split at h
    · split at h
      · split at h
        · exact ih _ _ h
        · cases h
          simp
      · split at h
        · cases h
        · cases h
          simp [Diag.fromLine]
        · exact ih _ _ h
        · split at h
          · cases h
          · split at h
            · exact ih _ _ h
            · split at h
              · split at h <;> cases h <;> simp [Diag.fromLine]
              · exact classify_log _ _ _ _ _ _ _ _ _ _ h
    · cases h

/-- Every message in the log of `getconfigline` is one of its own. -/
theorem getconfigline_log (line0 : List Char) (cf : CfStack) (block : Option CString)
    (r : Nat) (cf1 : CfStack) (o v : Option CString) (t1 : Nat) (lg : List Diag)
    (h : getconfigline line0 cf block = .ret r cf1 o v t1 lg) :
    ∀ d ∈ lg, d.fromLine = true := by
  unfold getconfigline at h
  split at h
  · exact lineLoop_log _ _ _ _ _ _ _ _ _ _ h
  · cases h
    simp

theorem dispatch_log (block : Option CString) (cf : CfStack) (st : Store) (o v : CString)
    (b : Binding) (r : Nat) (cf1 : CfStack) (st1 : Store) (lg : List Diag) (x : CString)
    (h : dispatch block cf st o v b = .stop r cf1 st1 lg) : Diag.unknownOption x ∉ lg := by
  unfold dispatch at h
  split at h
  · split at h
    · cases h
      simp
    · cases h
  · split at h
    · cases h
    · split at h <;> cases h
  · split at h
    · cases h
    · split at h
      · cases h
      · split at h <;> cases h <;> simp
  · cases h
  · cases h
    simp

theorem bindLine_unknown (env : Env) (table : List Entry) (block : Option CString)
    (cf : CfStack) (st : Store) (o v : CString) (t : Nat) (r : Nat) (cf1 : CfStack)
    (st1 : Store) (lg : List Diag) (x : CString)
    (h : bindLine env table block cf st o v t = .stop r cf1 st1 lg)
    (hx : Diag.unknownOption x ∈ lg) : lookup x table = .unknown := by
  unfold bindLine at h
  split at h
  · split at h
    · cases h
    · cases h
      simp at hx
    · cases h
  · split at h
    · cases h
      simp at hx
    · rename_i hlk
      split at h <;> cases h <;> simp at hx <;> subst hx <;> exact hlk
    · split at h
      · split at h <;> cases h <;> simp at hx
      · exact absurd hx (dispatch_log _ _ _ _ _ _ _ _ _ _ x h)

/-- A run that logs that `x` is an unknown option has scanned the whole table
for `x` without a match. -/
theorem getgenericconfig_unknown (env : Env) (junk : Nat → List Char) (table : List Entry)
    (block : Option CString) (fuel : Nat) (cf : CfStack) (st : Store) (r : Nat)
    (cf1 : CfStack) (st1 : Store) (lg : List Diag) (x : CString)
    (h : getgenericconfig env junk table block fuel cf st = .ret r cf1 st1 lg)
    (hx : Diag.unknownOption x ∈ lg) : lookup x table = .unknown := by
  induction fuel generalizing cf st with
  | zero => cases h
  | succ fuel ih =>
    unfold getgenericconfig at h
    split at h
    · cases h
    · cases h
    · rename_i hline
      have hlog := getconfigline_log _ _ _ _ _ _ _ _ _ hline
      split at h
      · cases h
        exact absurd (hlog _ hx) (by simp [Diag.fromLine])
      · split at h
        · cases h
          exact absurd (hlog _ hx) (by simp [Diag.fromLine])
        · cases h
        · split at h
          · exact ih _ _ h
          · rename_i hb
            cases h
            exact bindLine_unknown _ _ _ _ _ _ _ _ _ _ _ _ x hb hx
          · cases h

theorem lookup_cons_valid (o : CString) (e : Entry) (table : List Entry)
    (hv : ValidBinding e.bind) :
    lookup o (e :: table)
      = if strcasecmp o e.word = 0 then .found e.bind else lookup o table := by
  obtain ⟨w, b⟩ := e
  cases b with
  | str d => cases d <;> simp [lookup, ValidBinding] at hv ⊢
  | mstr d => cases d <;> simp [lookup, ValidBinding] at hv ⊢
  | bln d => cases d <;> simp [lookup, ValidBinding] at hv ⊢
  | cbk f arg => cases f <;> simp [lookup, ValidBinding] at hv ⊢
  | other => simp [ValidBinding] at hv

theorem lookup_unknown_iff (o : CString) (table : List Entry)
    (hvalid : ∀ e ∈ table, ValidBinding e.bind) :
    lookup o table = .unknown ↔ ∀ e ∈ table, strcasecmp o e.word ≠ 0 := by
  induction table with
  | nil => simp [lookup]
  | cons e table ih =>
    have hv := hvalid e (List.mem_cons_self _ _)
    have ih2 := ih (fun x hx => hvalid x (List.mem_cons_of_mem _ hx))
    rw [lookup_cons_valid o e table hv]
    by_cases hm : strcasecmp o e.word = 0
    · simp [hm]
    · simp [hm, ih2]


/-- Claim C9: option lookup is case-insensitive and closed.  For a classified
line that is no `include` and a table of valid bindings, `getgenericconfig`
returns 0 logging that the option is unknown if and only if no entry name
equals the option name up to ASCII case; it then returns at this very line with
every variable unchanged; and two names that differ in letter case only resolve
to the same result of the lookup, be it a binding or the unknown-option
failure. -/
theorem lookup_closed_case_insensitive (env : Env) (junk : Nat → List Char)
    (table : List Entry) (block : Option CString) (fuel : Nat) (cf cf1 : CfStack) (st : Store)
    (o v : CString) (t : Nat) (log : List Diag)
    (hvalid : ∀ e ∈ table, ValidBinding e.bind)
    (hline : getconfigline (junk fuel) cf block = .ret 1 cf1 (some o) (some v) t log)
    (hinc : ¬ (t = CONF_STR ∧ strcasecmp o "include".toList = 0)) :
    ((∃ cf2 st2 lg, getgenericconfig env junk table block (fuel + 1) cf st = .ret 0 cf2 st2 lg ∧
        Diag.unknownOption o ∈ lg)
      ↔ ∀ e ∈ table, strcasecmp o e.word ≠ 0) ∧
    ((∀ e ∈ table, strcasecmp o e.word ≠ 0) →
      getgenericconfig env junk table block (fuel + 1) cf st
        = .ret 0 cf1 st
            (match block with
              | some b => [.unknownInBlock b o, .unknownOption o]
              | none => [.unknownOption o])) ∧
    (∀ o2 : CString, o2.map tolower = o.map tolower →
      lookup o2 table = lookup o table ∧
      ((∀ e ∈ table, strcasecmp o2 e.word ≠ 0) ↔ ∀ e ∈ table, strcasecmp o e.word ≠ 0)) := by
  have hfail : (∀ e ∈ table, strcasecmp o e.word ≠ 0) →
      getgenericconfig env junk table block (fuel + 1) cf st
        = .ret 0 cf1 st
            (match block with
              | some b => [.unknownInBlock b o, .unknownOption o]
              | none => [.unknownOption o]) := by
    intro hno
    have hlk := (lookup_unknown_iff o table hvalid).2 hno
    rw [getgenericconfig_round env junk table block fuel cf cf1 st o v t log hline]
    cases block <;> simp only [bindLine, hinc, if_false, hlk]
  refine ⟨⟨?_, ?_⟩, hfail, ?_⟩
  · rintro ⟨cf2, st2, lg, hrun, hmem⟩
    exact (lookup_unknown_iff o table hvalid).1
      (getgenericconfig_unknown env junk table block (fuel + 1) cf st 0 cf2 st2 lg o hrun hmem)
  · intro hno
    refine ⟨cf1, st, _, hfail hno, ?_⟩
    cases block <;> simp
  · intro o2 h2
    refine ⟨lookup_congr o2 o table h2, ?_⟩
    constructor
    · intro h e he
      rw [← strcasecmp_congr o2 o e.word h2]
      exact h e he
    · intro h e he
      rw [strcasecmp_congr o2 o e.word h2]
      exact h e he

/-- The sample table holds valid bindings only. -/
theorem sampleTable_valid : ∀ e ∈ sampleTable, ValidBinding e.bind := by
  intro e he
  simp only [sampleTable, List.mem_cons, List.mem_singleton, List.not_mem_nil, or_false] at he
  rcases he with rfl | rfl | rfl <;> exact True.intro

/-- Witness for C9: the line `colour red` names no entry of the sample table and
fails as an unknown option, while `Flag`, `FLAG` and `flag` resolve to the same
boolean binding. -/
theorem lookup_closed_case_insensitive_witness :
    getgenericconfig emptyEnv zeroJunk sampleTable none (3 + 1)
        (oneFile "/etc/r.conf" "colour red\nflag on\n") unsetStore
      = .ret 0 (oneFile "/etc/r.conf" "flag on\n") unsetStore
          [.unknownOption "colour".toList] ∧
    (lookup "Flag".toList sampleTable = lookup "flag".toList sampleTable ∧
      lookup "FLAG".toList sampleTable = lookup "flag".toList sampleTable) ∧
    ((getgenericconfig emptyEnv zeroJunk sampleTable none 4
        (oneFile "/etc/r.conf" "Flag on\n") unsetStore).store.map (fun s => s.bln 0) = some 1 ∧
      (getgenericconfig emptyEnv zeroJunk sampleTable none 4
        (oneFile "/etc/r.conf" "FLAG on\n") unsetStore).store.map (fun s => s.bln 0) = some 1 ∧
      (getgenericconfig emptyEnv zeroJunk sampleTable none 4
        (oneFile "/etc/r.conf" "flag on\n") unsetStore).store.map (fun s => s.bln 0) = some 1) :=
  ⟨(lookup_closed_case_insensitive emptyEnv zeroJunk sampleTable none 3
      (oneFile "/etc/r.conf" "colour red\nflag on\n") (oneFile "/etc/r.conf" "flag on\n")
      unsetStore "colour".toList "red".toList CONF_STR [] sampleTable_valid (by decide)
      (by decide)).2.1 (by decide),
    ⟨((lookup_closed_case_insensitive emptyEnv zeroJunk sampleTable none 3
        (oneFile "/etc/r.conf" "flag on\n") (oneFile "/etc/r.conf" "")
        unsetStore "flag".toList "on".toList CONF_STR [] sampleTable_valid (by decide)
        (by decide)).2.2 "Flag".toList (by decide)).1,
      ((lookup_closed_case_insensitive emptyEnv zeroJunk sampleTable none 3
        (oneFile "/etc/r.conf" "flag on\n") (oneFile "/etc/r.conf" "")
        unsetStore "flag".toList "on".toList CONF_STR [] sampleTable_valid (by decide)
        (by decide)).2.2 "FLAG".toList (by decide)).1⟩,
    by decide⟩


/-- Claim C10, the code at the failing input: the four-token line
`name = value extra` is accepted as the scalar line `name = value` and the
four-token line `server main { extra` as a block opening, the fourth token
never being read, although the three-token line `name value extra`, a single
token and three tokens of another form are rejected. -/
theorem getconfigline_ignores_fourth_token :
    getconfigline zeroLine (oneFile "/etc/r.conf" "name = value extra\n") none
      = .ret 1 (oneFile "/etc/r.conf" "") (some "name".toList) (some "value".toList)
          CONF_STR [] ∧
    getconfigline zeroLine
        (some [⟨some ("server main ".toList ++ LBRACE :: " extra\n".toList),
          "/etc/r.conf".toList⟩]) none
      = .ret 1 (oneFile "/etc/r.conf" "") (some "server".toList) (some "main".toList)
          CONF_CBK [] ∧
    getconfigline zeroLine (oneFile "/etc/r.conf" "name value extra\n") none
      = .ret 0 (oneFile "/etc/r.conf" "") none none 0 [.badLine (some "name".toList)] ∧
    getconfigline zeroLine (oneFile "/etc/r.conf" "name\n") none
      = .ret 0 (oneFile "/etc/r.conf" "") none none 0 [.badLine (some "name".toList)] ∧
    getconfigline zeroLine (oneFile "/etc/r.conf" "a b c\n") none
      = .ret 0 (oneFile "/etc/r.conf" "") none none 0 [.badLine (some "a".toList)] := by
  decide

/-! ## Claims about block ends and empty values -/

/-- Claim C11, the code at the failing input: inside a block the line `}x y`,
whose first token merely begins with a closing brace, is reported as the end of
the block exactly like the lone `}` (return 1, no option), because only the
first character of the first token is tested; the same holds for `} y`. -/
theorem getconfigline_block_close_first_char :
    getconfigline zeroLine
        (some [⟨some (RBRACE :: "x y\n".toList), "/etc/r.conf".toList⟩])
        (some "server".toList)
      = .ret 1 (oneFile "/etc/r.conf" "") none none 0 [] ∧
    getconfigline zeroLine
        (some [⟨some (RBRACE :: " y\n".toList), "/etc/r.conf".toList⟩])
        (some "server".toList)
      = .ret 1 (oneFile "/etc/r.conf" "") none none 0 [] ∧
    getconfigline zeroLine
        (some [⟨some (RBRACE :: "\n".toList), "/etc/r.conf".toList⟩])
        (some "server".toList)
      = .ret 1 (oneFile "/etc/r.conf" "") none none 0 [] := by
  decide

theorem finishLine_post (mem : List Char) (cf : CfStack) (topt tval t : Nat)
    (r : Nat) (cf1 : CfStack) (o v : Option CString) (t1 : Nat) (lg : List Diag)
    (h : finishLine mem cf topt tval t = .ret r cf1 o v t1 lg) :
    (r = 0 → o = none ∧ v = none) ∧
      (∀ name, o = some name → r = 1 ∧ ∃ val, v = some val ∧ val ≠ []) := by
  unfold finishLine at h
  split at h
  · split at h
    · rename_i hne
      cases h
      exact ⟨fun h0 => absurd h0 (by decide), fun _ _ => ⟨rfl, _, rfl, hne⟩⟩
    · cases h
      exact ⟨fun _ => ⟨rfl, rfl⟩, fun _ h0 => absurd h0 (by simp)⟩
  · cases h

theorem badShape_post (block : Option CString) (mem : List Char) (cf : CfStack) (t0 : Nat)
    (r : Nat) (cf1 : CfStack) (o v : Option CString) (t1 : Nat) (lg : List Diag)
    (h : badShape block mem cf t0 = .ret r cf1 o v t1 lg) :
    (r = 0 → o = none ∧ v = none) ∧
      (∀ name, o = some name → r = 1 ∧ ∃ val, v = some val ∧ val ≠ []) := by
  unfold badShape at h
  split at h <;> cases h <;>
    exact ⟨fun _ => ⟨rfl, rfl⟩, fun _ h0 => absurd h0 (by simp)⟩

theorem classify_post (block : Option CString) (mem : List Char) (cf : CfStack)
    (toks : List Nat)
    (r : Nat) (cf1 : CfStack) (o v : Option CString) (t1 : Nat) (lg : List Diag)
    (h : classify block mem cf toks = .ret r cf1 o v t1 lg) :
    (r = 0 → o = none ∧ v = none) ∧
      (∀ name, o = some name → r = 1 ∧ ∃ val, v = some val ∧ val ≠ []) := by
  unfold classify at h
  split at h
  · exact finishLine_post _ _ _ _ _ _ _ _ _ _ _ h
  · split at h
    · cases h
    · exact finishLine_post _ _ _ _ _ _ _ _ _ _ _ h
    · split at h
      · cases h
      · exact finishLine_post _ _ _ _ _ _ _ _ _ _ _ h
      · exact badShape_post _ _ _ _ _ _ _ _ _ _ h
  · exact badShape_post _ _ _ _ _ _ _ _ _ _ h
  · cases h

theorem lineLoop_post (block : Option CString) (fuel : Nat) (line : List Char) (cf : CfStack)
    (r : Nat) (cf1 : CfStack) (o v : Option CString) (t1 : Nat) (lg : List Diag)
    (h : lineLoop block fuel line cf = .ret r cf1 o v t1 lg) :
    (r = 0 → o = none ∧ v = none) ∧
      (∀ name, o = some name → r = 1 ∧ ∃ val, v = some val ∧ val ≠ []) := by
  induction fuel generalizing line cf with
  | zero => cases h
  | succ fuel ih =>
    unfold lineLoop at h
    split at h
    · split at h
      · split at h
        · exact ih _ _ h
        · cases h
          exact ⟨fun _ => ⟨rfl, rfl⟩, fun _ h0 => absurd h0 (by simp)⟩
      · split at h
        · cases h
        · cases h
          exact ⟨fun _ => ⟨rfl, rfl⟩, fun _ h0 => absurd h0 (by simp)⟩
        · exact ih _ _ h
        · split at h
          · cases h
          · split at h
            · exact ih _ _ h
            · split at h
              · split at h <;> cases h <;>
                  exact ⟨fun _ => ⟨rfl, rfl⟩, fun _ h0 => absurd h0 (by simp)⟩
              · exact classify_post _ _ _ _ _ _ _ _ _ _ h
    · cases h

/-- What `getconfigline` leaves in `*opt` and `*val`: nothing on failure, and
with an option always a value that is not empty. -/
theorem getconfigline_post (line0 : List Char) (cf : CfStack) (block : Option CString)
    (r : Nat) (cf1 : CfStack) (o v : Option CString) (t1 : Nat) (lg : List Diag)
    (h : getconfigline line0 cf block = .ret r cf1 o v t1 lg) :
    (r = 0 → o = none ∧ v = none) ∧
      (∀ name, o = some name → r = 1 ∧ ∃ val, v = some val ∧ val ≠ []) := by
  unfold getconfigline at h
  split at h
  · exact lineLoop_post _ _ _ _ _ _ _ _ _ _ h
  · cases h
    exact ⟨fun _ => ⟨rfl, rfl⟩, fun _ h0 => absurd h0 (by simp)⟩

/-- Claim C13: whenever `getconfigline` returns with an option, it returns 1 and
the value is a non-empty string; whenever it returns 0, `*opt` and `*val` are
both NULL; and the lines `opt ""`, `opt = ""` and `server "" {`, whose value
token is empty, return 0 with both NULL and the message that the option needs a
non-empty value. -/
theorem getconfigline_value_nonempty (line0 : List Char) (cf : CfStack)
    (block : Option CString) (r : Nat) (cf1 : CfStack) (o v : Option CString) (t1 : Nat)
    (lg : List Diag)
    (h : getconfigline line0 cf block = .ret r cf1 o v t1 lg) :
    ((∀ name, o = some name → r = 1 ∧ ∃ val, v = some val ∧ val ≠ []) ∧
      (r = 0 → o = none ∧ v = none)) ∧
    getconfigline zeroLine
        (some [⟨some ("opt ".toList ++ [DQUOTE, DQUOTE, LF]), "/etc/r.conf".toList⟩]) none
      = .ret 0 (oneFile "/etc/r.conf" "") none none CONF_STR
          [.emptyValue (some "opt".toList)] ∧
    getconfigline zeroLine
        (some [⟨some ("opt = ".toList ++ [DQUOTE, DQUOTE, LF]), "/etc/r.conf".toList⟩]) none
      = .ret 0 (oneFile "/etc/r.conf" "") none none CONF_STR
          [.emptyValue (some "opt".toList)] ∧
    getconfigline zeroLine
        (some [⟨some ("server ".toList ++ [DQUOTE, DQUOTE, SP, LBRACE, LF]),
          "/etc/r.conf".toList⟩]) none
      = .ret 0 (oneFile "/etc/r.conf" "") none none CONF_CBK
          [.emptyValue (some "server".toList)] := by
  have hp := getconfigline_post line0 cf block r cf1 o v t1 lg h
  exact ⟨⟨hp.2, hp.1⟩, by decide, by decide, by decide⟩

/-- Witness for C13: the line `name value` returns the pair with a non-empty
value. -/
theorem getconfigline_value_nonempty_witness :
    ((∀ name, some "name".toList = some name →
        1 = 1 ∧ ∃ val, some "value".toList = some val ∧ val ≠ []) ∧
      (1 = 0 → some "name".toList = none ∧ some "value".toList = none)) ∧
    getconfigline zeroLine
        (some [⟨some ("opt ".toList ++ [DQUOTE, DQUOTE, LF]), "/etc/r.conf".toList⟩]) none
      = .ret 0 (oneFile "/etc/r.conf" "") none none CONF_STR
          [.emptyValue (some "opt".toList)] ∧
    getconfigline zeroLine
        (some [⟨some ("opt = ".toList ++ [DQUOTE, DQUOTE, LF]), "/etc/r.conf".toList⟩]) none
      = .ret 0 (oneFile "/etc/r.conf" "") none none CONF_STR
          [.emptyValue (some "opt".toList)] ∧
    getconfigline zeroLine
        (some [⟨some ("server ".toList ++ [DQUOTE, DQUOTE, SP, LBRACE, LF]),
          "/etc/r.conf".toList⟩]) none
      = .ret 0 (oneFile "/etc/r.conf" "") none none CONF_CBK
          [.emptyValue (some "server".toList)] :=
  getconfigline_value_nonempty zeroLine (oneFile "/etc/r.conf" "name value\n") none 1
    (oneFile "/etc/r.conf" "") (some "name".toList) (some "value".toList) CONF_STR []
    (by decide)

/-! ## The result of `getconfigline` does not depend on its loop bound -/

theorem cfRounds_pop (e next : GConfFile) (rest : List GConfFile) :
    cfRounds (some (next :: rest)) < cfRounds (some (e :: next :: rest)) := by
  simp only [cfRounds, List.map_cons, List.sum_cons]
  omega

theorem cfRounds_read (line f line1 f1 : List Char) (path : CString) (rest : List GConfFile)
    (hf : fgets line 1024 f = some (line1, f1)) :
    cfRounds (some (⟨some f1, path⟩ :: rest)) < cfRounds (some (⟨some f, path⟩ :: rest)) := by
  have hlt := fgets_rest_lt _ _ _ _ hf
  simp only [cfRounds, List.map_cons, List.sum_cons, Option.getD_some]
  omega

theorem lineLoop_fuel_succ (block : Option CString) (fuel : Nat) (line : List Char)
    (cf : CfStack) (h : cfRounds cf < fuel) :
    lineLoop block (fuel + 1) line cf = lineLoop block fuel line cf := by
  induction fuel generalizing line cf with
  | zero => omega
  | succ n ih =>
    cases cf with
    | none => simp [lineLoop]
    | some l =>
      cases l with
      | nil => simp [lineLoop]
      | cons e rest =>
        obtain ⟨file, path⟩ := e
        cases file with
        | none => simp [lineLoop]
        | some f =>
          rw [lineLoop, lineLoop]
          cases hf : fgets line 1024 f with
          | none =>
            simp only []
            cases rest with
            | nil => simp [popgconffile]
            | cons next rest2 =>
              have hlt := cfRounds_pop ⟨some f, path⟩ next rest2
              simp only [popgconffile]
              cases hn : next.file with
              | none => rfl
              | some g => exact ih _ _ (by omega)
          | some p =>
            obtain ⟨line1, f1⟩ := p
            have hlt := cfRounds_read line f line1 f1 path rest hf
            have hrec : ∀ mem, lineLoop block (n + 1) mem (some (⟨some f1, path⟩ :: rest))
                = lineLoop block n mem (some (⟨some f1, path⟩ :: rest)) :=
              fun mem => ih _ _ (by omega)
            simp only []
            cases ht : tokenLoop 3 line1 0 [] with
            | error mem => rfl
            | fault => rfl
            | done mem toks =>
              cases toks with
              | nil => exact hrec mem
              | cons t0 ts =>
                simp only []
                cases hc : mem.get? t0 with
                | none => rfl
                | some c0 =>
                  simp only []
                  by_cases h1 : c0 = HASH
                  · simp only [h1, if_true]
                    exact hrec mem
                  · simp only [h1, if_false]

theorem lineLoop_fuel_add (block : Option CString) (fuel k : Nat) (line : List Char)
    (cf : CfStack) (h : cfRounds cf < fuel) :
    lineLoop block (fuel + k) line cf = lineLoop block fuel line cf := by
  induction k with
  | zero => rfl
  | succ k ih =>
    rw [← Nat.add_assoc, lineLoop_fuel_succ block (fuel + k) line cf (by omega), ih]

/-- With any bound above the number of rounds the stack allows, the loop of
`getconfigline` computes what `getconfigline` returns. -/
theorem lineLoop_eq_getconfigline (block : Option CString) (fuel : Nat) (line : List Char)
    (f : List Char) (path : CString) (rest : List GConfFile)
    (h : cfRounds (some (⟨some f, path⟩ :: rest)) < fuel) :
    lineLoop block fuel line (some (⟨some f, path⟩ :: rest))
      = getconfigline line (some (⟨some f, path⟩ :: rest)) block := by
  obtain ⟨k, rfl⟩ : ∃ k, fuel = cfRounds (some (⟨some f, path⟩ :: rest)) + 1 + k :=
    ⟨fuel - (cfRounds (some (⟨some f, path⟩ :: rest)) + 1), by omega⟩
  rw [lineLoop_fuel_add block _ k line _ (Nat.lt_succ_self _)]
  rfl

/-! ## Lines that `getconfigline` skips -/

/-- A round of the loop of `getconfigline` that finds no token goes on with the
next line, the line buffer keeping what was read. -/
theorem getconfigline_skip_round (line0 f line1 f1 : List Char) (path : CString)
    (more : List GConfFile) (block : Option CString) (mem : List Char)
    (hf : fgets line0 1024 f = some (line1, f1))
    (ht : tokenLoop 3 line1 0 [] = .done mem []) :
    getconfigline line0 (some (⟨some f, path⟩ :: more)) block
      = getconfigline mem (some (⟨some f1, path⟩ :: more)) block := by
  have hlt := cfRounds_read line0 f line1 f1 path more hf
  rw [← lineLoop_eq_getconfigline block (cfRounds (some (⟨some f, path⟩ :: more))) mem f1 path
    more hlt]
  simp only [getconfigline, lineLoop, hf, ht]

theorem tokenLoop_none (mem : List Char)
    (h : strtokenquote mem (some 0) true (some DELIMS) (some QUOTES) (some COMMENTS)
      = .ok mem none 1 ∨ ∃ n, strtokenquote mem (some 0) true (some DELIMS) (some QUOTES)
        (some COMMENTS) = .ok mem none n) :
    tokenLoop 3 mem 0 [] = .done mem [] := by
  rcases h with h | ⟨n, h⟩ <;> simp only [tokenLoop, List.length_nil, if_true, h]

theorem delims_ne_nul (ds : List Char) (h : ∀ c ∈ ds, c ∈ DELIMS) :
    ∀ c ∈ ds, c ≠ NUL ∧ c ∈ DELIMS := by
  intro c hc
  refine ⟨?_, h c hc⟩
  rintro rfl
  exact absurd (h _ hc) (by decide)

theorem fgetsChunk_full (n : Nat) (body rest : List Char) (hb : LF ∉ body)
    (hn : body.length = n) : fgetsChunk n (body ++ rest) = (body, rest) := by
  induction body generalizing n with
  | nil =>
    subst hn
    cases rest <;> simp [fgetsChunk]
  | cons c body ih =>
    cases n with
    | zero => simp at hn
    | succ n =>
      have hc : c ≠ LF := fun h => hb (by simp [h])
      have hb2 : LF ∉ body := fun h => hb (List.mem_cons_of_mem _ h)
      have := ih n hb2 (by simpa using hn)
      simp [fgetsChunk, hc, this]

theorem fgets_eq (line f : List Char) (hf : f ≠ []) :
    fgets line 1024 f
      = some ((fgetsChunk 1023 f).1 ++ NUL :: line.drop ((fgetsChunk 1023 f).1.length + 1),
          (fgetsChunk 1023 f).2) := by
  cases f with
  | nil => exact absurd rfl hf
  | cons a l => rfl

theorem blank_none (ds tail : List Char) (hds : ∀ c ∈ ds, c ∈ DELIMS) :
    tokenLoop 3 (ds ++ NUL :: tail) 0 [] = .done (ds ++ NUL :: tail) [] := by
  have h := strtokenquote_end DELIMS (some QUOTES) (some COMMENTS) [] ds NUL tail
    (delims_ne_nul ds hds) (Or.inl rfl)
  exact tokenLoop_none _ (Or.inr ⟨_, by simpa using h⟩)

/-- A run of blanks, tabs and carriage returns of any length, ended by a
newline, is skipped. -/
theorem getconfigline_skip_blank (n : Nat) (ds : List Char) (hn : ds.length ≤ n)
    (hds : ∀ c ∈ ds, c ∈ DELIMS ∧ c ≠ LF) (line0 R : List Char) (path : CString)
    (more : List GConfFile) (block : Option CString) :
    ∃ line1, getconfigline line0 (some (⟨some (ds ++ LF :: R), path⟩ :: more)) block
      = getconfigline line1 (some (⟨some R, path⟩ :: more)) block := by
  induction n using Nat.strong_induction_on generalizing ds line0 with
  | _ n ih =>
    have hdslf : LF ∉ ds := fun h => (hds LF h).2 rfl
    by_cases hshort : ds.length < 1023
    · have hf := fgets_line line0 ds R hdslf hshort
      refine ⟨ds ++ LF :: NUL :: List.drop (ds.length + 2) line0,
        getconfigline_skip_round line0 _ _ R path more block _ hf ?_⟩
      have := blank_none (ds ++ [LF]) (line0.drop (ds.length + 2))
        (by
          intro c hc
          rcases List.mem_append.1 hc with h | h
          · exact (hds c h).1
          · simp only [List.mem_singleton] at h
            subst h
            decide)
      simpa using this
    · have hsplit : ds = ds.take 1023 ++ ds.drop 1023 := (List.take_append_drop 1023 ds).symm
      have htl : (ds.take 1023).length = 1023 := by
        rw [List.length_take]
        omega
      have hchunk := fgetsChunk_full 1023 (ds.take 1023) (ds.drop 1023 ++ LF :: R)
        (fun h => hdslf (List.mem_of_mem_take h)) htl
      have hfile : ds ++ LF :: R = ds.take 1023 ++ (ds.drop 1023 ++ LF :: R) := by
        rw [← List.append_assoc, List.take_append_drop]
      have hne : ds.take 1023 ++ (ds.drop 1023 ++ LF :: R) ≠ [] := by simp
      have hf := fgets_eq line0 _ hne
      rw [hchunk] at hf
      simp only [] at hf
      obtain ⟨line1, h1⟩ := ih (ds.drop 1023).length (by rw [List.length_drop]; omega)
        (ds.drop 1023) (Nat.le_refl _) (fun c hc => hds c (List.mem_of_mem_drop hc))
        (ds.take 1023 ++ NUL :: line0.drop ((ds.take 1023).length + 1))
      refine ⟨line1, ?_⟩
      rw [hfile, ← h1]
      exact getconfigline_skip_round line0 _ _ _ path more block _ hf
        (blank_none _ _ (fun c hc => (hds c (List.mem_of_mem_take hc)).1))

/-- The function `getconfigline` skips a blank or comment line: it goes on with
the rest of the file, the line buffer holding what was read last. -/
theorem getconfigline_skip (line0 l R : List Char) (path : CString) (more : List GConfFile)
    (block : Option CString) (hl : SkipLine l) :
    ∃ line1, getconfigline line0 (some (⟨some (l ++ R), path⟩ :: more)) block
      = getconfigline line1 (some (⟨some R, path⟩ :: more)) block := by
  obtain ⟨ds, body, rfl, hds, hbody⟩ := hl
  rcases hbody with rfl | ⟨tl, rfl, htl, hlen⟩
  · have := getconfigline_skip_blank ds.length ds (Nat.le_refl _) hds line0 R path more block
    simpa using this
  · have hdsd : ∀ c ∈ ds, c ≠ NUL ∧ c ∈ DELIMS := delims_ne_nul ds (fun c hc => (hds c hc).1)
    have hnolf : LF ∉ ds ++ HASH :: tl := by
      simp only [List.mem_append, List.mem_cons, not_or]
      exact ⟨fun h => (hds LF h).2 rfl, by decide, htl⟩
    have hf := fgets_line line0 (ds ++ HASH :: tl) R hnolf
      (by simp only [List.length_append, List.length_cons, List.length_nil] at hlen ⊢; omega)
    have hf2 : fgets line0 1024 (ds ++ HASH :: tl ++ [LF] ++ R)
        = some (ds ++ HASH :: (tl ++ LF :: NUL :: line0.drop ((ds ++ HASH :: tl).length + 2)),
            R) := by
      simpa using hf
    refine ⟨ds ++ HASH :: (tl ++ LF :: NUL :: line0.drop ((ds ++ HASH :: tl).length + 2)),
      getconfigline_skip_round line0 _ _ R path more block _ hf2
        (tokenLoop_none _ (Or.inr ?_))⟩
    have h := strtokenquote_end DELIMS (some QUOTES) (some COMMENTS) [] ds HASH
      (tl ++ LF :: NUL :: line0.drop ((ds ++ HASH :: tl).length + 2)) hdsd
      (Or.inr ⟨by decide, COMMENTS, rfl, by decide⟩)
    exact ⟨_, by simpa using h⟩

/-- Blank and comment lines in a row are skipped one after the other. -/
theorem getconfigline_skips (ls : List (List Char)) (hls : ∀ l ∈ ls, SkipLine l)
    (line0 R : List Char) (path : CString) (more : List GConfFile) (block : Option CString) :
    ∃ line1, getconfigline line0 (some (⟨some (linesThen ls R), path⟩ :: more)) block
      = getconfigline line1 (some (⟨some R, path⟩ :: more)) block := by
  induction ls generalizing line0 with
  | nil => exact ⟨line0, rfl⟩
  | cons l ls ih =>
    obtain ⟨line1, h1⟩ := getconfigline_skip line0 l (linesThen ls R) path more block
      (hls l (List.mem_cons_self _ _))
    obtain ⟨line2, h2⟩ := ih (fun x hx => hls x (List.mem_cons_of_mem _ hx)) line1
    exact ⟨line2, h1.trans h2⟩

/-- The token loop on a line holding one plain word between delimiters. -/
theorem tokenLoop_one (ds1 w : List Char) (d : Char) (dl tail : List Char)
    (hds1 : ∀ c ∈ ds1, c ∈ DELIMS) (hw : PlainWord w) (hw0 : ∀ c ∈ w.head?, c ≠ HASH)
    (hd : d ∈ DELIMS) (hdl : ∀ c ∈ dl, c ∈ DELIMS) :
    tokenLoop 3 (ds1 ++ (w ++ d :: (dl ++ NUL :: tail))) 0 []
      = .done (ds1 ++ (w ++ NUL :: (dl ++ NUL :: tail))) [ds1.length] := by
  obtain ⟨⟨hne, hch⟩, hq1, hq2⟩ := hw
  cases w with
  | nil => exact absurd rfl hne
  | cons c w =>
    have hcq : ¬ InSet (some QUOTES) c := by
      rintro ⟨l, hl, hm⟩
      cases hl
      simp only [QUOTES, List.mem_cons, List.mem_singleton, List.not_mem_nil, or_false] at hm
      rcases hm with h | h
      · exact hq1 (by simp [h])
      · exact hq2 (by simp [h])
    have r1 := strtokenquote_plain DELIMS (some QUOTES) (some COMMENTS) [] ds1 c w d
      (dl ++ NUL :: tail) (delims_ne_nul ds1 hds1) (hch c (List.mem_cons_self _ _)) hcq
      (not_inSet_comments c (hw0 c (by simp)))
      (fun x hx => hch x (List.mem_cons_of_mem _ hx)) (Or.inr hd)
    have r2 := end_step (ds1 ++ (c :: w ++ [NUL])) dl tail (some QUOTES)
      (([] : List Char).length + ds1.length + w.length + 2) (by simp; omega) hdl
    simp only [List.nil_append, List.append_assoc, List.singleton_append, List.cons_append,
      List.length_nil, Nat.zero_add] at r1 r2
    simp only [tokenLoop, List.length_nil, if_true, List.cons_append, r1, List.nil_append,
      List.length_singleton, Nat.succ_ne_zero, if_false, r2]

/-- A line whose only token is a closing brace, read at top level, makes
`getconfigline` return 0, whatever the line buffer held. -/
theorem stray_close_line (line0 ds1 ds2 rest : List Char) (path : CString)
    (more : List GConfFile)
    (hds1 : ∀ c ∈ ds1, c ∈ DELIMS ∧ c ≠ LF) (hds2 : ∀ c ∈ ds2, c ∈ DELIMS ∧ c ≠ LF)
    (hlen : ds1.length + ds2.length + 2 ≤ 1023) :
    getconfigline line0 (some (⟨some (ds1 ++ RBRACE :: ds2 ++ LF :: rest), path⟩ :: more)) none
      = .ret 0 (some (⟨some rest, path⟩ :: more)) none none 0 [.strayClose] := by
  have hnolf : LF ∉ ds1 ++ RBRACE :: ds2 := by
    simp only [List.mem_append, List.mem_cons, not_or]
    exact ⟨fun h => (hds1 LF h).2 rfl, by decide, fun h => (hds2 LF h).2 rfl⟩
  have hf := fgets_line line0 (ds1 ++ RBRACE :: ds2) rest hnolf
    (by simp only [List.length_append, List.length_cons]; omega)
  obtain ⟨d, dl, hdd, hd, hdl⟩ : ∃ d dl, ds2 ++ [LF] = d :: dl ∧ d ∈ DELIMS ∧
      ∀ c ∈ dl, c ∈ DELIMS := by
    cases ds2 with
    | nil => exact ⟨LF, [], rfl, by decide, by simp⟩
    | cons x xs =>
      refine ⟨x, xs ++ [LF], rfl, (hds2 x (List.mem_cons_self _ _)).1, ?_⟩
      intro c hc
      rcases List.mem_append.1 hc with h | h
      · exact (hds2 c (List.mem_cons_of_mem _ h)).1
      · simp only [List.mem_singleton] at h
        subst h
        decide
  have hshape : ds1 ++ RBRACE :: ds2 ++ LF :: NUL :: List.drop ((ds1 ++ RBRACE :: ds2).length + 2) line0
      = ds1 ++ ([RBRACE] ++ d :: (dl ++ NUL ::
          List.drop ((ds1 ++ RBRACE :: ds2).length + 2) line0)) := by
    have : ds2 ++ LF :: NUL :: List.drop ((ds1 ++ RBRACE :: ds2).length + 2) line0
        = (ds2 ++ [LF]) ++ NUL :: List.drop ((ds1 ++ RBRACE :: ds2).length + 2) line0 := by simp
    simp only [List.append_assoc, List.cons_append, List.singleton_append, List.nil_append]
    rw [this, hdd]
    simp
  rw [hshape] at hf
  have ht := tokenLoop_one ds1 [RBRACE] d dl
    (List.drop ((ds1 ++ RBRACE :: ds2).length + 2) line0) (fun c hc => (hds1 c hc).1)
    (by unfold PlainWord BareWord; decide) (by decide) hd hdl
  have hget : (ds1 ++ ([RBRACE] ++ NUL :: (dl ++ NUL ::
      List.drop ((ds1 ++ RBRACE :: ds2).length + 2) line0))).get? ds1.length = some RBRACE := by
    simpa using get_at ds1 RBRACE (NUL :: (dl ++ NUL ::
      List.drop ((ds1 ++ RBRACE :: ds2).length + 2) line0))
  have hrb : RBRACE ≠ HASH := by decide
  simp only [getconfigline, lineLoop, hf, ht, hget, hrb, if_false, if_true]

/-- Claim C12: at top level a line whose only token is a closing brace makes
`getconfigline` return 0, and `getgenericconfig` called with a NULL block
returns 0, with every destination as it was, on any input whose first line that
is neither blank nor a comment is such a line. -/
theorem stray_close_top_level (env : Env) (junk : Nat → List Char) (table : List Entry)
    (fuel : Nat) (line0 : List Char) (skips : List (List Char)) (ds1 ds2 rest : List Char)
    (path : CString) (more : List GConfFile) (st : Store)
    (hskips : ∀ l ∈ skips, SkipLine l)
    (hds1 : ∀ c ∈ ds1, c ∈ DELIMS ∧ c ≠ LF) (hds2 : ∀ c ∈ ds2, c ∈ DELIMS ∧ c ≠ LF)
    (hlen : ds1.length + ds2.length + 2 ≤ 1023) :
    getconfigline line0 (some (⟨some (ds1 ++ RBRACE :: ds2 ++ LF :: rest), path⟩ :: more)) none
      = .ret 0 (some (⟨some rest, path⟩ :: more)) none none 0 [.strayClose] ∧
    getgenericconfig env junk table none (fuel + 1)
        (some (⟨some (linesThen skips (ds1 ++ RBRACE :: ds2 ++ LF :: rest)), path⟩ :: more)) st
      = .ret 0 (some (⟨some rest, path⟩ :: more)) st [.strayClose] := by
  refine ⟨stray_close_line line0 ds1 ds2 rest path more hds1 hds2 hlen, ?_⟩
  obtain ⟨line1, h1⟩ := getconfigline_skips skips hskips (junk fuel)
    (ds1 ++ RBRACE :: ds2 ++ LF :: rest) path more none
  rw [stray_close_line line1 ds1 ds2 rest path more hds1 hds2 hlen] at h1
  simp only [getgenericconfig, h1, if_true]

/-- Witness for C12: a blank line, a comment line and then a lone closing brace
in front of a `name` line. -/
theorem stray_close_top_level_witness :
    getconfigline zeroLine
        (some (⟨some ([SP] ++ RBRACE :: [SP, CR] ++ LF :: "name foo\n".toList),
          "/etc/r.conf".toList⟩ :: [])) none
      = .ret 0 (some (⟨some "name foo\n".toList, "/etc/r.conf".toList⟩ :: [])) none none 0
          [.strayClose] ∧
    getgenericconfig emptyEnv zeroJunk sampleTable none (3 + 1)
        (some (⟨some (linesThen [" \t\n".toList, " # note\n".toList]
          ([SP] ++ RBRACE :: [SP, CR] ++ LF :: "name foo\n".toList)),
          "/etc/r.conf".toList⟩ :: [])) unsetStore
      = .ret 0 (some (⟨some "name foo\n".toList, "/etc/r.conf".toList⟩ :: [])) unsetStore
          [.strayClose] :=
  stray_close_top_level emptyEnv zeroJunk sampleTable 3 zeroLine
    [" \t\n".toList, " # note\n".toList] [SP] [SP, CR] "name foo\n".toList
    "/etc/r.conf".toList [] unsetStore
    (by
      intro l hl
      simp only [List.mem_cons, List.mem_singleton, List.not_mem_nil, or_false] at hl
      rcases hl with rfl | rfl
      · exact ⟨" \t".toList, [], rfl, by decide, Or.inl rfl⟩
      · exact ⟨" ".toList, "# note".toList, rfl, by decide,
          Or.inr ⟨" note".toList, rfl, by decide, by decide⟩⟩)
    (by decide) (by decide) (by decide)

/-- The line `opt "a b c"` and its newline classify the same way whatever the
line buffer held. -/
theorem sample_quoted_line (b rest : List Char) :
    getconfigline b
        (some (⟨some ("opt".toList ++ SP :: DQUOTE :: ("a b c".toList ++ DQUOTE :: LF :: rest)),
          "/etc/r.conf".toList⟩ :: [])) none
      = .ret 1 (some (⟨some rest, "/etc/r.conf".toList⟩ :: [])) (some "opt".toList)
          (some "a b c".toList) CONF_STR [] := by
  have hf := fgets_line b ("opt".toList ++ SP :: DQUOTE :: ("a b c".toList ++ [DQUOTE]))
    rest (by decide) (by decide)
  exact quoted_value_line b _ rest _ [] none "opt".toList DQUOTE "a b c".toList [LF]
    (List.drop 13 b) (by unfold PlainWord BareWord; decide) (by decide) (by decide) (by decide)
    (by decide) (by decide) (by decide) (by simpa using hf)

/-! ## Claims about skipped lines -/

/-- Claim C14, amended: a blank line of any length, or a comment line that fits
the line buffer (at most 1023 characters with its newline), is skipped: when
the result of `getconfigline` on the remaining input `R` does not depend on
what the line buffer held before, `getconfigline` on the line followed by `R`
gives the same result as on `R` alone, and so does `getgenericconfig`, stack,
destinations and log included. -/
theorem skipped_line_no_effect (env : Env) (junk : Nat → List Char) (table : List Entry)
    (block : Option CString) (fuel : Nat) (line0 l R : List Char) (path : CString)
    (more : List GConfFile) (st : Store)
    (hl : SkipLine l)
    (hind : ∀ b1 b2 : List Char,
      getconfigline b1 (some (⟨some R, path⟩ :: more)) block
        = getconfigline b2 (some (⟨some R, path⟩ :: more)) block) :
    getconfigline line0 (some (⟨some (l ++ R), path⟩ :: more)) block
      = getconfigline line0 (some (⟨some R, path⟩ :: more)) block ∧
    getgenericconfig env junk table block fuel (some (⟨some (l ++ R), path⟩ :: more)) st
      = getgenericconfig env junk table block fuel (some (⟨some R, path⟩ :: more)) st := by
  have hskip : ∀ b : List Char,
      getconfigline b (some (⟨some (l ++ R), path⟩ :: more)) block
        = getconfigline b (some (⟨some R, path⟩ :: more)) block := by
    intro b
    obtain ⟨line1, h1⟩ := getconfigline_skip b l R path more block hl
    rw [h1]
    exact hind line1 b
  refine ⟨hskip line0, ?_⟩
  cases fuel with
  | zero => rfl
  | succ n => simp only [getgenericconfig, hskip (junk n)]

/-- Witness for C14: the comment line `# note` in front of the line
`opt "a b c"`. -/
theorem skipped_line_no_effect_witness :
    getconfigline zeroLine
        (some (⟨some ("# note\n".toList ++
          ("opt".toList ++ SP :: DQUOTE :: ("a b c".toList ++ DQUOTE :: LF :: []))),
          "/etc/r.conf".toList⟩ :: [])) none
      = getconfigline zeroLine
        (some (⟨some ("opt".toList ++ SP :: DQUOTE :: ("a b c".toList ++ DQUOTE :: LF :: [])),
          "/etc/r.conf".toList⟩ :: [])) none ∧
    getgenericconfig emptyEnv zeroJunk sampleTable none 4
        (some (⟨some ("# note\n".toList ++
          ("opt".toList ++ SP :: DQUOTE :: ("a b c".toList ++ DQUOTE :: LF :: []))),
          "/etc/r.conf".toList⟩ :: [])) unsetStore
      = getgenericconfig emptyEnv zeroJunk sampleTable none 4
        (some (⟨some ("opt".toList ++ SP :: DQUOTE :: ("a b c".toList ++ DQUOTE :: LF :: [])),
          "/etc/r.conf".toList⟩ :: [])) unsetStore :=
  skipped_line_no_effect emptyEnv zeroJunk sampleTable none 4 zeroLine "# note\n".toList
    ("opt".toList ++ SP :: DQUOTE :: ("a b c".toList ++ DQUOTE :: LF :: []))
    "/etc/r.conf".toList [] unsetStore
    ⟨[], "# note".toList, rfl, by decide, Or.inr ⟨" note".toList, rfl, by decide, by decide⟩⟩
    (fun b1 b2 => (sample_quoted_line b1 []).trans (sample_quoted_line b2 []).symm)

set_option maxRecDepth 1000000 in
/-- Counterexample to C14 as stated: a comment line of 1027 characters, `#`
followed by 1022 times `x` and then ` a b` and the newline, is not skipped as a
whole.  The first `fgets` call reads 1023 characters of it and the remainder
` a b` is classified as a scalar line, whereas on the empty remaining input
`getconfigline` reports the end of input. -/
theorem skipped_line_no_effect_counterexample :
    ('#' :: List.replicate 1022 'x' ++ " a b".toList).head? = some HASH ∧
    LF ∉ '#' :: List.replicate 1022 'x' ++ " a b".toList ∧
    getconfigline zeroLine
        (some [⟨some (('#' :: List.replicate 1022 'x' ++ " a b".toList) ++ [LF] ++ []),
          "/etc/r.conf".toList⟩]) none
      = .ret 1 (oneFile "/etc/r.conf" "") (some "a".toList) (some "b".toList) CONF_STR [] ∧
    getconfigline zeroLine (some [⟨some [], "/etc/r.conf".toList⟩]) none
      = .ret 1 none none none 0 [] := by
  decide

/-! ## Claims about the end of the input and about includes -/

/-- When the file on top is at its end and another file lies under it, the top
entry is popped and the line is read from the next file. -/
theorem getconfigline_pop (line0 : List Char) (path : CString) (f2 : List Char)
    (path2 : CString) (rest : List GConfFile) (block : Option CString) :
    getconfigline line0 (some (⟨some [], path⟩ :: ⟨some f2, path2⟩ :: rest)) block
      = getconfigline line0 (some (⟨some f2, path2⟩ :: rest)) block := by
  rw [← lineLoop_eq_getconfigline block
    (cfRounds (some (⟨some [], path⟩ :: ⟨some f2, path2⟩ :: rest))) line0 f2 path2 rest
    (cfRounds_pop _ _ _)]
  simp only [getconfigline, lineLoop, fgets, popgconffile]

/-- On an exhausted stack `getconfigline` reports the end of the input. -/
theorem getconfigline_exhausted (line0 : List Char) (cf : CfStack) (block : Option CString)
    (h : Exhausted cf) :
    getconfigline line0 cf block = .ret 1 (drained cf) none none 0 [] := by
  cases cf with
  | none => rfl
  | some l =>
    induction l with
    | nil => rfl
    | cons e rest ih =>
      obtain ⟨file, path⟩ := e
      have he : file = some [] := h ⟨file, path⟩ (by simp [entries])
      subst he
      cases rest with
      | nil => simp [getconfigline, lineLoop, fgets, popgconffile, drained, cfRounds]
      | cons next rest2 =>
        obtain ⟨file2, path2⟩ := next
        have he2 : file2 = some [] := h ⟨file2, path2⟩ (by simp [entries])
        subst he2
        rw [getconfigline_pop]
        exact ih (fun x hx => h x (by simp only [entries, Option.getD_some] at hx ⊢
                                      exact List.mem_cons_of_mem _ hx))

theorem getgenericconfig_binds (env : Env) (junk : Nat → List Char) (table : List Entry)
    (block : Option CString) (fuel n : Nat) (cf cf1 : CfStack) (st st1 : Store)
    (hb : Binds env junk table block fuel n cf st cf1 st1) :
    getgenericconfig env junk table block (fuel + n) cf st
      = getgenericconfig env junk table block fuel cf1 st1 := by
  induction n generalizing cf st with
  | zero =>
    obtain ⟨h1, h2⟩ := hb
    subst h1 h2
    rfl
  | succ n ih =>
    obtain ⟨cf2, o, v, t, lg, cf3, st3, hline, hbind, hrest⟩ := hb
    rw [← Nat.add_assoc,
      getgenericconfig_round env junk table block (fuel + n) cf cf2 st o v t lg hline, hbind]
    exact ih cf3 st3 hrest

/-- Claim C15: the end of the input ends `getgenericconfig` with success.  For
every table and every nesting context, when `n` lines in a row are included or
bound without error and every file of the stack is then at its end, the call
returns 1 with the destinations as the `n` lines left them; a call on a stack
that is exhausted or empty returns 1 without changing any destination; and
inside the block `server` a file that ends without the closing brace is
accepted. -/
theorem end_of_input_success (env : Env) (junk : Nat → List Char) (table : List Entry)
    (block : Option CString) (fuel n : Nat) (cf cf1 : CfStack) (st st1 : Store)
    (hb : Binds env junk table block (fuel + 1) n cf st cf1 st1)
    (hex : Exhausted cf1) :
    getgenericconfig env junk table block (fuel + 1 + n) cf st = .ret 1 (drained cf1) st1 [] ∧
    (∀ (cf0 : CfStack) (st0 : Store), Exhausted cf0 →
      getgenericconfig env junk table block (fuel + 1) cf0 st0 = .ret 1 (drained cf0) st0 []) ∧
    ((getgenericconfig emptyEnv zeroJunk sampleTable (some "server".toList) 5
        (oneFile "/etc/r.conf" "name foo\nflag on\n") unsetStore).code = some 1 ∧
      (getgenericconfig emptyEnv zeroJunk sampleTable (some "server".toList) 5
        (oneFile "/etc/r.conf" "name foo\nflag on\n") unsetStore).store.map
          (fun s => (s.str 0, s.bln 0)) = some (some "foo".toList, 1) ∧
      (getgenericconfig emptyEnv zeroJunk sampleTable (some "server".toList) 5
        (oneFile "/etc/r.conf" "name foo\nflag on\n") unsetStore).stack = some none) := by
  have hend : ∀ (cf0 : CfStack) (st0 : Store), Exhausted cf0 →
      getgenericconfig env junk table block (fuel + 1) cf0 st0
        = .ret 1 (drained cf0) st0 [] := by
    intro cf0 st0 h0
    simp only [getgenericconfig, getconfigline_exhausted (junk fuel) cf0 block h0,
      Nat.succ_ne_zero, if_false]
  refine ⟨?_, hend, ?_⟩
  · rw [getgenericconfig_binds env junk table block (fuel + 1) n cf cf1 st st1 hb]
    exact hend cf1 st1 hex
  · decide

/-- Witness for C15: inside the block `server` the lines `name foo` and
`flag on` are bound and the file ends without a closing brace. -/
theorem end_of_input_success_witness :
    getgenericconfig emptyEnv zeroJunk sampleTable (some "server".toList) (2 + 1 + 2)
        (oneFile "/etc/r.conf" "name foo\nflag on\n") unsetStore
      = .ret 1 (drained (oneFile "/etc/r.conf" ""))
          { str := Function.update unsetStore.str 0 (some "foo".toList),
            mstr := unsetStore.mstr,
            bln := Function.update unsetStore.bln 0 1 } [] ∧
    (∀ (cf0 : CfStack) (st0 : Store), Exhausted cf0 →
      getgenericconfig emptyEnv zeroJunk sampleTable (some "server".toList) (2 + 1) cf0 st0
        = .ret 1 (drained cf0) st0 []) ∧
    ((getgenericconfig emptyEnv zeroJunk sampleTable (some "server".toList) 5
        (oneFile "/etc/r.conf" "name foo\nflag on\n") unsetStore).code = some 1 ∧
      (getgenericconfig emptyEnv zeroJunk sampleTable (some "server".toList) 5
        (oneFile "/etc/r.conf" "name foo\nflag on\n") unsetStore).store.map
          (fun s => (s.str 0, s.bln 0)) = some (some "foo".toList, 1) ∧
      (getgenericconfig emptyEnv zeroJunk sampleTable (some "server".toList) 5
        (oneFile "/etc/r.conf" "name foo\nflag on\n") unsetStore).stack = some none) :=
  end_of_input_success emptyEnv zeroJunk sampleTable (some "server".toList) 2 2
    (oneFile "/etc/r.conf" "name foo\nflag on\n") (oneFile "/etc/r.conf" "") unsetStore
    { str := Function.update unsetStore.str 0 (some "foo".toList),
      mstr := unsetStore.mstr,
      bln := Function.update unsetStore.bln 0 1 }
    ⟨oneFile "/etc/r.conf" "flag on\n", "name".toList, "foo".toList, CONF_STR, [],
      oneFile "/etc/r.conf" "flag on\n",
      { str := Function.update unsetStore.str 0 (some "foo".toList),
        mstr := unsetStore.mstr, bln := unsetStore.bln },
      by decide, rfl,
      oneFile "/etc/r.conf" "", "flag".toList, "on".toList, CONF_STR, [],
      oneFile "/etc/r.conf" "",
      { str := Function.update unsetStore.str 0 (some "foo".toList),
        mstr := unsetStore.mstr,
        bln := Function.update unsetStore.bln 0 1 },
      by decide, rfl, rfl, rfl⟩
    (by
      intro e he
      simp only [entries, oneFile, Option.getD_some, List.mem_singleton] at he
      subst he
      rfl)

theorem finishLine_stack (mem : List Char) (cf : CfStack) (topt tval t : Nat)
    (r : Nat) (cf1 : CfStack) (o v : Option CString) (t1 : Nat) (lg : List Diag)
    (h : finishLine mem cf topt tval t = .ret r cf1 o v t1 lg) : cf1 = cf := by
  unfold finishLine at h
  split at h
  · split at h <;> cases h <;> rfl
  · cases h

theorem badShape_stack (block : Option CString) (mem : List Char) (cf : CfStack) (t0 : Nat)
    (r : Nat) (cf1 : CfStack) (o v : Option CString) (t1 : Nat) (lg : List Diag)
    (h : badShape block mem cf t0 = .ret r cf1 o v t1 lg) : cf1 = cf := by
  unfold badShape at h
  split at h <;> cases h <;> rfl

theorem classify_stack (block : Option CString) (mem : List Char) (cf : CfStack)
    (toks : List Nat)
    (r : Nat) (cf1 : CfStack) (o v : Option CString) (t1 : Nat) (lg : List Diag)
    (h : classify block mem cf toks = .ret r cf1 o v t1 lg) : cf1 = cf := by
  unfold classify at h
  split at h
  · exact finishLine_stack _ _ _ _ _ _ _ _ _ _ _ h
  · split at h
    · cases h
    · exact finishLine_stack _ _ _ _ _ _ _ _ _ _ _ h
    · split at h
      · cases h
      · exact finishLine_stack _ _ _ _ _ _ _ _ _ _ _ h
      · exact badShape_stack _ _ _ _ _ _ _ _ _ _ h
  · exact badShape_stack _ _ _ _ _ _ _ _ _ _ h
  · cases h

theorem lineLoop_stack (block : Option CString) (fuel : Nat) (line : List Char) (cf : CfStack)
    (r : Nat) (cf1 : CfStack) (name : CString) (v : Option CString) (t1 : Nat)
    (lg : List Diag)
    (h : lineLoop block fuel line cf = .ret r cf1 (some name) v t1 lg) :
    ∃ top rest, cf1 = some (top :: rest) := by
  induction fuel generalizing line cf with
  | zero => cases h
  | succ fuel ih =>
    unfold lineLoop at h
    split at h
    · split at h
      · split at h
        · exact ih _ _ h
        · cases h
      · split at h
        · cases h
        · cases h
        · exact ih _ _ h
        · split at h
          · cases h
          · split at h
            · exact ih _ _ h
            · split at h
              · split at h <;> cases h
              · exact ⟨_, _, classify_stack _ _ _ _ _ _ _ _ _ _ h⟩
    · cases h

/-- After a call of `getconfigline` that returns an option the stack holds the
file the line was read from. -/
theorem getconfigline_stack (line0 : List Char) (cf : CfStack) (block : Option CString)
    (r : Nat) (cf1 : CfStack) (name : CString) (v : Option CString) (t1 : Nat)
    (lg : List Diag)
    (h : getconfigline line0 cf block = .ret r cf1 (some name) v t1 lg) :
    ∃ top rest, cf1 = some (top :: rest) := by
  unfold getconfigline at h
  split at h
  · exact lineLoop_stack _ _ _ _ _ _ _ _ _ _ h
  · cases h

theorem pushLoop_fail (env : Env) (ps : List CString) (cf : CfStack) (f : Option (List Char))
    (h : ∃ m ∈ ps, env.fopen m = none) : (pushLoop env ps cf f).2 = none := by
  induction ps generalizing cf f with
  | nil =>
    obtain ⟨m, hm, _⟩ := h
    simp at hm
  | cons p ps ih =>
    cases hp : env.fopen p with
    | none => simp [pushLoop, pushgconffile, hp]
    | some g =>
      obtain ⟨m, hm, hmf⟩ := h
      have hm2 : m ∈ ps := by
        rcases List.mem_cons.1 hm with h1 | h1
        · subst h1
          rw [hp] at hmf
          cases hmf
        · exact h1
      have := ih (pushgconffile env cf p).1 (some g) ⟨m, hm2, hmf⟩
      cases cf <;> simpa [pushLoop, pushgconffile, hp] using this

theorem resolvePath_top (env : Env) (top : GConfFile) (rest : List GConfFile) (v : CString) :
    ∃ path, resolvePath env (some (top :: rest)) v = some path := by
  unfold resolvePath
  split
  · exact ⟨_, rfl⟩
  · exact ⟨_, rfl⟩

/-- Claim C16: an `include` line whose pattern fails to expand or to open is a
hard error.  When `glob` fails on the resolved pattern, `pushgconffiles` returns
NULL leaving the stack as it was, and `getgenericconfig` returns 0 at this
line, logging the failed include, with the rest of the file unread and every
destination unchanged; when `glob` succeeds but one of the matches cannot be
opened, `getgenericconfig` returns 0 at this line as well.  The binding table
plays no part: the result is the same for every table. -/
theorem include_failure_fatal (env : Env) (junk : Nat → List Char) (table : List Entry)
    (block : Option CString) (fuel : Nat) (cf cf1 : CfStack) (st : Store) (o v : CString)
    (lg : List Diag)
    (hline : getconfigline (junk fuel) cf block = .ret 1 cf1 (some o) (some v) CONF_STR lg)
    (hinc : strcasecmp o "include".toList = 0) :
    ((∀ path, resolvePath env cf1 v = some path → env.glob path = none) →
      pushgconffiles env cf1 v = some (cf1, none) ∧
      getgenericconfig env junk table block (fuel + 1) cf st
        = .ret 0 cf1 st [.includeFailed v]) ∧
    (∀ path ms, resolvePath env cf1 v = some path → env.glob path = some ms →
      (∃ m ∈ ms, env.fopen m = none) →
      ∃ cf2, pushgconffiles env cf1 v = some (cf2, none) ∧
        getgenericconfig env junk table block (fuel + 1) cf st
          = .ret 0 cf2 st [.includeFailed v]) := by
  obtain ⟨top, rest, hcf1⟩ := getconfigline_stack _ _ _ _ _ _ _ _ _ hline
  obtain ⟨path0, hpath0⟩ := resolvePath_top env top rest v
  rw [← hcf1] at hpath0
  have hrun := getgenericconfig_round env junk table block fuel cf cf1 st o v CONF_STR lg hline
  have hcond : CONF_STR = CONF_STR ∧ strcasecmp o "include".toList = 0 := ⟨rfl, hinc⟩
  constructor
  · intro hglob
    have hg := hglob path0 hpath0
    have hpush : pushgconffiles env cf1 v = some (cf1, none) := by
      simp only [pushgconffiles, hpath0, hg]
    refine ⟨hpush, ?_⟩
    rw [hrun]
    simp only [bindLine, hcond, and_self, if_true, hpush]
  · intro path ms hpath hglob hfail
    have hfail2 : ∃ m ∈ ms.reverse, env.fopen m = none := by
      obtain ⟨m, hm, hmf⟩ := hfail
      exact ⟨m, List.mem_reverse.2 hm, hmf⟩
    have h2 := pushLoop_fail env ms.reverse cf1 none hfail2
    have hpush : pushgconffiles env cf1 v
        = some ((pushLoop env ms.reverse cf1 none).1, none) := by
      simp only [pushgconffiles, hpath, hglob]
      exact congrArg some (Prod.ext rfl h2)
    refine ⟨_, hpush, ?_⟩
    rw [hrun]
    simp only [bindLine, hcond, and_self, if_true, hpush]

/-- Witness for C16: the line `Include missing/*.conf` in a file system where
the pattern matches nothing, in front of a `name` line. -/
theorem include_failure_fatal_witness :
    pushgconffiles subEnv (oneFile "/etc/root.conf" "name foo\n") "missing/*.conf".toList
      = some (oneFile "/etc/root.conf" "name foo\n", none) ∧
    getgenericconfig subEnv zeroJunk sampleTable none (3 + 1)
        (oneFile "/etc/root.conf" "Include missing/*.conf\nname foo\n") unsetStore
      = .ret 0 (oneFile "/etc/root.conf" "name foo\n") unsetStore
          [.includeFailed "missing/*.conf".toList] :=
  (include_failure_fatal subEnv zeroJunk sampleTable none 3
    (oneFile "/etc/root.conf" "Include missing/*.conf\nname foo\n")
    (oneFile "/etc/root.conf" "name foo\n") unsetStore "Include".toList
    "missing/*.conf".toList [] (by decide) (by decide)).1
    (by
      intro path hp
      have h0 : resolvePath subEnv (oneFile "/etc/root.conf" "name foo\n")
          "missing/*.conf".toList = some "/etc/missing/*.conf".toList := by decide
      rw [h0] at hp
      cases hp
      decide)

/-! ## Claims about the kind check -/

theorem dispatch_stop_store (block : Option CString) (cf : CfStack) (st : Store)
    (o v : CString) (b : Binding) (r : Nat) (cf1 : CfStack) (st1 : Store) (lg : List Diag)
    (h : dispatch block cf st o v b = .stop r cf1 st1 lg) : st1 = st := by
  unfold dispatch at h
  split at h
  · split at h
    · cases h
      rfl
    · cases h
  · split at h
    · cases h
    · split at h <;> cases h
  · split at h
    · cases h
    · split at h
      · cases h
      · split at h <;> cases h <;> rfl
  · cases h
  · cases h
    rfl

theorem bindLine_stop_store (env : Env) (table : List Entry) (block : Option CString)
    (cf : CfStack) (st : Store) (o v : CString) (t : Nat) (r : Nat) (cf1 : CfStack)
    (st1 : Store) (lg : List Diag)
    (h : bindLine env table block cf st o v t = .stop r cf1 st1 lg) : st1 = st := by
  unfold bindLine at h
  split at h
  · split at h
    · cases h
    · cases h
      rfl
    · cases h
  · split at h
    · cases h
      rfl
    · split at h <;> cases h <;> rfl
    · split at h
      · split at h <;> cases h <;> rfl
      · exact dispatch_stop_store _ _ _ _ _ _ _ _ _ _ h

/-- Claim C17: for a classified line that reaches the lookup (it is no `include`
directive) and whose name matches the binding `b`, `getgenericconfig` returns 0
with the wrong-syntax message, the stack and every destination unchanged and
no callback called, when `b` is a string, multi-string or boolean binding and
the line opens a block, or when `b` is a block callback and the line is a
scalar line; a line that is bound has the kind its binding asks for; and a
line that makes the call return leaves every destination unchanged. -/
theorem kind_check (env : Env) (junk : Nat → List Char) (table : List Entry)
    (block : Option CString) (fuel : Nat) (cf cf1 : CfStack) (st : Store) (o v : CString)
    (t : Nat) (lg : List Diag) (b : Binding)
    (hline : getconfigline (junk fuel) cf block = .ret 1 cf1 (some o) (some v) t lg)
    (hinc : ¬ (t = CONF_STR ∧ strcasecmp o "include".toList = 0))
    (hl : lookup o table = .found b) :
    (((∃ a, b = .str a ∨ b = .mstr a ∨ b = .bln a) ∧ t = CONF_CBK) ∨
        ((∃ f arg, b = .cbk f arg) ∧ t = CONF_STR) →
      getgenericconfig env junk table block (fuel + 1) cf st
        = .ret 0 cf1 st
            (match block with
              | some bl => [.wrongKindInBlock bl o, .wrongKind o]
              | none => [.wrongKind o])) ∧
    (∀ cf2 st2, bindLine env table block cf1 st o v t = .cont cf2 st2 →
      ((∃ a, b = .str a ∨ b = .mstr a ∨ b = .bln a) → t = CONF_STR) ∧
      ((∃ f arg, b = .cbk f arg) → t = CONF_CBK)) ∧
    (∀ r cf2 st2 lg2, bindLine env table block cf1 st o v t = .stop r cf2 st2 lg2 →
      st2 = st) := by
  have hrun := getgenericconfig_round env junk table block fuel cf cf1 st o v t lg hline
  refine ⟨?_, ?_, fun r cf2 st2 lg2 h => bindLine_stop_store _ _ _ _ _ _ _ _ _ _ _ _ h⟩
  · intro hk
    have hmis : kindMismatch b.type t = true := by
      rcases hk with ⟨⟨a, hb | hb | hb⟩, ht⟩ | ⟨⟨f, arg, hb⟩, ht⟩ <;> subst hb <;> subst ht <;>
        simp [kindMismatch, Binding.type, CONF_STR, CONF_CBK, CONF_MSTR, CONF_BLN]
    rw [hrun]
    cases block <;> simp only [bindLine, hinc, if_false, hl, hmis, if_true]
  · intro cf2 st2 hcont
    have hmis : kindMismatch b.type t = false := by
      cases hm : kindMismatch b.type t with
      | false => rfl
      | true =>
        exfalso
        cases block <;> simp only [bindLine, hinc, if_false, hl, hm, if_true] at hcont <;>
          cases hcont
    constructor
    · rintro ⟨a, hb | hb | hb⟩ <;> subst hb <;>
        simpa [kindMismatch, Binding.type, CONF_STR, CONF_CBK, CONF_MSTR, CONF_BLN] using hmis
    · rintro ⟨f, arg, hb⟩
      subst hb
      simpa [kindMismatch, Binding.type, CONF_STR, CONF_CBK, CONF_MSTR, CONF_BLN] using hmis

/-- Witness for C17: the block opening `name main {` against the string binding
`name`, and the scalar line `server main` against the block callback `server`,
whose call would set the boolean variable 9. -/
theorem kind_check_witness :
    getgenericconfig emptyEnv zeroJunk sampleTable none (3 + 1)
        (some [⟨some ("name main ".toList ++ LBRACE :: LF :: "flag on\n".toList),
          "/etc/r.conf".toList⟩]) unsetStore
      = .ret 0 (oneFile "/etc/r.conf" "flag on\n") unsetStore [.wrongKind "name".toList] ∧
    getgenericconfig emptyEnv zeroJunk blockTable none (3 + 1)
        (oneFile "/etc/r.conf" "server main\nflag on\n") unsetStore
      = .ret 0 (oneFile "/etc/r.conf" "flag on\n") unsetStore [.wrongKind "server".toList] :=
  ⟨(kind_check emptyEnv zeroJunk sampleTable none 3
      (some [⟨some ("name main ".toList ++ LBRACE :: LF :: "flag on\n".toList),
        "/etc/r.conf".toList⟩])
      (oneFile "/etc/r.conf" "flag on\n") unsetStore "name".toList "main".toList CONF_CBK []
      (.str (some 0)) (by decide) (by decide) rfl).1
      (Or.inl ⟨⟨some 0, Or.inl rfl⟩, rfl⟩),
    (kind_check emptyEnv zeroJunk blockTable none 3
      (oneFile "/etc/r.conf" "server main\nflag on\n")
      (oneFile "/etc/r.conf" "flag on\n") unsetStore "server".toList "main".toList CONF_STR []
      (.cbk (some markCallback) 0) (by decide) (by decide) rfl).1
      (Or.inr ⟨⟨some markCallback, 0, rfl⟩, rfl⟩)⟩

/-! ## Claims about reading through the file stack -/

theorem fgetsChunk_append (n : Nat) (s : List Char) :
    (fgetsChunk n s).1 ++ (fgetsChunk n s).2 = s := by
  induction s generalizing n with
  | nil => cases n <;> simp [fgetsChunk]
  | cons c s ih =>
    cases n with
    | zero => simp [fgetsChunk]
    | succ n =>
      by_cases hc : c = LF
      · simp [fgetsChunk, hc]
      · simp [fgetsChunk, hc, ih n]

theorem fgets_split (line f line1 f1 : List Char) (h : fgets line 1024 f = some (line1, f1)) :
    ∃ chunk, f = chunk ++ f1 := by
  cases f with
  | nil => simp [fgets] at h
  | cons c s =>
    simp only [fgets, Option.some.injEq, Prod.mk.injEq] at h
    exact ⟨(fgetsChunk (1024 - 1) (c :: s)).1, by rw [← h.2, fgetsChunk_append]⟩

theorem fgets_none (line f : List Char) (h : fgets line 1024 f = none) : f = [] := by
  cases f with
  | nil => rfl
  | cons c s => simp [fgets] at h

theorem fallsTo_stay (f : List Char) (path : CString) (rest : List GConfFile)
    (chunk f1 : List Char) (hf : f = chunk ++ f1) :
    FallsTo (⟨some f, path⟩ :: rest) (some (⟨some f1, path⟩ :: rest)) chunk :=
  Or.inl ⟨chunk, f1, by rw [hf], rfl, rfl⟩

theorem fallsTo_lift (chunk f1 : List Char) (path : CString) (rest : List GConfFile)
    (cf1 : CfStack) (c : List Char) (h : FallsTo (⟨some f1, path⟩ :: rest) cf1 c) :
    FallsTo (⟨some (chunk ++ f1), path⟩ :: rest) cf1 (chunk ++ c) := by
  rcases h with ⟨c1, g, hfile, hc, hcf⟩ | ⟨f, c2, hfile, hc, hrest⟩
  · simp only [Option.some.injEq] at hfile
    exact Or.inl ⟨chunk ++ c1, g, by simp [hfile], by rw [hc], hcf⟩
  · simp only [Option.some.injEq] at hfile
    exact Or.inr ⟨chunk ++ f1, c2, rfl, by rw [hc, hfile, List.append_assoc], hrest⟩

theorem fallsTo_pending (es : List GConfFile) (cf1 : CfStack) (c : List Char)
    (h : FallsTo es cf1 c) : pending es = c ++ pending (entries cf1) := by
  induction es generalizing c with
  | nil =>
    obtain ⟨h1, h2⟩ := h
    subst h1 h2
    rfl
  | cons e rest ih =>
    rcases h with ⟨c1, g, hfile, hc, hcf⟩ | ⟨f, c2, hfile, hc, hrest⟩
    · subst hc hcf
      simp [pending, entries, hfile]
    · subst hc
      simp [pending, hfile, ih c2 hrest]

theorem finishLine_opt (mem : List Char) (cf : CfStack) (topt tval t : Nat)
    (r : Nat) (cf1 : CfStack) (o v : Option CString) (t1 : Nat) (lg : List Diag)
    (h : finishLine mem cf topt tval t = .ret r cf1 o v t1 lg) (hr : r = 1) : o ≠ none := by
  unfold finishLine at h
  split at h
  · split at h
    · cases h
      simp
    · cases h
      cases hr
  · cases h

theorem badShape_opt (block : Option CString) (mem : List Char) (cf : CfStack) (t0 : Nat)
    (r : Nat) (cf1 : CfStack) (o v : Option CString) (t1 : Nat) (lg : List Diag)
    (h : badShape block mem cf t0 = .ret r cf1 o v t1 lg) (hr : r = 1) : o ≠ none := by
  unfold badShape at h
  split at h <;> cases h <;> cases hr

theorem classify_opt (block : Option CString) (mem : List Char) (cf : CfStack)
    (toks : List Nat)
    (r : Nat) (cf1 : CfStack) (o v : Option CString) (t1 : Nat) (lg : List Diag)
    (h : classify block mem cf toks = .ret r cf1 o v t1 lg) (hr : r = 1) : o ≠ none := by
  unfold classify at h
  split at h
  · exact finishLine_opt _ _ _ _ _ _ _ _ _ _ _ h hr
  · split at h
    · cases h
    · exact finishLine_opt _ _ _ _ _ _ _ _ _ _ _ h hr
    · split at h
      · cases h
      · exact finishLine_opt _ _ _ _ _ _ _ _ _ _ _ h hr
      · exact badShape_opt _ _ _ _ _ _ _ _ _ _ h hr
  · exact badShape_opt _ _ _ _ _ _ _ _ _ _ h hr
  · cases h

theorem lineLoop_falls (block : Option CString) (fuel : Nat) (line f : List Char)
    (path : CString) (rest : List GConfFile)
    (r : Nat) (cf1 : CfStack) (o v : Option CString) (t1 : Nat) (lg : List Diag)
    (hopen : ∀ e ∈ rest, ∃ g, e.file = some g)
    (h : lineLoop block fuel line (some (⟨some f, path⟩ :: rest)) = .ret r cf1 o v t1 lg) :
    (∃ c, FallsTo (⟨some f, path⟩ :: rest) cf1 c) ∧
      (block = none → r = 1 → o = none → cf1 = none) := by
  induction fuel generalizing line f path rest with
  | zero => cases h
  | succ n ih =>
    rw [lineLoop] at h
    cases hf : fgets line 1024 f with
    | none =>
      have hfe := fgets_none _ _ hf
      subst hfe
      simp only [hf] at h
      cases rest with
      | nil =>
        simp only [popgconffile] at h
        cases h
        exact ⟨⟨[], Or.inr ⟨[], [], rfl, rfl, rfl, rfl⟩⟩, fun _ _ _ => rfl⟩
      | cons next rest2 =>
        obtain ⟨g, hg⟩ := hopen next (List.mem_cons_self _ _)
        obtain ⟨nfile, npath⟩ := next
        simp only at hg
        subst hg
        simp only [popgconffile] at h
        obtain ⟨⟨c, hc⟩, hend⟩ := ih line g npath rest2
          (fun e he => hopen e (List.mem_cons_of_mem _ he)) h
        exact ⟨⟨[] ++ c, Or.inr ⟨[], c, rfl, rfl, hc⟩⟩, hend⟩
    | some p =>
      obtain ⟨line1, f1⟩ := p
      obtain ⟨chunk, hchunk⟩ := fgets_split _ _ _ _ hf
      have hstay := fallsTo_stay f path rest chunk f1 hchunk
      have hrec : ∀ mem, lineLoop block n mem (some (⟨some f1, path⟩ :: rest))
          = .ret r cf1 o v t1 lg →
          (∃ c, FallsTo (⟨some f, path⟩ :: rest) cf1 c) ∧
            (block = none → r = 1 → o = none → cf1 = none) := by
        intro mem hm
        obtain ⟨⟨c, hc⟩, hend⟩ := ih mem f1 path rest hopen hm
        refine ⟨⟨chunk ++ c, ?_⟩, hend⟩
        rw [hchunk]
        exact fallsTo_lift chunk f1 path rest cf1 c hc
      simp only [hf] at h
      cases ht : tokenLoop 3 line1 0 [] with
      | error mem =>
        simp only [ht] at h
        cases h
        exact ⟨⟨chunk, hstay⟩, fun _ hr => absurd hr (by decide)⟩
      | fault =>
        simp only [ht] at h
        cases h
      | done mem toks =>
        cases toks with
        | nil =>
          simp only [ht] at h
          exact hrec mem h
        | cons t0 ts =>
          simp only [ht] at h
          cases hc : mem.get? t0 with
          | none =>
            simp only [hc] at h
            cases h
          | some c0 =>
            simp only [hc] at h
            by_cases h1 : c0 = HASH
            · simp only [h1, if_true] at h
              exact hrec mem h
            · simp only [h1, if_false] at h
              by_cases h2 : c0 = RBRACE
              · simp only [h2, if_true] at h
                cases block with
                | none =>
                  simp only at h
                  cases h
                  exact ⟨⟨chunk, hstay⟩, fun _ hr => absurd hr (by decide)⟩
                | some bl =>
                  simp only at h
                  cases h
                  exact ⟨⟨chunk, hstay⟩, fun hb => absurd hb (by simp)⟩
              · simp only [h2, if_false] at h
                have hcf := classify_stack _ _ _ _ _ _ _ _ _ _ h
                subst hcf
                exact ⟨⟨chunk, hstay⟩,
                  fun _ hr ho => absurd ho (classify_opt _ _ _ _ _ _ _ _ _ _ h hr)⟩

/-- Claim C18: reading falls through the file stack.  On a stack of open files
a call of `getconfigline` reads a run `c` of the characters not yet read, taken
from the file on top first and, each time a file is at its end, from the file
under it, the exhausted file being popped and the entries under it keeping
their order (`FallsTo`); what is left to read afterwards is what was left
before without `c`.  At top level the end of the input is reported only with
the stack freed (NULL) and everything read.  A file at its end on top of
another is popped and the line comes from the next file; popping the last file
leaves the stack NULL. -/
theorem reading_falls_through (line0 : List Char) (es : List GConfFile)
    (block : Option CString) (r : Nat) (cf1 : CfStack) (o v : Option CString) (t1 : Nat)
    (lg : List Diag)
    (hopen : ∀ e ∈ es, ∃ g, e.file = some g) (hne : es ≠ [])
    (h : getconfigline line0 (some es) block = .ret r cf1 o v t1 lg) :
    (∃ c, FallsTo es cf1 c ∧ pending es = c ++ pending (entries cf1) ∧
      (block = none → r = 1 → o = none → cf1 = none ∧ c = pending es)) ∧
    (∀ (path : CString) (f2 : List Char) (path2 : CString) (rest : List GConfFile),
      getconfigline line0 (some (⟨some [], path⟩ :: ⟨some f2, path2⟩ :: rest)) block
        = getconfigline line0 (some (⟨some f2, path2⟩ :: rest)) block) ∧
    (∀ path : CString,
      getconfigline line0 (some [⟨some [], path⟩]) block = .ret 1 none none none 0 []) := by
  refine ⟨?_, fun path f2 path2 rest => getconfigline_pop line0 path f2 path2 rest block,
    fun path => ?_⟩
  · cases es with
    | nil => exact absurd rfl hne
    | cons e rest =>
      obtain ⟨g, hg⟩ := hopen e (List.mem_cons_self _ _)
      obtain ⟨file, path⟩ := e
      simp only at hg
      subst hg
      simp only [getconfigline] at h
      obtain ⟨⟨c, hc⟩, hend⟩ := lineLoop_falls block _ line0 g path rest r cf1 o v t1 lg
        (fun x hx => hopen x (List.mem_cons_of_mem _ hx)) h
      have hp := fallsTo_pending _ cf1 c hc
      refine ⟨c, hc, hp, fun hb hr ho => ?_⟩
      have hnone := hend hb hr ho
      refine ⟨hnone, ?_⟩
      rw [hp, hnone]
      simp [entries, pending]
  · exact getconfigline_exhausted line0 (some [⟨some [], path⟩]) block
      (by
        intro e he
        simp only [entries, Option.getD_some, List.mem_singleton] at he
        subst he
        rfl)

/-- Witness for C18: the included file `a.conf`, with a comment line left, lies
on top of `root.conf`; one call reads the comment, pops `a.conf` and returns
the line `name foo` of `root.conf`, whose entry keeps the unread `flag on`. -/
theorem reading_falls_through_witness :
    getconfigline zeroLine
        (some [⟨some "# end\n".toList, "/etc/sub/a.conf".toList⟩,
          ⟨some "name foo\nflag on\n".toList, "/etc/root.conf".toList⟩]) none
      = .ret 1 (oneFile "/etc/root.conf" "flag on\n") (some "name".toList)
          (some "foo".toList) CONF_STR [] ∧
    ∃ c, FallsTo [⟨some "# end\n".toList, "/etc/sub/a.conf".toList⟩,
          ⟨some "name foo\nflag on\n".toList, "/etc/root.conf".toList⟩]
        (oneFile "/etc/root.conf" "flag on\n") c ∧
      pending [⟨some "# end\n".toList, "/etc/sub/a.conf".toList⟩,
          ⟨some "name foo\nflag on\n".toList, "/etc/root.conf".toList⟩]
        = c ++ pending (entries (oneFile "/etc/root.conf" "flag on\n")) :=
  ⟨by decide,
    (reading_falls_through zeroLine
      [⟨some "# end\n".toList, "/etc/sub/a.conf".toList⟩,
        ⟨some "name foo\nflag on\n".toList, "/etc/root.conf".toList⟩]
      none 1 (oneFile "/etc/root.conf" "flag on\n")
      (some "name".toList) (some "foo".toList) CONF_STR []
      (by
        intro e he
        simp only [List.mem_cons, List.mem_singleton, List.not_mem_nil, or_false] at he
        rcases he with h | h
        · exact ⟨"# end\n".toList, by rw [h]⟩
        · exact ⟨"name foo\nflag on\n".toList, by rw [h]⟩)
      (by simp) (by decide)).1.imp (fun _ hc => ⟨hc.1, hc.2.1⟩)⟩

/-! ## Claims about the cursor of the tokenizer and about `print_hex` -/

set_option maxRecDepth 1000000 in
/-- Claim C19, the code at the failing input: on the buffer holding the line
`x` (terminator at index 1, bytes `v`, newline, NUL of an earlier line behind
it) the tokenizer returns the token `x` and the cursor 2, one past the
terminator.  So on the file made of the comment line `# v` and the last line
`x`, which has no newline, `getconfigline` reads the `v` the comment left in
the buffer and returns the option `x` with the value `v`; with a buffer of
zero bytes the same last line is a syntax error, and with a buffer filled with
the letter `x` the tokenizer reads past the end of the buffer. -/
theorem strtokenquote_cursor_past_terminator :
    strtokenquote ('x' :: NUL :: 'v' :: LF :: NUL :: []) (some 0) true (some DELIMS)
        (some QUOTES) (some COMMENTS)
      = .ok ('x' :: NUL :: 'v' :: LF :: NUL :: []) (some 0) 2 ∧
    getconfigline zeroLine (oneFile "/etc/r.conf" "# v\nx") none
      = .ret 1 (oneFile "/etc/r.conf" "") (some "x".toList) (some "v".toList) CONF_STR [] ∧
    getconfigline zeroLine (oneFile "/etc/r.conf" "x") none
      = .ret 0 (oneFile "/etc/r.conf" "") none none 0 [.badLine (some "x".toList)] ∧
    getconfigline (List.replicate 1024 'x') (oneFile "/etc/r.conf" "x") none = .fault := by
  decide

theorem hexLoop_zero_length (fuel : Nat) (out : List Printf) :
    hexLoop (List.replicate 20 0 ++ [1, 0]) fuel 20 2 out = .nofuel := by
  induction fuel generalizing out with
  | zero => rfl
  | succ n ih =>
    have h1 : rd (List.replicate 20 0 ++ [1, 0]) (20 + 1) = some 0 := by decide
    have h0 : rd (List.replicate 20 0 ++ [1, 0]) 20 = some 1 := by decide
    have ha : dumpAttr (List.replicate 20 0 ++ [1, 0]) (20 + 2) (((0 : Nat) : Int) - 2).toNat 0
        = some [] := by decide
    have hp : (20 : Int) + 2 + (((0 : Nat) : Int) - 2) = 20 := by decide
    have ht : (2 : Int) - 2 - (((0 : Nat) : Int) - 2) = 2 := by decide
    have hgt : ¬ (((0 : Nat) : Int) > 2) := by decide
    rw [hexLoop]
    simp only [show (2 : Int) > 0 from by decide, show ¬ ((2 : Int) < 2) from by decide, if_true,
      if_false, h1, hgt, h0, ha, hp, ht]
    exact ih _

/-- Claim C20, the code at the failing input: on a packet of 22 bytes whose
attribute has the length byte 0, every round of the attribute loop of
`print_hex` leaves `ptr` and `total` as they were (`attrlen` is -2, so that 2 is
taken from `total` and added again), and the function does not return within
any number of rounds; with the length byte 1 it returns after two rounds. -/
theorem print_hex_zero_length_loops :
    (∀ fuel : Nat, print_hex fuel zeroLenPacket = .nofuel) ∧
    (∀ (fuel : Nat) (out : List Printf),
      hexLoop (List.replicate 20 0 ++ [1, 0]) fuel 20 2 out = .nofuel) ∧
    (print_hex 2 oneLenPacket ≠ .nofuel ∧ print_hex 2 oneLenPacket ≠ .fault) := by
  refine ⟨?_, hexLoop_zero_length, by decide⟩
  intro fuel
  have hv : readVector (List.replicate 20 0 ++ [1, 0]) 16 4
      = some (List.replicate 16 ⟨"%02x", [0]⟩) := by decide
  simp only [print_hex, zeroLenPacket, hv]
  exact hexLoop_zero_length fuel _

end Gconfig
